import Mathlib

/-!
Verification of the wattsup dungeon/laser core: a shallow embedding of the
room-graph generator (`world.js`), the tile catalog repair pass
(`dungeonGen.js`), the laser collision tracer (collision system), and the
power-routing state machine (`powerManagement.js`), together with theorems
settling the specification's claims about them.

Numbers: world generation uses only integer pixel arithmetic, embedded as
`Int`/`Nat`.  The laser/power geometry uses JavaScript doubles only for
quantities that are compared monotonically (distances under `Math.sqrt`) or
that stay rational; it is embedded over `ℚ`, comparing squared distances
where the source compares square roots.  The seeded linear congruential
generator's `randomInt(min,max)` computes
`Math.floor(((seed-1)/2147483646)*(max-min))+min` in doubles; for the range
sizes used here (≤ 32) the double computation agrees with the exact
integer form `(seed-1)*(max-min)/2147483646 + min` except possibly when the
exact value is within ~1e-14 of an integer boundary, which cannot happen
since the exact value has denominator 2147483646 (its distance to an
integer is 0 or ≥ 1/2147483646 ≈ 4.7e-10, and the divisible cases round
exactly); we embed the exact integer form.
-/

namespace Watt

/-- Compass directions used by room exits and laser emitters. -/
inductive Dir where
  | N | S | E | W
deriving DecidableEq, Repr

/-- Modulus of the linear congruential PRNG from `utils.js` (`SeededRandom`). -/
def lcgModulus : Nat := 2147483647

/-- `new SeededRandom(seed)` for a nonnegative integer seed:
`seed % 2147483647`, bumped to `2147483646` when the remainder is `0`. -/
def lcgInit (seed : Nat) : Nat :=
  let m := seed % lcgModulus
  if m = 0 then 2147483646 else m

/-- One LCG step (the seed update performed by `random()`):
`seed = seed * 16807 % 2147483647`. -/
def lcgNext (s : Nat) : Nat := s * 16807 % lcgModulus

/-- `randomInt(min, max)`: advances the seed and returns
`floor(random() * (max - min)) + min` (exact integer form, see header). -/
def randomInt (s : Nat) (lo hi : Nat) : Nat × Nat :=
  let s1 := lcgNext s
  (s1, (s1 - 1) * (hi - lo) / 2147483646 + lo)

/-- `randomInt(0, hi)` always returns an index `< hi` (for `hi > 0`), so
`choice(array)` never reads out of range. -/
theorem randomInt_lt (s hi : Nat) (hhi : 0 < hi) :
    (randomInt s 0 hi).2 < hi := by
  unfold randomInt
  simp only [Nat.sub_zero, Nat.add_zero]
  have hlt : lcgNext s < lcgModulus := Nat.mod_lt _ (by norm_num [lcgModulus])
  have h1 : lcgNext s - 1 < 2147483646 := by
    unfold lcgModulus at hlt; omega
  exact Nat.div_lt_of_lt_mul
    (Nat.mul_lt_mul_of_lt_of_le h1 (Nat.le_refl hi) hhi)

/-- `array.splice(i, 1)[0]` companion: the list with element `i` removed. -/
def spliceOut (l : List α) (i : Nat) : List α :=
  l.take i ++ l.drop (i + 1)

theorem spliceOut_length (l : List α) (i : Nat) (h : i < l.length) :
    (spliceOut l i).length = l.length - 1 := by
  unfold spliceOut
  simp [List.length_take, List.length_drop]
  omega

theorem spliceOut_subset (l : List α) (i : Nat) :
    ∀ x ∈ spliceOut l i, x ∈ l := by
  intro x hx
  unfold spliceOut at hx
  rcases List.mem_append.mp hx with h | h
  · exact List.mem_of_mem_take h
  · exact List.mem_of_mem_drop h

end Watt

namespace Watt

/-! ## Room collision maps (`world.js`: `WorldRoom`) -/

/-- The authored room-template data consumed by `WorldRoom`
(`id`, `size = [w, h]`, `start`/`exit` flags, collision rows of `#`/`.`
characters, exits as a direction-keyed map of local coordinates). -/
structure Tile where
  id : String
  size : Option (Nat × Nat)
  start : Bool := false
  exit : Bool := false
  collision : List (List Char) := []
  exits : List (Dir × (Int × Int)) := []
deriving Repr, DecidableEq

/-- `size ? size[0] : 4` -/
def Tile.sizeW (t : Tile) : Nat :=
  match t.size with
  | some (w, _) => w
  | none => 4

/-- `size ? size[1] : 4` -/
def Tile.sizeH (t : Tile) : Nat :=
  match t.size with
  | some (_, h) => h
  | none => 4

/-- The `tileHeight` computed by `WorldRoom.createCollisionMap`:
`collision.length || size[1] || 4` (JS `||`, so `0` falls through). -/
def tileHeightOf (t : Tile) : Nat :=
  if t.collision.length = 0 then t.sizeH else t.collision.length

/-- The `tileWidth` computed by `WorldRoom.createCollisionMap`:
first `actualWidth = collision.length > 0 ? collision[0].length : size[0]`,
then `actualWidth || size[0] || 4`. -/
def tileWidthOf (t : Tile) : Nat :=
  let actualWidth :=
    match t.collision with
    | [] => t.sizeW
    | row0 :: _ => row0.length
  if actualWidth = 0 then t.sizeW else actualWidth

/-- The boolean the constructor stores for cell `(x, y)`: the authored
collision character exists at that position and equals `#`. -/
def collisionCell (t : Tile) (x y : Nat) : Bool :=
  match t.collision[y]? with
  | some row => match row[x]? with
    | some c => c = '#'
    | none => false
  | none => false

/-- One row of the collision map built by `createCollisionMap`. -/
def collisionRow (t : Tile) (y : Nat) : List Bool :=
  (List.range (tileWidthOf t)).map fun x => collisionCell t x y

/-- `WorldRoom.createCollisionMap`: a `tileHeight × tileWidth` boolean grid,
padding with floor (`false`) wherever the authored rows are short. -/
def createCollisionMap (t : Tile) : List (List Bool) :=
  (List.range (tileHeightOf t)).map (collisionRow t)

/-- `WorldRoom.hasCollisionAt(localPos)`, with the map lookup kept partial
(`none` would mean an out-of-range read of `collisionMap`). -/
def hasCollisionAt (t : Tile) (x y : Int) : Option Bool :=
  if x < 0 ∨ (tileWidthOf t : Int) ≤ x ∨ y < 0 ∨ (tileHeightOf t : Int) ≤ y then
    some true
  else
    match (createCollisionMap t)[y.toNat]? with
    | some row => row[x.toNat]?
    | none => none

theorem createCollisionMap_length (t : Tile) :
    (createCollisionMap t).length = tileHeightOf t := by
  simp [createCollisionMap]

theorem collisionRow_length (t : Tile) (y : Nat) :
    (collisionRow t y).length = tileWidthOf t := by
  simp [collisionRow]

/-- C10, in-bounds part: inside the room every query returns exactly the
collision-map entry (in particular the map indexing is in range). -/
theorem hasCollisionAt_inBounds (t : Tile) (x y : Int)
    (hx0 : 0 ≤ x) (hxw : x < (tileWidthOf t : Int))
    (hy0 : 0 ≤ y) (hyh : y < (tileHeightOf t : Int)) :
    hasCollisionAt t x y = some (collisionCell t x.toNat y.toNat) := by
  have hyn : y.toNat < tileHeightOf t := by omega
  have hxn : x.toNat < tileWidthOf t := by omega
  unfold hasCollisionAt
  rw [if_neg (by push_neg; exact ⟨hx0, hxw, hy0, hyh⟩)]
  have hrow : (createCollisionMap t)[y.toNat]? = some (collisionRow t y.toNat) := by
    unfold createCollisionMap
    simp [List.getElem?_map, List.getElem?_range hyn]
  rw [hrow]
  unfold collisionRow
  simp [List.getElem?_map, List.getElem?_range hxn]

/-- C10, out-of-bounds part: any query outside the room bounds is a wall. -/
theorem hasCollisionAt_outOfBounds (t : Tile) (x y : Int)
    (h : x < 0 ∨ (tileWidthOf t : Int) ≤ x ∨ y < 0 ∨ (tileHeightOf t : Int) ≤ y) :
    hasCollisionAt t x y = some true := by
  unfold hasCollisionAt
  rw [if_pos h]

end Watt

namespace Watt

/-! ## World graph generation (`world.js`: `WorldManager`) -/

/-- `TILE_SIZE` from `constants.js`. -/
def TILE_SIZE : Int := 64

/-- A placed room instance (`WorldRoom`), restricted to the fields world
generation reads and writes: the cloned template, pixel origin, grid
coordinate, tile/pixel dimensions, normalized exits and the exit flag. -/
structure Room where
  tile : Tile
  worldX : Int
  worldY : Int
  roomX : Int
  roomY : Int
  tileW : Nat
  tileH : Nat
  width : Int
  height : Int
  exits : List (Dir × (Int × Int))
  isExit : Bool
deriving DecidableEq, Repr

/-- `WorldRoom` constructor: dimensions from the collision map, pixel size
`tileWidth*TILE_SIZE × tileHeight*TILE_SIZE`, exits clamped into bounds
(`normalizeExits`), `isExit` unset. -/
def mkRoom (t : Tile) (wx wy rx ry : Int) : Room :=
  let tw := tileWidthOf t
  let th := tileHeightOf t
  { tile := t, worldX := wx, worldY := wy, roomX := rx, roomY := ry,
    tileW := tw, tileH := th,
    width := (tw : Int) * TILE_SIZE, height := (th : Int) * TILE_SIZE,
    exits := t.exits.map fun de =>
      (de.1, (max 0 (min de.2.1 ((tw : Int) - 1)), max 0 (min de.2.2 ((th : Int) - 1)))),
    isExit := false }

/-- `room.getBounds()` (pixel rectangle). -/
structure RBounds where
  left : Int
  right : Int
  top : Int
  bottom : Int
deriving Repr

def Room.getBounds (r : Room) : RBounds :=
  { left := r.worldX, right := r.worldX + r.width,
    top := r.worldY, bottom := r.worldY + r.height }

/-- `levelConstraints`. -/
structure Constraints where
  maxRooms : Nat
  maxExits : Nat
  maxWidth : Nat
  maxHeight : Nat
  minRooms : Nat
deriving DecidableEq, Repr

/-- `levelBounds`. -/
structure LvlBounds where
  minX : Int
  maxX : Int
  minY : Int
  maxY : Int
deriving DecidableEq, Repr

/-- `adjustConstraintsForLevel(levelNumber)`. -/
def adjustConstraintsForLevel (lvl : Nat) : Constraints :=
  { maxRooms := min (6 + lvl / 2) 15,
    maxExits := 1,
    maxWidth := min (3 + lvl / 3) 5,
    maxHeight := min (3 + lvl / 3) 5,
    minRooms := min (4 + lvl / 4) 8 }

/-- The level bounds derived from the constraints in
`adjustConstraintsForLevel`. -/
def boundsForConstraints (c : Constraints) : LvlBounds :=
  { minX := 0, maxX := (c.maxWidth : Int) - 1,
    minY := 0, maxY := (c.maxHeight : Int) - 1 }

/-- The mutable `WorldManager` fields that generation reads and writes
(`tileLoader` catalog, RNG seed, room list in insertion order, counters,
constraints and bounds). -/
structure GenState where
  tiles : List Tile
  rngSeed : Nat
  rooms : List Room
  generatedRooms : Nat
  exitRoomsGenerated : Nat
  constraints : Constraints
  bounds : LvlBounds
deriving Repr

/-- `getRoom(roomX, roomY)` (the `roomGrid` map keyed by the coordinate). -/
def getRoom (st : GenState) (x y : Int) : Option Room :=
  st.rooms.find? fun r => r.roomX = x ∧ r.roomY = y

/-- `isWithinLevelBounds(roomX, roomY)`. -/
def isWithinLevelBounds (st : GenState) (x y : Int) : Bool :=
  st.bounds.minX ≤ x ∧ x ≤ st.bounds.maxX ∧ st.bounds.minY ≤ y ∧ y ≤ st.bounds.maxY

/-- `hasAdjacentRoom(roomX, roomY)`. -/
def hasAdjacentRoom (st : GenState) (x y : Int) : Bool :=
  (getRoom st x (y - 1)).isSome || (getRoom st x (y + 1)).isSome ||
  (getRoom st (x + 1) y).isSome || (getRoom st (x - 1) y).isSome

/-- `getRequiredConnections(roomX, roomY)`: for each neighbor that exists
and has an exit facing back, require the corresponding direction. -/
def getRequiredConnections (st : GenState) (x y : Int) : List Dir :=
  let check : Int → Int → Dir → Dir → List Dir := fun dx dy dir opp =>
    match getRoom st (x + dx) (y + dy) with
    | some adjRoom => if (adjRoom.exits.find? fun de => de.1 = opp).isSome then [dir] else []
    | none => []
  check 0 (-1) Dir.N Dir.S ++ check 0 1 Dir.S Dir.N ++
  check 1 0 Dir.E Dir.W ++ check (-1) 0 Dir.W Dir.E

/-- `findSuitableTiles(requiredConnections, allowExit)`. -/
def findSuitableTiles (st : GenState) (required : List Dir) (allowExit : Bool) : List Tile :=
  st.tiles.filter fun t =>
    !t.start && (!t.exit || allowExit) &&
    required.all fun d => (t.exits.find? fun de => de.1 = d).isSome

/-- `getAverageRoomWidth()`: mean existing room width (floored), 384 when
no rooms exist. -/
def getAverageRoomWidth (st : GenState) : Int :=
  if st.rooms.isEmpty then 6 * TILE_SIZE
  else Int.fdiv (st.rooms.foldl (fun s r => s + r.width) 0) st.rooms.length

/-- `getAverageRoomHeight()`. -/
def getAverageRoomHeight (st : GenState) : Int :=
  if st.rooms.isEmpty then 6 * TILE_SIZE
  else Int.fdiv (st.rooms.foldl (fun s r => s + r.height) 0) st.rooms.length

/-- `calculateRoomWorldPosition(roomX, roomY)`: accumulate widths (or the
average width) of the rooms in the cells left of / above the target; for
negative grid coordinates the accumulated fallback is discarded and `0` is
used; results are clamped to be nonnegative. -/
def calculateRoomWorldPosition (st : GenState) (roomX roomY : Int) : Int × Int :=
  let wx : Int :=
    if 0 < roomX then
      (List.range roomX.toNat).foldl
        (fun acc x =>
          match getRoom st (x : Int) roomY with
          | some leftRoom => acc + leftRoom.width
          | none => acc + getAverageRoomWidth st) 0
    else 0
  let wy : Int :=
    if 0 < roomY then
      (List.range roomY.toNat).foldl
        (fun acc y =>
          match getRoom st roomX (y : Int) with
          | some topRoom => acc + topRoom.height
          | none => acc + getAverageRoomHeight st) 0
    else 0
  (max 0 wx, max 0 wy)

/-- `adjustAllRoomsPosition(offsetX, offsetY)`: shift every placed room. -/
def adjustAllRoomsPosition (st : GenState) (dx dy : Int) : GenState :=
  if dx = 0 ∧ dy = 0 then st
  else { st with rooms := st.rooms.map fun r =>
    { r with worldX := r.worldX + dx, worldY := r.worldY + dy } }

/-- `overlapLeft` in `validateRoomPosition`: clamped x-axis overlap of the
proposed bounds with an existing room's bounds. -/
def ovLeft (proposed : RBounds) (rb : RBounds) : Int :=
  max 0 (min proposed.right rb.right - max proposed.left rb.left)

/-- `overlapTop` in `validateRoomPosition`. -/
def ovTop (proposed : RBounds) (rb : RBounds) : Int :=
  max 0 (min proposed.bottom rb.bottom - max proposed.top rb.top)

/-- `isAdjacentHorizontally` in `validateRoomPosition`. -/
def adjacentH (room : Room) (roomX roomY : Int) : Prop :=
  (room.roomX - roomX = 1 ∨ room.roomX - roomX = -1) ∧ room.roomY = roomY

/-- `isAdjacentVertically` in `validateRoomPosition`. -/
def adjacentV (room : Room) (roomX roomY : Int) : Prop :=
  (room.roomY - roomY = 1 ∨ room.roomY - roomY = -1) ∧ room.roomX = roomX

instance (room : Room) (roomX roomY : Int) : Decidable (adjacentH room roomX roomY) := by
  unfold adjacentH; infer_instance

instance (room : Room) (roomX roomY : Int) : Decidable (adjacentV room roomX roomY) := by
  unfold adjacentV; infer_instance

/-- One step of the `validateRoomPosition` loop body for a single existing
room: given the *fixed* proposed bounds and the current adjusted position,
return the new adjusted position (grid-adjacent rooms are forced to
exactly one tile of overlap along the adjacency axis; other overlapping
rooms push the candidate flush to their right/bottom edge). -/
def validateStep (proposed : RBounds) (roomW roomH : Int) (roomX roomY : Int)
    (wxy : Int × Int) (room : Room) : Int × Int :=
  if room.roomX = roomX ∧ room.roomY = roomY then wxy
  else if ovLeft proposed room.getBounds > 0 ∧ ovTop proposed room.getBounds > 0 then
    if adjacentH room roomX roomY ∨ adjacentV room roomX roomY then
      (if adjacentH room roomX roomY ∧ ovLeft proposed room.getBounds ≠ TILE_SIZE then
        (if room.roomX < roomX then room.getBounds.right - TILE_SIZE
         else room.getBounds.left + TILE_SIZE - roomW)
       else wxy.1,
       if adjacentV room roomX roomY ∧ ovTop proposed room.getBounds ≠ TILE_SIZE then
        (if room.roomY < roomY then room.getBounds.bottom - TILE_SIZE
         else room.getBounds.top + TILE_SIZE - roomH)
       else wxy.2)
    else
      (if proposed.left < room.getBounds.right ∧ proposed.right > room.getBounds.left
       then room.getBounds.right else wxy.1,
       if proposed.top < room.getBounds.bottom ∧ proposed.bottom > room.getBounds.top
       then room.getBounds.bottom else wxy.2)
  else wxy

/-- `validateRoomPosition(worldX, worldY, roomWidth, roomHeight, roomX,
roomY)`: walk all existing rooms in insertion order, adjusting the
candidate position while comparing against the bounds proposed on entry. -/
def validateRoomPosition (st : GenState) (wx wy roomW roomH roomX roomY : Int) : Int × Int :=
  let proposed : RBounds :=
    { left := wx, right := wx + roomW, top := wy, bottom := wy + roomH }
  st.rooms.foldl (validateStep proposed roomW roomH roomX roomY) (wx, wy)

/-- `roomData.size ? roomData.size[0] : 6` (the default used by
`calculateOptimalRoomPosition`, unlike the constructor's 4). -/
def Tile.sizeW6 (t : Tile) : Nat :=
  match t.size with
  | some (w, _) => w
  | none => 6

/-- `roomData.size ? roomData.size[1] : 6`. -/
def Tile.sizeH6 (t : Tile) : Nat :=
  match t.size with
  | some (_, h) => h
  | none => 6

/-- `calculateOptimalRoomPosition(roomX, roomY, roomData)`: position against
placed neighbors with exactly one tile of overlap, fall back to the
accumulated estimate, shift the whole world out of negative coordinates if
needed, then validate. -/
def calculateOptimalRoomPosition (st : GenState) (roomX roomY : Int) (t : Tile) :
    GenState × Int × Int :=
  let roomW : Int := (t.sizeW6 : Int) * TILE_SIZE
  let roomH : Int := (t.sizeH6 : Int) * TILE_SIZE
  let west := getRoom st (roomX - 1) roomY
  let east := getRoom st (roomX + 1) roomY
  let north := getRoom st roomX (roomY - 1)
  let south := getRoom st roomX (roomY + 1)
  let wx : Int :=
    match west with
    | some w => w.worldX + w.width - TILE_SIZE
    | none => match east with
      | some e => e.worldX + TILE_SIZE - roomW
      | none => (calculateRoomWorldPosition st roomX roomY).1
  let wy : Int :=
    match north with
    | some n => n.worldY + n.height - TILE_SIZE
    | none => match south with
      | some s => s.worldY + TILE_SIZE - roomH
      | none => (calculateRoomWorldPosition st roomX roomY).2
  let st1 := if wx < 0 then adjustAllRoomsPosition st (0 - wx) 0 else st
  let wx1 := if wx < 0 then 0 else wx
  let st2 := if wy < 0 then adjustAllRoomsPosition st1 0 (0 - wy) else st1
  let wy1 := if wy < 0 then 0 else wy
  (st2, validateRoomPosition st2 wx1 wy1 roomW roomH roomX roomY)

/-- `createRoom(roomData, worldX, worldY, roomX, roomY)`: construct the
room and insert it into the maps (insertion order = append). -/
def createRoom (st : GenState) (t : Tile) (wx wy rx ry : Int) : GenState :=
  { st with rooms := st.rooms ++ [mkRoom t wx wy rx ry] }

/-- `generateRoomAt(roomX, roomY)`: occupancy, bounds and budget checks,
template selection by required connections, seeded choice, world-position
computation, then room creation.  Returns the new state and success. -/
def generateRoomAt (st : GenState) (x y : Int) : GenState × Bool :=
  if (getRoom st x y).isSome then (st, false)
  else if !isWithinLevelBounds st x y then (st, false)
  else if st.constraints.maxRooms - 1 ≤ st.generatedRooms then (st, false)
  else
    let required := getRequiredConnections st x y
    let suitable := findSuitableTiles st required false
    match suitable with
    | [] => (st, false)
    | t0 :: _ =>
      let rnd := randomInt st.rngSeed 0 suitable.length
      let chosen := suitable.getD rnd.2 t0
      let opt := calculateOptimalRoomPosition { st with rngSeed := rnd.1 } x y chosen
      let st3 := createRoom opt.1 chosen opt.2.1 opt.2.2 x y
      ({ st3 with generatedRooms := st3.generatedRooms + 1 }, true)

end Watt

namespace Watt

/-- `getValidAdjacentPositions(currentPos, generatedPositions)`: the
N, S, E, W neighbors not already chosen, within level bounds and
unoccupied. -/
def getValidAdjacentPositions (st : GenState) (pos : Int × Int)
    (genPos : List (Int × Int)) : List (Int × Int) :=
  [(pos.1, pos.2 - 1), (pos.1, pos.2 + 1), (pos.1 + 1, pos.2), (pos.1 - 1, pos.2)].filter
    fun p => !genPos.contains p && isWithinLevelBounds st p.1 p.2 && !(getRoom st p.1 p.2).isSome

/-- The inner `for` of `generateFiniteLevel`: up to `n` times, splice a
random candidate out of `adjacent` and try to place a room there,
enqueueing and recording successful placements. -/
def genInner : Nat → GenState → List (Int × Int) → List (Int × Int) → List (Int × Int) →
    GenState × List (Int × Int) × List (Int × Int)
  | 0, st, _, queue, genPos => (st, queue, genPos)
  | n + 1, st, adjacent, queue, genPos =>
    match adjacent with
    | [] => (st, queue, genPos)
    | a0 :: _ =>
      let rnd := randomInt st.rngSeed 0 adjacent.length
      let newPos := adjacent.getD rnd.2 a0
      let adjacent1 := spliceOut adjacent rnd.2
      let gen := generateRoomAt { st with rngSeed := rnd.1 } newPos.1 newPos.2
      if gen.2 then genInner n gen.1 adjacent1 (queue ++ [newPos]) (newPos :: genPos)
      else genInner n gen.1 adjacent1 queue genPos

/-- The `while` of `generateFiniteLevel` (fuel-indexed; the loop body
dequeues one position, draws the fan-out count `randomInt(1,3)` and runs
the inner placement loop). -/
def genLoop : Nat → GenState → List (Int × Int) → List (Int × Int) → Nat → GenState
  | 0, st, _, _, _ => st
  | fuel + 1, st, queue, genPos, roomsToGenerate =>
    if st.generatedRooms < roomsToGenerate then
      match queue with
      | [] => st
      | currentPos :: rest =>
        let adjacent := getValidAdjacentPositions st currentPos genPos
        let rnd := randomInt st.rngSeed 1 3
        let roomsToAdd := min (min rnd.2 (roomsToGenerate - st.generatedRooms)) adjacent.length
        let inner := genInner roomsToAdd { st with rngSeed := rnd.1 } adjacent rest genPos
        genLoop fuel inner.1 inner.2.1 inner.2.2 roomsToGenerate
    else st

/-- The candidate list scanned by `ensureMinimumRooms`: all in-bounds empty
cells with an adjacent room, in `x`-major order. -/
def availablePositions (st : GenState) : List (Int × Int) :=
  ((List.range (st.bounds.maxX - st.bounds.minX + 1).toNat).flatMap fun dx =>
    (List.range (st.bounds.maxY - st.bounds.minY + 1).toNat).map fun dy =>
      (st.bounds.minX + dx, st.bounds.minY + dy)).filter
    fun p => !(getRoom st p.1 p.2).isSome && hasAdjacentRoom st p.1 p.2

/-- The top-up `for` of `ensureMinimumRooms`. -/
def topUp : Nat → GenState → List (Int × Int) → GenState
  | 0, st, _ => st
  | n + 1, st, avail =>
    match avail with
    | [] => st
    | a0 :: _ =>
      let rnd := randomInt st.rngSeed 0 avail.length
      let pos := avail.getD rnd.2 a0
      let avail1 := spliceOut avail rnd.2
      topUp n (generateRoomAt { st with rngSeed := rnd.1 } pos.1 pos.2).1 avail1

/-- `ensureMinimumRooms()`: when fewer than `minRooms` rooms exist, place
additional rooms on random available cells adjacent to existing rooms. -/
def ensureMinimumRooms (st : GenState) : GenState :=
  let totalRooms := st.generatedRooms + 1
  if totalRooms < st.constraints.minRooms then
    topUp (st.constraints.minRooms - totalRooms) st (availablePositions st)
  else st

/-- `|roomX| + |roomY|`, the Manhattan distance used by exit selection. -/
def Room.manhattan (r : Room) : Int := |r.roomX| + |r.roomY|

/-- The scan of `generateExitRoom`: index of the first room whose Manhattan
distance strictly exceeds every earlier one (running strict max starting
from `-1`). -/
def exitScan (rooms : List Room) : Option Nat × Int :=
  (List.range rooms.length).foldl
    (fun acc i =>
      match rooms[i]? with
      | some room => if acc.2 < room.manhattan then (some i, room.manhattan) else acc
      | none => acc)
    (none, -1)

/-- `generateExitRoom()`: pick the placed room of maximal Manhattan
distance from the origin (first-found on ties) and mark it as the exit. -/
def generateExitRoom (st : GenState) : GenState :=
  if st.constraints.maxExits ≤ st.exitRoomsGenerated then st
  else if st.rooms.isEmpty then st
  else
    match (exitScan st.rooms).1 with
    | some i =>
      match st.rooms[i]? with
      | some room =>
        { st with
          rooms := st.rooms.set i
            { room with isExit := true, tile := { room.tile with exit := true } },
          exitRoomsGenerated := st.exitRoomsGenerated + 1 }
      | none => st
    | none => st

/-- `generateStartRoom()`: choose a random `start`-flagged template and
place it at the grid origin; returns the created start room, if any. -/
def generateStartRoom (st : GenState) : GenState × Option Room :=
  let startTiles := st.tiles.filter (·.start)
  match startTiles with
  | [] => (st, none)
  | t0 :: _ =>
    let rnd := randomInt st.rngSeed 0 startTiles.length
    let chosen := startTiles.getD rnd.2 t0
    (createRoom { st with rngSeed := rnd.1 } chosen 0 0 0 0, some (mkRoom chosen 0 0 0 0))

/-- Generous fuel bound for the generation loop: the loop dequeues at most
one position per iteration and the queue only ever holds successfully
placed rooms (at most `maxRooms ≤ 15`) plus the origin. -/
def genFuel : Nat := 1000

/-- `generateFiniteLevel()`: start room, breadth-first randomized
expansion, minimum-room top-up, exit designation. -/
def generateFiniteLevel (st : GenState) : GenState × Option Room :=
  let sr := generateStartRoom st
  let st2 := genLoop genFuel sr.1 [(0, 0)] [(0, 0)] (sr.1.constraints.maxRooms - 1)
  (generateExitRoom (ensureMinimumRooms st2), sr.2)

/-- The full `WorldManager` mutable state: the generation fields plus the
fields `initialize` does not (or only conditionally) reset. -/
structure Manager where
  gen : GenState
  startRoom : Option Room
  currentRoom : Option Room
  levelComplete : Bool
  seed : Nat
deriving Repr

/-- `initialize(seed, levelNumber)`: reseed the PRNG, derive the level
constraints and bounds, clear the room maps and counters, then generate;
`startRoom`/`currentRoom` are overwritten only when a start template
exists (exactly as `generateStartRoom` behaves). -/
def Manager.initializeMgr (m : Manager) (seed : Nat) (lvl : Nat) : Manager :=
  let c := adjustConstraintsForLevel lvl
  let gs : GenState :=
    { tiles := m.gen.tiles, rngSeed := lcgInit seed, rooms := [],
      generatedRooms := 0, exitRoomsGenerated := 0,
      constraints := c, bounds := boundsForConstraints c }
  let fin := generateFiniteLevel gs
  { gen := fin.1,
    startRoom := match fin.2 with | some r => some r | none => m.startRoom,
    currentRoom := match fin.2 with | some r => some r | none => m.currentRoom,
    levelComplete := false,
    seed := seed }

end Watt

namespace Watt

/-! ## Concrete catalogs and generated levels -/

/-- A minimal valid start template: 4×4, exits on all four sides. -/
def tileStart44 : Tile :=
  { id := "start", size := some (4, 4), start := true, exit := false, collision := [],
    exits := [(Dir.N, (1, 0)), (Dir.S, (1, 3)), (Dir.E, (3, 1)), (Dir.W, (0, 1))] }

/-- A minimal valid generic template: 4×4, exits on all four sides. -/
def tileSmall44 : Tile :=
  { id := "small", size := some (4, 4), start := false, exit := false, collision := [],
    exits := [(Dir.N, (1, 0)), (Dir.S, (1, 3)), (Dir.E, (3, 1)), (Dir.W, (0, 1))] }

/-- A two-template catalog (one start, one generic connector). -/
def demoCatalog : List Tile := [tileStart44, tileSmall44]

/-- The fallback start template synthesized by
`TileLoader.createFallbackTiles` when no tile file loads (the only catalog
present in the source tree itself). -/
def fallbackStartTile : Tile :=
  { id := "start", size := some (4, 4), start := true, exit := false, collision := [],
    exits := [(Dir.E, (3, 2))] }

/-- The fallback exit template from `TileLoader.createFallbackTiles`. -/
def fallbackExitTile : Tile :=
  { id := "exit", size := some (4, 4), start := false, exit := true, collision := [],
    exits := [(Dir.W, (0, 2))] }

/-- The in-source fallback catalog. -/
def fallbackCatalog : List Tile := [fallbackStartTile, fallbackExitTile]

/-- A fresh `WorldManager` over a given catalog, with the constructor's
initial constraint values (`world.js` lines 178–193). -/
def freshManager (tiles : List Tile) : Manager :=
  { gen := { tiles := tiles, rngSeed := lcgInit 0, rooms := [], generatedRooms := 0,
             exitRoomsGenerated := 0,
             constraints := { maxRooms := 10, maxExits := 1, maxWidth := 4,
                              maxHeight := 4, minRooms := 5 },
             bounds := { minX := -2, maxX := 2, minY := -2, maxY := 2 } },
    startRoom := none, currentRoom := none, levelComplete := false, seed := 0 }

/-- The level generated from the two-template catalog with seed 1,
level 1. -/
def demoRooms : List Room := ((freshManager demoCatalog).initializeMgr 1 1).gen.rooms

/-- Grid adjacency of two placed rooms (coordinates differ by exactly 1 in
exactly one axis). -/
def gridAdjacent (r1 r2 : Room) : Prop :=
  (r1.roomX = r2.roomX ∧ (r1.roomY - r2.roomY).natAbs = 1) ∨
  (r1.roomY = r2.roomY ∧ (r1.roomX - r2.roomX).natAbs = 1)

instance (r1 r2 : Room) : Decidable (gridAdjacent r1 r2) := by
  unfold gridAdjacent; infer_instance

/-- World-pixel bounding rectangles of two rooms intersect (positive
overlap in both axes). -/
def boundsIntersect (r1 r2 : Room) : Prop :=
  max r1.getBounds.left r2.getBounds.left < min r1.getBounds.right r2.getBounds.right ∧
  max r1.getBounds.top r2.getBounds.top < min r1.getBounds.bottom r2.getBounds.bottom

instance (r1 r2 : Room) : Decidable (boundsIntersect r1 r2) := by
  unfold boundsIntersect; infer_instance

/-- C2 counterexample: the level generated from a perfectly ordinary
catalog (two 4×4 templates with exits on all sides) at seed 1, level 1
contains two placed rooms — grid cells (2,0) and (0,1), which are *not*
grid-adjacent — whose world-pixel rectangles intersect (in a 192×64 px
region): the conflict-resolution pass validated the room at (0,1) against
stale proposed bounds after pushing it onto (512, 448)-adjacent space. -/
theorem overlap_counterexample :
    ∃ r1 ∈ demoRooms, ∃ r2 ∈ demoRooms,
      r1.roomX = 2 ∧ r1.roomY = 0 ∧ r2.roomX = 0 ∧ r2.roomY = 1 ∧
      ¬gridAdjacent r1 r2 ∧ boundsIntersect r1 r2 := by
  decide

end Watt

namespace Watt

end Watt

namespace Watt

/-- Signed x-axis overlap width of a candidate rectangle at `pos` (size
`roomW` wide) with a placed room. -/
def overlapW (pos : Int × Int) (roomW : Int) (room : Room) : Int :=
  min (pos.1 + roomW) room.getBounds.right - max pos.1 room.getBounds.left

/-- Signed y-axis overlap height. -/
def overlapH (pos : Int × Int) (roomH : Int) (room : Room) : Int :=
  min (pos.2 + roomH) room.getBounds.bottom - max pos.2 room.getBounds.top

set_option maxHeartbeats 1000000 in
/-- Helper for the amended C2: the guarantee `validateStep` gives against
one room. -/
theorem validateStep_single (room : Room)
    (wx wy roomW roomH roomX roomY : Int)
    (hW : 64 ≤ roomW) (hH : 64 ≤ roomH)
    (hrW : 64 ≤ room.width) (hrH : 64 ≤ room.height)
    (hne : ¬(room.roomX = roomX ∧ room.roomY = roomY)) :
    (overlapW (validateStep
        { left := wx, right := wx + roomW, top := wy, bottom := wy + roomH }
        roomW roomH roomX roomY (wx, wy) room) roomW room ≤ 0 ∨
     overlapH (validateStep
        { left := wx, right := wx + roomW, top := wy, bottom := wy + roomH }
        roomW roomH roomX roomY (wx, wy) room) roomH room ≤ 0) ∨
    ((room.roomY = roomY ∧ (room.roomX - roomX = 1 ∨ room.roomX - roomX = -1)) ∧
     overlapW (validateStep
        { left := wx, right := wx + roomW, top := wy, bottom := wy + roomH }
        roomW roomH roomX roomY (wx, wy) room) roomW room = TILE_SIZE ∧
     0 < overlapH (validateStep
        { left := wx, right := wx + roomW, top := wy, bottom := wy + roomH }
        roomW roomH roomX roomY (wx, wy) room) roomH room) ∨
    ((room.roomX = roomX ∧ (room.roomY - roomY = 1 ∨ room.roomY - roomY = -1)) ∧
     overlapH (validateStep
        { left := wx, right := wx + roomW, top := wy, bottom := wy + roomH }
        roomW roomH roomX roomY (wx, wy) room) roomH room = TILE_SIZE ∧
     0 < overlapW (validateStep
        { left := wx, right := wx + roomW, top := wy, bottom := wy + roomH }
        roomW roomH roomX roomY (wx, wy) room) roomW room) := by
  set v := validateStep
      { left := wx, right := wx + roomW, top := wy, bottom := wy + roomH }
      roomW roomH roomX roomY (wx, wy) room with hv
  rw [validateStep] at hv
  simp only [ovLeft, ovTop, adjacentH, adjacentV, Room.getBounds, TILE_SIZE] at hv
  split_ifs at hv
  · rw [hv]; simp only [overlapW, overlapH, Room.getBounds, TILE_SIZE]; omega
  · rw [hv]; simp only [overlapW, overlapH, Room.getBounds, TILE_SIZE]; omega
  · rw [hv]; simp only [overlapW, overlapH, Room.getBounds, TILE_SIZE]; omega
  · rw [hv]; simp only [overlapW, overlapH, Room.getBounds, TILE_SIZE]; omega
  · rw [hv]; simp only [overlapW, overlapH, Room.getBounds, TILE_SIZE]; omega
  · rw [hv]; simp only [overlapW, overlapH, Room.getBounds, TILE_SIZE]; omega
  · rw [hv]; simp only [overlapW, overlapH, Room.getBounds, TILE_SIZE]; omega
  · rw [hv]; simp only [overlapW, overlapH, Room.getBounds, TILE_SIZE]; omega
  · rw [hv]
    simp only [overlapW, overlapH, Room.getBounds, TILE_SIZE]
    rename_i hov hadj hns1 hns2
    rcases hadj with hH | hV
    · have hoL : max 0 (min (wx + roomW) (room.worldX + room.width) - max wx room.worldX) = 64 := by
        by_contra hne64
        exact hns1 ⟨hH, hne64⟩
      clear hns1 hns2 hv hne
      refine Or.inr (Or.inl ⟨⟨hH.2, hH.1⟩, ?_, ?_⟩) <;> omega
    · have hoT : max 0 (min (wy + roomH) (room.worldY + room.height) - max wy room.worldY) = 64 := by
        by_contra hne64
        exact hns2 ⟨hV, hne64⟩
      clear hns1 hns2 hv hne
      refine Or.inr (Or.inr ⟨⟨hV.2, hV.1⟩, ?_, ?_⟩) <;> omega
  · rw [hv]; simp only [overlapW, overlapH, Room.getBounds, TILE_SIZE]; omega
  · rw [hv]; simp only [overlapW, overlapH, Room.getBounds, TILE_SIZE]; omega
  · rw [hv]; simp only [overlapW, overlapH, Room.getBounds, TILE_SIZE]; omega
  · rw [hv]; simp only [overlapW, overlapH, Room.getBounds, TILE_SIZE]; omega
  · rw [hv]; simp only [overlapW, overlapH, Room.getBounds, TILE_SIZE]; omega


/-- C2 amended: the source enforces the non-overlap-except-one-tile-edge
property only *pairwise*, against each existing room, using the bounds
proposed on entry.  When the candidate is validated against a single
existing room (all rooms at least one tile in size), the returned position
satisfies the claimed property — the rectangles either do not intersect,
or the rooms are grid-adjacent and the intersection is exactly `TILE_SIZE`
along the adjacency axis.  With more rooms the adjustment for a later room
is never re-validated against earlier ones, and the full invariant fails
(`overlap_counterexample`). -/
theorem validate_single_room (st : GenState) (room : Room)
    (hrooms : st.rooms = [room])
    (wx wy roomW roomH roomX roomY : Int)
    (hW : 64 ≤ roomW) (hH : 64 ≤ roomH)
    (hrW : 64 ≤ room.width) (hrH : 64 ≤ room.height)
    (hne : ¬(room.roomX = roomX ∧ room.roomY = roomY)) :
    (overlapW (validateRoomPosition st wx wy roomW roomH roomX roomY) roomW room ≤ 0 ∨
     overlapH (validateRoomPosition st wx wy roomW roomH roomX roomY) roomH room ≤ 0) ∨
    ((room.roomY = roomY ∧ (room.roomX - roomX = 1 ∨ room.roomX - roomX = -1)) ∧
     overlapW (validateRoomPosition st wx wy roomW roomH roomX roomY) roomW room = TILE_SIZE ∧
     0 < overlapH (validateRoomPosition st wx wy roomW roomH roomX roomY) roomH room) ∨
    ((room.roomX = roomX ∧ (room.roomY - roomY = 1 ∨ room.roomY - roomY = -1)) ∧
     overlapH (validateRoomPosition st wx wy roomW roomH roomX roomY) roomH room = TILE_SIZE ∧
     0 < overlapW (validateRoomPosition st wx wy roomW roomH roomX roomY) roomW room) := by
  have hres : validateRoomPosition st wx wy roomW roomH roomX roomY = validateStep
      { left := wx, right := wx + roomW, top := wy, bottom := wy + roomH }
      roomW roomH roomX roomY (wx, wy) room := by
    unfold validateRoomPosition
    rw [hrooms]
    rfl
  rw [hres]
  exact validateStep_single room wx wy roomW roomH roomX roomY hW hH hrW hrH hne

end Watt

namespace Watt

/-- C10: `WorldRoom.hasCollisionAt` is total over all local tile
coordinates: outside the room (negative or `≥ tileWidth/tileHeight`) it
answers "wall" (`true`); inside it returns exactly the collision-map
entry; and the map indexing never goes out of range (the result is never
`none`). -/
theorem hasCollisionAt_total_correct (t : Tile) (x y : Int) :
    (x < 0 ∨ (tileWidthOf t : Int) ≤ x ∨ y < 0 ∨ (tileHeightOf t : Int) ≤ y →
      hasCollisionAt t x y = some true) ∧
    (0 ≤ x → x < (tileWidthOf t : Int) → 0 ≤ y → y < (tileHeightOf t : Int) →
      hasCollisionAt t x y = some (collisionCell t x.toNat y.toNat)) ∧
    (hasCollisionAt t x y).isSome := by
  refine ⟨fun h => hasCollisionAt_outOfBounds t x y h,
          fun hx0 hxw hy0 hyh => hasCollisionAt_inBounds t x y hx0 hxw hy0 hyh, ?_⟩
  by_cases h : x < 0 ∨ (tileWidthOf t : Int) ≤ x ∨ y < 0 ∨ (tileHeightOf t : Int) ≤ y
  · rw [hasCollisionAt_outOfBounds t x y h]
    rfl
  · push_neg at h
    rw [hasCollisionAt_inBounds t x y h.1 h.2.1 h.2.2.1 h.2.2.2]
    rfl

/-- A small concrete template with a walled border, for evaluating the
collision-map theorems. -/
def tileWalled33 : Tile :=
  { id := "walled", size := some (3, 3), start := false, exit := false,
    collision := [['#', '#', '#'], ['#', '.', '#'], ['#', '#', '#']],
    exits := [] }

/-- Witness for C10 at a concrete room: an out-of-bounds probe is a wall,
the center floor cell reads back `false`, a border wall cell reads back
`true`, and a probe past the right edge is a wall. -/
theorem hasCollisionAt_total_correct_witness :
    hasCollisionAt tileWalled33 (-1) 0 = some true ∧
    hasCollisionAt tileWalled33 1 1 = some false ∧
    hasCollisionAt tileWalled33 0 0 = some true ∧
    hasCollisionAt tileWalled33 3 1 = some true := by
  refine ⟨(hasCollisionAt_total_correct tileWalled33 (-1) 0).1 (by left; decide), ?_, ?_, ?_⟩
  · have h := (hasCollisionAt_total_correct tileWalled33 1 1).2.1
      (by decide) (by decide) (by decide) (by decide)
    rw [h]
    decide
  · have h := (hasCollisionAt_total_correct tileWalled33 0 0).2.1
      (by decide) (by decide) (by decide) (by decide)
    rw [h]
    decide
  · exact (hasCollisionAt_total_correct tileWalled33 3 1).1 (by right; left; decide)

end Watt

namespace Watt

/-- A generation state holding exactly one placed room (the 4×4 template
at the origin). -/
def singleRoomState : GenState :=
  { tiles := demoCatalog, rngSeed := 1, rooms := [mkRoom tileSmall44 0 0 0 0],
    generatedRooms := 0, exitRoomsGenerated := 0,
    constraints := { maxRooms := 10, maxExits := 1, maxWidth := 4,
                     maxHeight := 4, minRooms := 5 },
    bounds := { minX := -2, maxX := 2, minY := -2, maxY := 2 } }

/-- Witness for the amended C2 at a concrete input: validating a 256×256
candidate for grid cell (1,0) at (192,0) against the single room at the
origin. -/
theorem validate_single_room_witness :
    (overlapW (validateRoomPosition singleRoomState 192 0 256 256 1 0) 256
        (mkRoom tileSmall44 0 0 0 0) ≤ 0 ∨
     overlapH (validateRoomPosition singleRoomState 192 0 256 256 1 0) 256
        (mkRoom tileSmall44 0 0 0 0) ≤ 0) ∨
    (((mkRoom tileSmall44 0 0 0 0).roomY = 0 ∧
      ((mkRoom tileSmall44 0 0 0 0).roomX - 1 = 1 ∨ (mkRoom tileSmall44 0 0 0 0).roomX - 1 = -1)) ∧
     overlapW (validateRoomPosition singleRoomState 192 0 256 256 1 0) 256
        (mkRoom tileSmall44 0 0 0 0) = TILE_SIZE ∧
     0 < overlapH (validateRoomPosition singleRoomState 192 0 256 256 1 0) 256
        (mkRoom tileSmall44 0 0 0 0)) ∨
    (((mkRoom tileSmall44 0 0 0 0).roomX = 1 ∧
      ((mkRoom tileSmall44 0 0 0 0).roomY - 0 = 1 ∨ (mkRoom tileSmall44 0 0 0 0).roomY - 0 = -1)) ∧
     overlapH (validateRoomPosition singleRoomState 192 0 256 256 1 0) 256
        (mkRoom tileSmall44 0 0 0 0) = TILE_SIZE ∧
     0 < overlapW (validateRoomPosition singleRoomState 192 0 256 256 1 0) 256
        (mkRoom tileSmall44 0 0 0 0)) :=
  validate_single_room singleRoomState (mkRoom tileSmall44 0 0 0 0) rfl
    192 0 256 256 1 0 (by decide) (by decide) (by decide) (by decide) (by decide)

end Watt

namespace Watt

/-! ## Connectivity of the generated room graph (C3) -/

/-- Grid coordinate of a placed room. -/
def roomPos (r : Room) : Int × Int := (r.roomX, r.roomY)

/-- The grid coordinates of a room list, in insertion order. -/
def posList (rooms : List Room) : List (Int × Int) := rooms.map roomPos

/-- 4-neighbour adjacency of grid coordinates. -/
def adjPos (p q : Int × Int) : Prop :=
  (p.1 - q.1).natAbs + (p.2 - q.2).natAbs = 1

/-- Reachability from the origin cell `(0,0)` through a set of occupied
grid cells, stepping between 4-adjacent occupied cells. -/
inductive ReachesOrigin : List (Int × Int) → (Int × Int) → Prop
  | origin (S : List (Int × Int)) (h : (0, 0) ∈ S) : ReachesOrigin S (0, 0)
  | step (S : List (Int × Int)) (p q : Int × Int) (hp : ReachesOrigin S p)
      (hq : q ∈ S) (hadj : adjPos p q) : ReachesOrigin S q

theorem reachesOrigin_mono {S T : List (Int × Int)} (hST : ∀ x ∈ S, x ∈ T)
    {p : Int × Int} (h : ReachesOrigin S p) : ReachesOrigin T p := by
  induction h with
  | origin h0 => exact ReachesOrigin.origin T (hST _ h0)
  | step p q hp hq hadj ih => exact ReachesOrigin.step T p q ih (hST _ hq) hadj

/-- The room-graph connectivity invariant: every placed room's cell is
reachable from the origin through placed cells. -/
def ConnInv (st : GenState) : Prop :=
  ∀ p ∈ posList st.rooms, ReachesOrigin (posList st.rooms) p

theorem roomPos_mkRoom (t : Tile) (wx wy rx ry : Int) :
    roomPos (mkRoom t wx wy rx ry) = (rx, ry) := rfl

theorem posList_append (rooms : List Room) (r : Room) :
    posList (rooms ++ [r]) = posList rooms ++ [roomPos r] := by
  simp [posList]

theorem adjustAllRoomsPosition_posList (st : GenState) (dx dy : Int) :
    posList (adjustAllRoomsPosition st dx dy).rooms = posList st.rooms := by
  unfold adjustAllRoomsPosition
  split
  · rfl
  · simp [posList, roomPos]

theorem ite_adjust_posList (st : GenState) (c : Prop) [Decidable c] (dx dy : Int) :
    posList (if c then adjustAllRoomsPosition st dx dy else st).rooms = posList st.rooms := by
  split
  · exact adjustAllRoomsPosition_posList st dx dy
  · rfl

theorem calculateOptimalRoomPosition_posList (st : GenState) (x y : Int) (t : Tile) :
    posList (calculateOptimalRoomPosition st x y t).1.rooms = posList st.rooms := by
  unfold calculateOptimalRoomPosition
  dsimp only
  rw [ite_adjust_posList, ite_adjust_posList]

theorem getRoom_isSome_iff (st : GenState) (x y : Int) :
    (getRoom st x y).isSome ↔ (x, y) ∈ posList st.rooms := by
  unfold getRoom posList
  rw [List.find?_isSome]
  constructor
  · rintro ⟨r, hr, hpred⟩
    simp only [decide_eq_true_eq] at hpred
    exact List.mem_map.mpr ⟨r, hr, by simp [roomPos, hpred.1, hpred.2]⟩
  · intro hmem
    rcases List.mem_map.mp hmem with ⟨r, hr, hpos⟩
    refine ⟨r, hr, ?_⟩
    simp only [roomPos, Prod.mk.injEq] at hpos
    simp [hpos.1, hpos.2]

/-- Success and failure behaviour of `generateRoomAt` at the level of grid
positions: failure leaves the state untouched; success appends exactly the
requested cell, which was previously unoccupied. -/
theorem generateRoomAt_spec (st : GenState) (x y : Int) :
    ((generateRoomAt st x y).2 = false → (generateRoomAt st x y).1 = st) ∧
    ((generateRoomAt st x y).2 = true →
      posList (generateRoomAt st x y).1.rooms = posList st.rooms ++ [(x, y)] ∧
      ¬((x, y) ∈ posList st.rooms)) := by
  unfold generateRoomAt
  dsimp only
  split
  · exact ⟨fun _ => rfl, fun h => by simp at h⟩
  · rename_i hocc
    split
    · exact ⟨fun _ => rfl, fun h => by simp at h⟩
    · split
      · exact ⟨fun _ => rfl, fun h => by simp at h⟩
      · split
        · exact ⟨fun _ => rfl, fun h => by simp at h⟩
        · rename_i t0 rest hsuit
          refine ⟨fun h => by simp at h, fun _ => ⟨?_, ?_⟩⟩
          · dsimp only
            unfold createRoom
            dsimp only
            rw [posList_append, calculateOptimalRoomPosition_posList, roomPos_mkRoom]
          · intro hmem
            rw [← getRoom_isSome_iff] at hmem
            simp [hmem] at hocc

theorem generateRoomAt_posList_mono (st : GenState) (x y : Int) :
    ∀ p ∈ posList st.rooms, p ∈ posList (generateRoomAt st x y).1.rooms := by
  intro p hp
  rcases Bool.eq_false_or_eq_true (generateRoomAt st x y).2 with h | h
  · rw [((generateRoomAt_spec st x y).2 h).1]
    exact List.mem_append_left _ hp
  · rw [(generateRoomAt_spec st x y).1 h]
    exact hp

/-- Extending a state by one cell adjacent to an occupied cell preserves
the connectivity invariant. -/
theorem ConnInv_extend {st st' : GenState} {p : Int × Int}
    (h : posList st'.rooms = posList st.rooms ++ [p])
    (hInv : ConnInv st) (hq : ∃ q ∈ posList st.rooms, adjPos q p) : ConnInv st' := by
  intro x hx
  rw [h] at hx
  rcases List.mem_append.mp hx with hx | hx
  · exact reachesOrigin_mono (fun z hz => by rw [h]; exact List.mem_append_left _ hz)
      (hInv x hx)
  · rcases List.mem_singleton.mp hx with rfl
    rcases hq with ⟨q, hqmem, hqadj⟩
    refine ReachesOrigin.step _ q x ?_ ?_ hqadj
    · exact reachesOrigin_mono (fun z hz => by rw [h]; exact List.mem_append_left _ hz)
        (hInv q hqmem)
    · rw [h]
      exact List.mem_append_right _ (List.mem_singleton.mpr rfl)

/-- `generateRoomAt` preserves the connectivity invariant whenever the
requested cell is adjacent to some occupied cell. -/
theorem generateRoomAt_ConnInv (st : GenState) (x y : Int)
    (hInv : ConnInv st) (hadj : ∃ q ∈ posList st.rooms, adjPos q (x, y)) :
    ConnInv (generateRoomAt st x y).1 := by
  rcases Bool.eq_false_or_eq_true (generateRoomAt st x y).2 with h | h
  · exact ConnInv_extend ((generateRoomAt_spec st x y).2 h).1 hInv hadj
  · rw [(generateRoomAt_spec st x y).1 h]
    exact hInv

theorem getD_mem_cons {α : Type} (a0 : α) (l : List α) (i : Nat) :
    (a0 :: l).getD i a0 ∈ a0 :: l := by
  by_cases h : i < (a0 :: l).length
  · rw [List.getD_eq_getElem _ _ h]
    exact List.getElem_mem h
  · rw [List.getD_eq_default _ _ (by omega)]
    exact List.mem_cons_self a0 l

end Watt

namespace Watt

theorem getValidAdjacentPositions_adj (st : GenState) (pos : Int × Int)
    (genPos : List (Int × Int)) :
    ∀ a ∈ getValidAdjacentPositions st pos genPos, adjPos pos a := by
  intro a ha
  unfold getValidAdjacentPositions at ha
  have hmem := List.mem_of_mem_filter ha
  rcases pos with ⟨px, py⟩
  rcases a with ⟨ax, ay⟩
  simp only [List.mem_cons, List.mem_singleton, Prod.mk.injEq, List.not_mem_nil, or_false] at hmem
  unfold adjPos
  rcases hmem with ⟨h1, h2⟩ | ⟨h1, h2⟩ | ⟨h1, h2⟩ | ⟨h1, h2⟩ <;>
    (dsimp only; omega)

/-- Invariant preservation through the inner placement loop: if every
queue entry is occupied, the base cell is occupied, and every candidate is
adjacent to the base cell, then the connectivity invariant survives, the
new queue is occupied, and occupancy is monotone. -/
theorem genInner_inv (n : Nat) (st : GenState) (adjacent queue genPos : List (Int × Int))
    (base : Int × Int)
    (hInv : ConnInv st)
    (hqueue : ∀ p ∈ queue, p ∈ posList st.rooms)
    (hbase : base ∈ posList st.rooms)
    (hadj : ∀ a ∈ adjacent, adjPos base a) :
    ConnInv (genInner n st adjacent queue genPos).1 ∧
    (∀ p ∈ (genInner n st adjacent queue genPos).2.1,
      p ∈ posList (genInner n st adjacent queue genPos).1.rooms) ∧
    (∀ p ∈ posList st.rooms, p ∈ posList (genInner n st adjacent queue genPos).1.rooms) := by
  induction n generalizing st adjacent queue genPos with
  | zero =>
    exact ⟨hInv, hqueue, fun p hp => hp⟩
  | succ n ih =>
    match hadjl : adjacent with
    | [] =>
      exact ⟨hInv, hqueue, fun p hp => hp⟩
    | a0 :: rest =>
      simp only [genInner]
      set st0 : GenState :=
        { st with rngSeed := (randomInt st.rngSeed 0 (a0 :: rest).length).1 } with hst0
      have hpos0 : posList st0.rooms = posList st.rooms := rfl
      set newPos := (a0 :: rest).getD (randomInt st.rngSeed 0 (a0 :: rest).length).2 a0 with hnp
      have hnpadj : adjPos base newPos := hadj _ (getD_mem_cons a0 rest _)
      have hInv0 : ConnInv st0 := hInv
      have hadjst : ∃ q ∈ posList st0.rooms, adjPos q newPos := ⟨base, hbase, hnpadj⟩
      have hInv1 : ConnInv (generateRoomAt st0 newPos.1 newPos.2).1 :=
        generateRoomAt_ConnInv st0 newPos.1 newPos.2 hInv0 hadjst
    -- the two branches of the success test
      rcases Bool.eq_false_or_eq_true (generateRoomAt st0 newPos.1 newPos.2).2 with hok | hok
      · rw [if_pos hok]
        have hmono1 : ∀ p ∈ posList st.rooms,
            p ∈ posList (generateRoomAt st0 newPos.1 newPos.2).1.rooms := by
          intro p hp
          exact generateRoomAt_posList_mono st0 newPos.1 newPos.2 p hp
        have hnewmem : newPos ∈ posList (generateRoomAt st0 newPos.1 newPos.2).1.rooms := by
          rw [((generateRoomAt_spec st0 newPos.1 newPos.2).2 hok).1]
          exact List.mem_append_right _ (List.mem_singleton.mpr rfl)
        have := ih (generateRoomAt st0 newPos.1 newPos.2).1
          (spliceOut (a0 :: rest) (randomInt st.rngSeed 0 (a0 :: rest).length).2)
          (queue ++ [newPos]) (newPos :: genPos)
          hInv1
          (by
            intro p hp
            rcases List.mem_append.mp hp with hp | hp
            · exact hmono1 p (hqueue p hp)
            · rcases List.mem_singleton.mp hp with rfl
              exact hnewmem)
          (hmono1 base hbase)
          (fun a ha => hadj a (spliceOut_subset _ _ a ha))
        exact ⟨this.1, this.2.1, fun p hp => this.2.2 p (hmono1 p hp)⟩
      · rw [if_neg (by simp [hok])]
        have hst1 : (generateRoomAt st0 newPos.1 newPos.2).1 = st0 :=
          (generateRoomAt_spec st0 newPos.1 newPos.2).1 hok
        rw [hst1]
        exact ih st0
          (spliceOut (a0 :: rest) (randomInt st.rngSeed 0 (a0 :: rest).length).2)
          queue genPos hInv0 hqueue hbase
          (fun a ha => hadj a (spliceOut_subset _ _ a ha))

/-- Invariant preservation through the breadth-first generation loop. -/
theorem genLoop_inv (fuel : Nat) (st : GenState) (queue genPos : List (Int × Int))
    (rtg : Nat)
    (hInv : ConnInv st)
    (hqueue : ∀ p ∈ queue, p ∈ posList st.rooms) :
    ConnInv (genLoop fuel st queue genPos rtg) := by
  induction fuel generalizing st queue genPos with
  | zero => exact hInv
  | succ fuel ih =>
    simp only [genLoop]
    split
    · match hq : queue with
      | [] => exact hInv
      | currentPos :: rest =>
        dsimp only
        have hbase : currentPos ∈ posList st.rooms := hqueue _ (List.mem_cons_self _ _)
        have hrest : ∀ p ∈ rest, p ∈ posList st.rooms :=
          fun p hp => hqueue p (List.mem_cons_of_mem _ hp)
        have hinner := genInner_inv
          (min (min (randomInt st.rngSeed 1 3).2 (rtg - st.generatedRooms))
            (getValidAdjacentPositions st currentPos genPos).length)
          { st with rngSeed := (randomInt st.rngSeed 1 3).1 }
          (getValidAdjacentPositions st currentPos genPos) rest genPos currentPos
          hInv hrest hbase
          (getValidAdjacentPositions_adj st currentPos genPos)
        exact ih _ _ _ hinner.1 hinner.2.1
    · exact hInv

theorem hasAdjacentRoom_exists (st : GenState) (x y : Int)
    (h : hasAdjacentRoom st x y = true) :
    ∃ q ∈ posList st.rooms, adjPos q (x, y) := by
  unfold hasAdjacentRoom at h
  simp only [Bool.or_eq_true] at h
  rcases h with ((h | h) | h) | h
  · exact ⟨(x, y - 1), (getRoom_isSome_iff st x (y - 1)).mp h, by unfold adjPos; dsimp only; omega⟩
  · exact ⟨(x, y + 1), (getRoom_isSome_iff st x (y + 1)).mp h, by unfold adjPos; dsimp only; omega⟩
  · exact ⟨(x + 1, y), (getRoom_isSome_iff st (x + 1) y).mp h, by unfold adjPos; dsimp only; omega⟩
  · exact ⟨(x - 1, y), (getRoom_isSome_iff st (x - 1) y).mp h, by unfold adjPos; dsimp only; omega⟩

/-- Invariant preservation through the minimum-room top-up loop: every
candidate cell had an adjacent occupied cell when collected, and occupancy
only grows. -/
theorem topUp_inv (n : Nat) (st : GenState) (avail : List (Int × Int))
    (hInv : ConnInv st)
    (havail : ∀ a ∈ avail, ∃ q ∈ posList st.rooms, adjPos q a) :
    ConnInv (topUp n st avail) := by
  induction n generalizing st avail with
  | zero => exact hInv
  | succ n ih =>
    match havl : avail with
    | [] => exact hInv
    | a0 :: rest =>
      simp only [topUp]
      set st0 : GenState :=
        { st with rngSeed := (randomInt st.rngSeed 0 (a0 :: rest).length).1 } with hst0
      set pos := (a0 :: rest).getD (randomInt st.rngSeed 0 (a0 :: rest).length).2 a0 with hpos
      have hposadj : ∃ q ∈ posList st0.rooms, adjPos q pos :=
        havail _ (getD_mem_cons a0 rest _)
      have hInv1 : ConnInv (generateRoomAt st0 pos.1 pos.2).1 :=
        generateRoomAt_ConnInv st0 pos.1 pos.2 hInv hposadj
      exact ih (generateRoomAt st0 pos.1 pos.2).1
        (spliceOut (a0 :: rest) (randomInt st.rngSeed 0 (a0 :: rest).length).2)
        hInv1
        (by
          intro a ha
          rcases havail a (spliceOut_subset _ _ a ha) with ⟨q, hq, hqa⟩
          exact ⟨q, generateRoomAt_posList_mono st0 pos.1 pos.2 q hq, hqa⟩)

theorem ensureMinimumRooms_ConnInv (st : GenState) (hInv : ConnInv st) :
    ConnInv (ensureMinimumRooms st) := by
  unfold ensureMinimumRooms
  dsimp only
  split
  · refine topUp_inv _ st _ hInv ?_
    intro a ha
    have hfil := List.mem_filter.mp (by exact ha)
    have hadj : hasAdjacentRoom st a.1 a.2 = true := by
      have := hfil.2
      simp only [Bool.and_eq_true] at this
      exact this.2
    exact hasAdjacentRoom_exists st a.1 a.2 hadj
  · exact hInv

theorem list_set_self {α : Type} (l : List α) (i : Nat) (h : i < l.length) :
    l.set i l[i] = l := by
  apply List.ext_getElem
  · simp
  · intro n h1 h2
    by_cases hne : i = n
    · subst hne
      simp
    · rw [List.getElem_set_ne hne]

theorem posList_set_preserve (rooms : List Room) (i : Nat) (room : Room)
    (hi : rooms[i]? = some room) (room2 : Room)
    (hpos : roomPos room2 = roomPos room) :
    posList (rooms.set i room2) = posList rooms := by
  unfold posList
  rw [List.map_set]
  have hip : i < rooms.length := by
    by_contra hge
    rw [List.getElem?_eq_none (by omega)] at hi
    exact Option.noConfusion hi
  have hlen : i < (rooms.map roomPos).length := by simpa using hip
  have hroomi : rooms[i] = room := by
    have hg := List.getElem?_eq_getElem hip
    rw [hg] at hi
    exact Option.some.inj hi
  have hval : roomPos room2 = (rooms.map roomPos)[i] := by
    rw [hpos, ← hroomi]
    simp
  rw [hval]
  exact list_set_self _ _ hlen

theorem generateExitRoom_posList (st : GenState) :
    posList (generateExitRoom st).rooms = posList st.rooms := by
  unfold generateExitRoom
  split
  · rfl
  · split
    · rfl
    · split
      · split
        · rename_i o1 i hscan o2 room hroom
          dsimp only
          exact posList_set_preserve st.rooms i room hroom _ rfl
        · rfl
      · rfl

theorem generateExitRoom_ConnInv (st : GenState) (hInv : ConnInv st) :
    ConnInv (generateExitRoom st) := by
  intro p hp
  rw [generateExitRoom_posList] at hp ⊢
  exact hInv p hp

/-- C3: for every seed, level number and catalog containing a start
template, every room placed by `initialize` is reachable from the origin
cell (where the start room is placed) through 4-adjacent placed rooms. -/
theorem initialize_connected (m : Manager) (seed lvl : Nat)
    (hstart : (m.gen.tiles.filter (·.start)) ≠ []) :
    ∀ r ∈ (m.initializeMgr seed lvl).gen.rooms,
      ReachesOrigin (posList (m.initializeMgr seed lvl).gen.rooms) (r.roomX, r.roomY) := by
  intro r hr
  have hmem : roomPos r ∈ posList (m.initializeMgr seed lvl).gen.rooms :=
    List.mem_map_of_mem roomPos hr
  have hconn : ConnInv (m.initializeMgr seed lvl).gen := by
    unfold Manager.initializeMgr
    dsimp only
    unfold generateFiniteLevel
    dsimp only
    apply generateExitRoom_ConnInv
    apply ensureMinimumRooms_ConnInv
    apply genLoop_inv
    · -- connectivity after the start room is placed
      unfold generateStartRoom
      dsimp only
      split
      · rename_i hempty
        exact absurd hempty hstart
      · rename_i t0 rest hfil
        intro p hp
        unfold createRoom posList at hp ⊢
        dsimp only at hp ⊢
        simp only [List.nil_append, List.map_cons, List.map_nil, List.mem_singleton] at hp
        rw [hp, roomPos_mkRoom]
        exact ReachesOrigin.origin _ (by
          simp [roomPos_mkRoom])
    · -- the initial queue entry (0,0) is occupied
      intro p hp
      rcases List.mem_singleton.mp hp with rfl
      unfold generateStartRoom
      dsimp only
      split
      · rename_i hempty
        exact absurd hempty hstart
      · rename_i t0 rest hfil
        unfold createRoom posList
        simp [roomPos_mkRoom]
  exact hconn (roomPos r) hmem

end Watt

namespace Watt

/-- Witness for C3: the concrete two-template catalog contains a start
tile, and every room of the generated level (seed 1, level 1) is
reachable from the origin. -/
theorem initialize_connected_witness :
    (freshManager demoCatalog).gen.tiles.filter (·.start) ≠ [] ∧
    ∀ r ∈ ((freshManager demoCatalog).initializeMgr 1 1).gen.rooms,
      ReachesOrigin (posList ((freshManager demoCatalog).initializeMgr 1 1).gen.rooms)
        (r.roomX, r.roomY) :=
  ⟨by decide, initialize_connected (freshManager demoCatalog) 1 1 (by decide)⟩

end Watt

namespace Watt

/-! ## Generation determinism (C5) -/

theorem generateStartRoom_isSome (st : GenState)
    (hstart : st.tiles.filter (·.start) ≠ []) :
    ((generateStartRoom st).2).isSome := by
  unfold generateStartRoom
  dsimp only
  split
  · rename_i hempty
    exact absurd hempty hstart
  · rfl

/-- C5: `initialize(seed, levelNumber)` resets every field generation
reads, so two calls with the same seed, level number and tile catalog —
regardless of any other manager state — produce identical generation
states: the same rooms (grid coordinates, template data, world-pixel
origins, exit flags), counters, constraints and bounds; and, whenever the
catalog has a start template, the same start-room designation. -/
theorem initialize_deterministic (m1 m2 : Manager) (seed lvl : Nat)
    (htiles : m1.gen.tiles = m2.gen.tiles) :
    (m1.initializeMgr seed lvl).gen = (m2.initializeMgr seed lvl).gen ∧
    (m1.gen.tiles.filter (·.start) ≠ [] →
      (m1.initializeMgr seed lvl).startRoom = (m2.initializeMgr seed lvl).startRoom) := by
  unfold Manager.initializeMgr
  dsimp only
  rw [htiles]
  refine ⟨rfl, fun hstart => ?_⟩
  have hsome : ((generateStartRoom
      { tiles := m2.gen.tiles, rngSeed := lcgInit seed, rooms := [],
        generatedRooms := 0, exitRoomsGenerated := 0,
        constraints := adjustConstraintsForLevel lvl,
        bounds := boundsForConstraints (adjustConstraintsForLevel lvl) }).2).isSome := by
    apply generateStartRoom_isSome
    exact hstart
  unfold generateFiniteLevel
  dsimp only
  rcases Option.isSome_iff_exists.mp hsome with ⟨r, hr⟩
  rw [hr]

end Watt

namespace Watt

/-! ## Exit-room designation (C6) -/

/-- Any state property preserved by reseeding the PRNG and by
`generateRoomAt` survives the generation loops. -/
theorem loops_preserve (P : GenState → Prop)
    (hrng : ∀ st s, P st → P { st with rngSeed := s })
    (hgen : ∀ st x y, P st → P (generateRoomAt st x y).1) :
    (∀ n st adj q g, P st → P (genInner n st adj q g).1) ∧
    (∀ fuel st q g rtg, P st → P (genLoop fuel st q g rtg)) ∧
    (∀ n st avail, P st → P (topUp n st avail)) ∧
    (∀ st, P st → P (ensureMinimumRooms st)) := by
  have hinner : ∀ n st adj q g, P st → P (genInner n st adj q g).1 := by
    intro n
    induction n with
    | zero => intro st adj q g h; exact h
    | succ n ih =>
      intro st adj q g h
      match adj with
      | [] => exact h
      | a0 :: rest =>
        simp only [genInner]
        split
        · exact ih _ _ _ _ (hgen _ _ _ (hrng _ _ h))
        · exact ih _ _ _ _ (hgen _ _ _ (hrng _ _ h))
  have hloop : ∀ fuel st q g rtg, P st → P (genLoop fuel st q g rtg) := by
    intro fuel
    induction fuel with
    | zero => intro st q g rtg h; exact h
    | succ fuel ih =>
      intro st q g rtg h
      simp only [genLoop]
      split
      · match q with
        | [] => exact h
        | c :: rest =>
          dsimp only
          exact ih _ _ _ _ (hinner _ _ _ _ _ (hrng _ _ h))
      · exact h
  have htop : ∀ n st avail, P st → P (topUp n st avail) := by
    intro n
    induction n with
    | zero => intro st avail h; exact h
    | succ n ih =>
      intro st avail h
      match avail with
      | [] => exact h
      | a0 :: rest =>
        simp only [topUp]
        exact ih _ _ (hgen _ _ _ (hrng _ _ h))
  refine ⟨hinner, hloop, htop, fun st h => ?_⟩
  unfold ensureMinimumRooms
  dsimp only
  split
  · exact htop _ _ _ h
  · exact h

/-- No room is exit-marked, counters and constraints as set by
`initialize`, and the start room heads the list: the combined state
invariant carried from start-room placement to exit designation. -/
def PreExitInv (st : GenState) : Prop :=
  (∀ r ∈ st.rooms, r.isExit = false) ∧
  st.exitRoomsGenerated = 0 ∧
  st.constraints.maxExits = 1 ∧
  (∃ ps, posList st.rooms = (0, 0) :: ps ∧ (0, 0) ∉ ps)

theorem adjustAllRoomsPosition_isExit (st : GenState) (dx dy : Int) :
    ∀ r ∈ (adjustAllRoomsPosition st dx dy).rooms, ∃ r0 ∈ st.rooms,
      r.isExit = r0.isExit := by
  intro r hr
  unfold adjustAllRoomsPosition at hr
  split at hr
  · exact ⟨r, hr, rfl⟩
  · rcases List.mem_map.mp hr with ⟨r0, hr0, hmap⟩
    exact ⟨r0, hr0, by rw [← hmap]⟩

theorem iteAdjust_fields (c : Prop) [Decidable c] (st : GenState) (dx dy : Int) :
    ((if c then adjustAllRoomsPosition st dx dy else st).exitRoomsGenerated
        = st.exitRoomsGenerated) ∧
    ((if c then adjustAllRoomsPosition st dx dy else st).constraints = st.constraints) := by
  split
  · unfold adjustAllRoomsPosition
    split <;> exact ⟨rfl, rfl⟩
  · exact ⟨rfl, rfl⟩

theorem calculateOptimalRoomPosition_fields (st : GenState) (x y : Int) (t : Tile) :
    (∀ r ∈ (calculateOptimalRoomPosition st x y t).1.rooms, ∃ r0 ∈ st.rooms,
      r.isExit = r0.isExit) ∧
    (calculateOptimalRoomPosition st x y t).1.exitRoomsGenerated = st.exitRoomsGenerated ∧
    (calculateOptimalRoomPosition st x y t).1.constraints = st.constraints := by
  unfold calculateOptimalRoomPosition
  dsimp only
  constructor
  · intro r hr
    split at hr
    · split at hr
      · rcases adjustAllRoomsPosition_isExit _ _ _ r hr with ⟨r1, hr1, he1⟩
        rcases adjustAllRoomsPosition_isExit _ _ _ r1 hr1 with ⟨r0, hr0, he0⟩
        exact ⟨r0, hr0, he1.trans he0⟩
      · exact adjustAllRoomsPosition_isExit _ _ _ r hr
    · split at hr
      · exact adjustAllRoomsPosition_isExit _ _ _ r hr
      · exact ⟨r, hr, rfl⟩
  · constructor
    · rw [(iteAdjust_fields _ _ _ _).1, (iteAdjust_fields _ _ _ _).1]
    · rw [(iteAdjust_fields _ _ _ _).2, (iteAdjust_fields _ _ _ _).2]

theorem generateRoomAt_PreExitInv (st : GenState) (x y : Int)
    (h : PreExitInv st) : PreExitInv (generateRoomAt st x y).1 := by
  rcases Bool.eq_false_or_eq_true (generateRoomAt st x y).2 with hok | hok
  case inr =>
    rw [(generateRoomAt_spec st x y).1 hok]
    exact h
  case inl =>
    rcases h with ⟨hexit, hcount, hmax, ps, hpos, hps⟩
    have hspec := (generateRoomAt_spec st x y).2 hok
    refine ⟨?_, ?_, ?_, ?_⟩
    · -- isExit false everywhere
      intro r hr
      revert hr
      unfold generateRoomAt
      dsimp only
      split
      · intro hr; exact hexit r hr
      · split
        · intro hr; exact hexit r hr
        · split
          · intro hr; exact hexit r hr
          · split
            · intro hr; exact hexit r hr
            · dsimp only
              unfold createRoom
              dsimp only
              intro hr
              rcases List.mem_append.mp hr with hr | hr
              · rcases (calculateOptimalRoomPosition_fields _ x y _).1 r hr with ⟨r0, hr0, he⟩
                rw [he]
                exact hexit r0 hr0
              · rcases List.mem_singleton.mp hr with rfl
                rfl
    · -- counter unchanged
      revert hok
      unfold generateRoomAt
      dsimp only
      split
      · intro hok; exact hcount
      · split
        · intro hok; exact hcount
        · split
          · intro hok; exact hcount
          · split
            · intro hok; exact hcount
            · intro hok
              dsimp only
              unfold createRoom
              dsimp only
              rw [(calculateOptimalRoomPosition_fields _ x y _).2.1]
              exact hcount
    · -- maxExits unchanged
      revert hok
      unfold generateRoomAt
      dsimp only
      split
      · intro hok; exact hmax
      · split
        · intro hok; exact hmax
        · split
          · intro hok; exact hmax
          · split
            · intro hok; exact hmax
            · intro hok
              dsimp only
              unfold createRoom
              dsimp only
              rw [(calculateOptimalRoomPosition_fields _ x y _).2.2]
              exact hmax
    · -- start room stays first, origin stays unique
      refine ⟨ps ++ [(x, y)], ?_, ?_⟩
      · rw [hspec.1, hpos]
        rfl
      · intro hmem
        rcases List.mem_append.mp hmem with hmem | hmem
        · exact hps hmem
        · rcases List.mem_singleton.mp hmem with heq
          exact hspec.2 (by rw [hpos, ← heq]; exact List.mem_cons_self _ _)

end Watt

namespace Watt

/-- Manhattan distance of the room at index `i` (0 out of range). -/
def manhAt (rooms : List Room) (i : Nat) : Int :=
  match rooms[i]? with
  | some r => r.manhattan
  | none => 0

/-- The exit scan truncated to the first `n` indices. -/
def exitScanN (rooms : List Room) (n : Nat) : Option Nat × Int :=
  (List.range n).foldl
    (fun acc i =>
      match rooms[i]? with
      | some room => if acc.2 < room.manhattan then (some i, room.manhattan) else acc
      | none => acc)
    (none, -1)

theorem exitScan_eq_N (rooms : List Room) : exitScan rooms = exitScanN rooms rooms.length := rfl

theorem manhattan_nonneg (r : Room) : 0 ≤ r.manhattan :=
  add_nonneg (abs_nonneg _) (abs_nonneg _)

theorem exitScanN_spec (rooms : List Room) :
    ∀ n, n ≤ rooms.length → 0 < n →
    ∃ i, i < n ∧ exitScanN rooms n = (some i, manhAt rooms i) ∧
      (∀ j, j < n → manhAt rooms j ≤ manhAt rooms i) ∧
      (∀ j, j < i → manhAt rooms j < manhAt rooms i) := by
  intro n
  induction n with
  | zero => omega
  | succ n ih =>
    intro hle h0
    rcases Nat.eq_zero_or_pos n with rfl | hpos
    · -- the first scanned index always replaces the initial accumulator
      have hlen : 0 < rooms.length := by omega
      rcases Option.isSome_iff_exists.mp
        (by rw [List.getElem?_eq_getElem hlen]; rfl : (rooms[0]?).isSome) with ⟨r0, hr0⟩
      refine ⟨0, by omega, ?_, ?_, ?_⟩
      · unfold exitScanN
        rw [List.range_succ, List.range_zero, List.nil_append]
        simp only [List.foldl_cons, List.foldl_nil, hr0]
        rw [if_pos (by have := manhattan_nonneg r0; omega)]
        unfold manhAt
        rw [hr0]
      · intro j hj
        interval_cases j
        exact le_refl _
      · omega
    · obtain ⟨i, hi, heq, hmax, hfirst⟩ := ih (by omega) hpos
      have hstep : exitScanN rooms (n + 1) =
          (match rooms[n]? with
           | some room => if (exitScanN rooms n).2 < room.manhattan
               then (some n, room.manhattan) else exitScanN rooms n
           | none => exitScanN rooms n) := by
        unfold exitScanN
        rw [List.range_succ, List.foldl_append, List.foldl_cons, List.foldl_nil]
      have hlenn : n < rooms.length := by omega
      rcases Option.isSome_iff_exists.mp
        (by rw [List.getElem?_eq_getElem hlenn]; rfl : (rooms[n]?).isSome) with ⟨rn, hrn⟩
      have hman : manhAt rooms n = rn.manhattan := by unfold manhAt; rw [hrn]
      rw [hrn] at hstep
      rw [heq] at hstep
      dsimp only at hstep
      by_cases hlt : manhAt rooms i < rn.manhattan
      · rw [if_pos hlt] at hstep
        refine ⟨n, by omega, ?_, ?_, ?_⟩
        · rw [hstep, hman]
        · intro j hj
          rcases Nat.lt_succ_iff_lt_or_eq.mp hj with hj | rfl
          · calc manhAt rooms j ≤ manhAt rooms i := hmax j hj
              _ ≤ manhAt rooms n := by rw [hman]; omega
          · exact le_refl _
        · intro j hj
          calc manhAt rooms j ≤ manhAt rooms i := hmax j hj
            _ < manhAt rooms n := by rw [hman]; omega
      · rw [if_neg hlt] at hstep
        refine ⟨i, by omega, hstep, ?_, hfirst⟩
        intro j hj
        rcases Nat.lt_succ_iff_lt_or_eq.mp hj with hj | rfl
        · exact hmax j hj
        · rw [hman]
          omega

/-- `generateExitRoom`'s marking of the chosen room. -/
def markExit (r : Room) : Room :=
  { r with isExit := true, tile := { r.tile with exit := true } }

/-- What `generateExitRoom` does when the guards pass: it replaces the
first room of maximal Manhattan distance by its exit-marked copy. -/
theorem generateExitRoom_spec (st : GenState)
    (hguard : st.exitRoomsGenerated < st.constraints.maxExits)
    (hne : st.rooms ≠ []) :
    ∃ i, i < st.rooms.length ∧
      (∀ r, st.rooms[i]? = some r →
        (generateExitRoom st).rooms = st.rooms.set i (markExit r)) ∧
      (∀ j, j < st.rooms.length → manhAt st.rooms j ≤ manhAt st.rooms i) ∧
      (∀ j, j < i → manhAt st.rooms j < manhAt st.rooms i) := by
  have hlen : 0 < st.rooms.length := List.length_pos.mpr hne
  obtain ⟨i, hi, heq, hmax, hfirst⟩ :=
    exitScanN_spec st.rooms st.rooms.length (le_refl _) hlen
  refine ⟨i, hi, ?_, hmax, hfirst⟩
  intro r hr
  unfold generateExitRoom
  rw [if_neg (by omega), if_neg (by simp [List.isEmpty_iff, hne])]
  rw [exitScan_eq_N, heq]
  dsimp only
  rw [hr]
  rfl

end Watt

namespace Watt

theorem markExit_manhattan (r : Room) : (markExit r).manhattan = r.manhattan := rfl

theorem manhAt_set_markExit (rooms : List Room) (i : Nat) (r : Room)
    (hr : rooms[i]? = some r) (j : Nat) :
    manhAt (rooms.set i (markExit r)) j = manhAt rooms j := by
  unfold manhAt
  by_cases hij : i = j
  · subst hij
    have hil : i < rooms.length := by
      by_contra hge
      rw [List.getElem?_eq_none (by omega)] at hr
      exact Option.noConfusion hr
    rw [List.getElem?_set_self (by simpa using hil), hr]
    rfl
  · rw [List.getElem?_set_ne hij]

/-- The exit pass on any state satisfying the pre-exit invariant marks
exactly one room: the first room attaining the maximal Manhattan distance,
and (when any non-start room exists) not the start room at the origin. -/
theorem generateExitRoom_selection (st : GenState) (hInv : PreExitInv st) :
    ∃ i, i < (generateExitRoom st).rooms.length ∧
      (∀ j r, (generateExitRoom st).rooms[j]? = some r → (r.isExit = true ↔ j = i)) ∧
      (∀ j, j < (generateExitRoom st).rooms.length →
        manhAt (generateExitRoom st).rooms j ≤ manhAt (generateExitRoom st).rooms i) ∧
      (∀ j, j < i → manhAt (generateExitRoom st).rooms j < manhAt (generateExitRoom st).rooms i) ∧
      (2 ≤ (generateExitRoom st).rooms.length →
        ∀ r, (generateExitRoom st).rooms[i]? = some r → ¬(r.roomX = 0 ∧ r.roomY = 0)) := by
  rcases hInv with ⟨hexit, hcnt, hmaxex, ps, hpos, hps⟩
  have hne : st.rooms ≠ [] := by
    intro hnil
    rw [hnil] at hpos
    exact List.noConfusion hpos
  obtain ⟨i, hi, hset, hmax, hfirst⟩ :=
    generateExitRoom_spec st (by omega) hne
  rcases Option.isSome_iff_exists.mp
    (by rw [List.getElem?_eq_getElem hi]; rfl : (st.rooms[i]?).isSome) with ⟨r, hr⟩
  have hrooms : (generateExitRoom st).rooms = st.rooms.set i (markExit r) := hset r hr
  have hlen : (generateExitRoom st).rooms.length = st.rooms.length := by
    rw [hrooms, List.length_set]
  have hman : ∀ j, manhAt (generateExitRoom st).rooms j = manhAt st.rooms j := by
    intro j
    rw [hrooms]
    exact manhAt_set_markExit st.rooms i r hr j
  refine ⟨i, by omega, ?_, ?_, ?_, ?_⟩
  · intro j r2 hr2
    by_cases hij : j = i
    · subst hij
      rw [hrooms, List.getElem?_set_self (by simpa using hi)] at hr2
      rcases Option.some.inj hr2 with rfl
      simp [markExit]
    · rw [hrooms, List.getElem?_set_ne (fun h => hij h.symm)] at hr2
      have : r2 ∈ st.rooms := List.getElem?_mem hr2
      rw [hexit r2 this]
      simp [hij]
  · intro j hj
    rw [hman, hman]
    exact hmax j (by omega)
  · intro j hj
    rw [hman, hman]
    exact hfirst j hj
  · intro h2 r2 hr2
    rintro ⟨hx0, hy0⟩
    -- the second placed room gives a strictly positive maximal distance
    have h1len : 1 < st.rooms.length := by omega
    rcases Option.isSome_iff_exists.mp
      (by rw [List.getElem?_eq_getElem h1len]; rfl : (st.rooms[1]?).isSome) with ⟨r1, hr1⟩
    have hposlist : (posList st.rooms)[1]? = some (roomPos r1) := by
      unfold posList
      rw [List.getElem?_map, hr1]
      rfl
    rw [hpos] at hposlist
    have hmem1 : roomPos r1 ∈ ps := by
      have h01 : ps[0]? = some (roomPos r1) := by simpa using hposlist
      exact List.getElem?_mem h01
    have hne1 : roomPos r1 ≠ (0, 0) := fun h => hps (h ▸ hmem1)
    have hman1 : 1 ≤ r1.manhattan := by
      unfold Room.manhattan
      have hcoord : r1.roomX ≠ 0 ∨ r1.roomY ≠ 0 := by
        by_contra hc
        push_neg at hc
        exact hne1 (by unfold roomPos; rw [hc.1, hc.2])
      rcases hcoord with hx | hy
      · have := Int.one_le_abs (by omega : r1.roomX ≠ 0)
        have := abs_nonneg r1.roomY
        omega
      · have := Int.one_le_abs (by omega : r1.roomY ≠ 0)
        have := abs_nonneg r1.roomX
        omega
    have hmanAt1 : manhAt st.rooms 1 = r1.manhattan := by
      unfold manhAt
      rw [hr1]
    have hmaxi : 1 ≤ manhAt st.rooms i := by
      have := hmax 1 h1len
      omega
    -- but the chosen room sits at the origin
    have hr2man : manhAt (generateExitRoom st).rooms i = r2.manhattan := by
      unfold manhAt
      rw [hr2]
    have : r2.manhattan = 0 := by
      unfold Room.manhattan
      rw [hx0, hy0]
      simp
    rw [hman] at hr2man
    omega

end Watt

namespace Watt

theorem PreExitInv_rngSeed (st : GenState) (s : Nat) (h : PreExitInv st) :
    PreExitInv { st with rngSeed := s } := h

/-- C6 amended: on every generated level whose catalog has a start
template, exactly one placed room is marked `isExit`: the first room (in
placement order) attaining the maximal Manhattan distance `|roomX|+|roomY|`
from the grid origin; whenever at least two rooms were placed it is not
the start room at the origin.  (As the counterexample shows, with a
single placed room the code marks the start room itself, so the original
"other than the start room" clause only holds from two rooms on.) -/
theorem exit_selection_amended (m : Manager) (seed lvl : Nat)
    (hstart : m.gen.tiles.filter (·.start) ≠ []) :
    ∃ i, i < (m.initializeMgr seed lvl).gen.rooms.length ∧
      (∀ j r, (m.initializeMgr seed lvl).gen.rooms[j]? = some r → (r.isExit = true ↔ j = i)) ∧
      (∀ j, j < (m.initializeMgr seed lvl).gen.rooms.length →
        manhAt (m.initializeMgr seed lvl).gen.rooms j ≤ manhAt (m.initializeMgr seed lvl).gen.rooms i) ∧
      (∀ j, j < i →
        manhAt (m.initializeMgr seed lvl).gen.rooms j < manhAt (m.initializeMgr seed lvl).gen.rooms i) ∧
      (2 ≤ (m.initializeMgr seed lvl).gen.rooms.length →
        ∀ r, (m.initializeMgr seed lvl).gen.rooms[i]? = some r → ¬(r.roomX = 0 ∧ r.roomY = 0)) := by
  unfold Manager.initializeMgr
  dsimp only
  unfold generateFiniteLevel
  dsimp only
  apply generateExitRoom_selection
  have hP := loops_preserve PreExitInv PreExitInv_rngSeed generateRoomAt_PreExitInv
  apply hP.2.2.2
  apply hP.2.1
  unfold generateStartRoom
  dsimp only
  split
  · rename_i hempty
    exact absurd hempty hstart
  · rename_i t0 rest hfil
    unfold createRoom
    dsimp only
    refine ⟨?_, rfl, rfl, [], by unfold posList; simp [roomPos_mkRoom], by simp⟩
    intro r hr
    rcases List.mem_singleton.mp (by simpa using hr) with rfl
    rfl

/-- C6 counterexample: with the repository's own fallback catalog (the
only catalog present in the source tree — one start and one exit template,
neither usable as a connector), generation places exactly one room, the
start room at the origin, and `generateExitRoom` marks *it* as the exit —
the exit room is not "a placed room other than the start room". -/
theorem exit_is_start_counterexample :
    (((freshManager fallbackCatalog).initializeMgr 1 1).gen.rooms.map
      (fun r => (r.roomX, r.roomY, r.isExit, r.tile.start))) = [(0, 0, true, true)] := by
  decide

/-- Witness for the amended C6: the two-template catalog has a start tile,
and the generated level (seed 1, level 1) has a unique exit-marked room of
maximal Manhattan distance, distinct from the origin start room. -/
theorem exit_selection_amended_witness :
    (freshManager demoCatalog).gen.tiles.filter (·.start) ≠ [] ∧
    (∃ i, i < ((freshManager demoCatalog).initializeMgr 1 1).gen.rooms.length ∧
      (∀ j r, ((freshManager demoCatalog).initializeMgr 1 1).gen.rooms[j]? = some r →
        (r.isExit = true ↔ j = i)) ∧
      (∀ j, j < ((freshManager demoCatalog).initializeMgr 1 1).gen.rooms.length →
        manhAt ((freshManager demoCatalog).initializeMgr 1 1).gen.rooms j ≤
          manhAt ((freshManager demoCatalog).initializeMgr 1 1).gen.rooms i) ∧
      (∀ j, j < i →
        manhAt ((freshManager demoCatalog).initializeMgr 1 1).gen.rooms j <
          manhAt ((freshManager demoCatalog).initializeMgr 1 1).gen.rooms i) ∧
      (2 ≤ ((freshManager demoCatalog).initializeMgr 1 1).gen.rooms.length →
        ∀ r, ((freshManager demoCatalog).initializeMgr 1 1).gen.rooms[i]? = some r →
          ¬(r.roomX = 0 ∧ r.roomY = 0))) :=
  ⟨by decide, exit_selection_amended (freshManager demoCatalog) 1 1 (by decide)⟩

end Watt

namespace Watt

/-- A manager with the same catalog but different stale state (completed
level, stale start-room reference, different stored seed). -/
def managerStale : Manager :=
  { freshManager demoCatalog with
      levelComplete := true
      seed := 99
      startRoom := some (mkRoom tileSmall44 5 5 2 2) }

/-- Witness for C5: two managers differing in all non-generation state but
sharing the catalog produce the same generation state and the same start
room for seed 7, level 3. -/
theorem initialize_deterministic_witness :
    ((freshManager demoCatalog).initializeMgr 7 3).gen = (managerStale.initializeMgr 7 3).gen ∧
    ((freshManager demoCatalog).gen.tiles.filter (·.start) ≠ [] →
      ((freshManager demoCatalog).initializeMgr 7 3).startRoom =
        (managerStale.initializeMgr 7 3).startRoom) :=
  initialize_deterministic (freshManager demoCatalog) managerStale 7 3 rfl

end Watt

namespace Watt

/-! ## Event emission with listener fault isolation
(`powerManagement.js`: `PowerManagementSystem.emitEvent`, C9) -/

/-- The `try { callback(data) } catch (error) { console.warn(...) }` of one
loop iteration: a throwing callback is converted into a logged warning and
never propagates. -/
def tryCatchWarn (r : Except String Unit) : Except String (Option String) :=
  match r with
  | Except.ok _ => Except.ok none
  | Except.error e => Except.ok (some e)

/-- The `listeners.forEach` loop of `emitEvent`: run each callback in
order; an exception escaping an iteration would abort the loop
(`Except.error`), while the try/catch turns a throwing callback into a log
entry and continues. -/
def emitLoop {Data : Type} (data : Data) :
    List (Data → Except String Unit) → List String → Except String (List String)
  | [], log => Except.ok log
  | cb :: rest, log =>
    match tryCatchWarn (cb data) with
    | Except.error e => Except.error e
    | Except.ok (some e) => emitLoop data rest (log ++ [e])
    | Except.ok none => emitLoop data rest log

/-- `emitEvent(event, data)`: look up the listener list for the event and
run the loop.  The result collects the warnings logged for throwing
listeners; an `Except.error` result would mean an exception escaping
`emitEvent` itself. -/
def emitEvent {Data : Type} (listeners : Option (List (Data → Except String Unit)))
    (data : Data) : Except String (List String) :=
  match listeners with
  | none => Except.ok []
  | some ls => emitLoop data ls []

/-- The warnings each callback of the list contributes. -/
def thrownErrors {Data : Type} (ls : List (Data → Except String Unit)) (data : Data) :
    List String :=
  ls.filterMap fun cb =>
    match cb data with
    | Except.error e => some e
    | Except.ok _ => none

theorem emitLoop_spec {Data : Type} (data : Data)
    (ls : List (Data → Except String Unit)) (acc : List String) :
    emitLoop data ls acc = Except.ok (acc ++ thrownErrors ls data) := by
  induction ls generalizing acc with
  | nil => simp [emitLoop, thrownErrors]
  | cons cb rest ih =>
    match hcb : cb data with
    | Except.ok u =>
      simp [emitLoop, tryCatchWarn, hcb, ih, thrownErrors, List.filterMap_cons]
    | Except.error e =>
      simp [emitLoop, tryCatchWarn, hcb, ih, thrownErrors, List.filterMap_cons]

/-- C9: even when some registered listener throws, `emitEvent` returns
normally (never `Except.error`), every listener is still run — the
warning log is exactly the errors of the throwing listeners, in
registration order, including those registered after the first thrower —
and no exception propagates to the emitting component. -/
theorem emitEvent_listener_isolation {Data : Type}
    (ls : List (Data → Except String Unit)) (data : Data)
    (_hthrow : ∃ cb ∈ ls, (cb data).isOk = false) :
    (emitEvent (some ls) data).isOk = true ∧
    emitEvent (some ls) data = Except.ok (thrownErrors ls data) := by
  have hspec : emitEvent (some ls) data = Except.ok (thrownErrors ls data) := by
    unfold emitEvent
    dsimp only
    rw [emitLoop_spec data ls []]
    rw [List.nil_append]
  exact ⟨by rw [hspec]; rfl, hspec⟩

/-- Concrete listeners for the C9 witness: a succeeding one, a throwing
one, and a succeeding one registered after the thrower. -/
def cbOk1 : Nat → Except String Unit := fun _ => Except.ok ()

def cbThrows : Nat → Except String Unit := fun n =>
  if n = 0 then Except.error "listener boom" else Except.ok ()

def cbOk2 : Nat → Except String Unit := fun _ => Except.ok ()

/-- Witness for C9: with a throwing listener between two healthy ones,
`emitEvent` returns normally and logs exactly the thrower's error. -/
theorem emitEvent_listener_isolation_witness :
    (emitEvent (some [cbOk1, cbThrows, cbOk2]) 0).isOk = true ∧
    emitEvent (some [cbOk1, cbThrows, cbOk2]) 0 =
      Except.ok (thrownErrors [cbOk1, cbThrows, cbOk2] 0) :=
  emitEvent_listener_isolation [cbOk1, cbThrows, cbOk2] 0
    ⟨cbThrows, by simp, by simp [cbThrows, Except.isOk, Except.toBool]⟩

end Watt

namespace Watt

/-! ## Tile catalog validation and repair (`dungeonGen.js`: `TileLoader`, C8) -/

/-- A prefab descriptor of a dungeon tile (`{type, pos, dir?, id?}`). -/
structure Prefab where
  type : String
  pos : Nat × Nat
  dir : Option String := none
  id : Option String := none
deriving DecidableEq, Repr

/-- A tile as consumed by `TileLoader.validateAndFixTile` (`collision` may
be absent, as in the fallback tiles). -/
structure DTile where
  id : String
  size : Nat × Nat
  collision : Option (List (List Char)) := none
  prefabs : List Prefab := []
deriving DecidableEq, Repr

/-- `tile.collision || []`. -/
def collisionRows (t : DTile) : List (List Char) := t.collision.getD []

/-- `tile.prefabs.some(p => p.pos[0] === x && p.pos[1] === y)`. -/
def occupiedAt (prefabs : List Prefab) (x y : Nat) : Bool :=
  prefabs.any fun p => p.pos.1 = x ∧ p.pos.2 = y

/-- The full scan of `findSafePositions` (before `.slice(0, count)`):
interior cells (edges excluded), in `y`-major order, that carry a floor
character and are not occupied by an existing prefab. -/
def findSafePositionsAll (t : DTile) : List (Nat × Nat) :=
  (List.range' 1 (t.size.2 - 2)).flatMap fun y =>
    (List.range' 1 (t.size.1 - 2)).filterMap fun x =>
      match (collisionRows t)[y]? with
      | some row =>
        match row[x]? with
        | some c =>
          if c = '.' ∧ ¬occupiedAt t.prefabs x y then some (x, y) else none
        | none => none
      | none => none

/-- `findSafePositions(tile, count)`. -/
def findSafePositions (t : DTile) (count : Nat) : List (Nat × Nat) :=
  (findSafePositionsAll t).take count

/-- `getBestLaserDirection(tile, pos)`: aim toward the tile center.  The
JS computes `center = size/2` in floating point; we compare the doubled
integer differences `size - 2*pos`, which is exact. -/
def getBestLaserDirection (t : DTile) (pos : Nat × Nat) : String :=
  let ddx : Int := (t.size.1 : Int) - 2 * (pos.1 : Int)
  let ddy : Int := (t.size.2 : Int) - 2 * (pos.2 : Int)
  if |ddx| > |ddy| then (if ddx > 0 then "E" else "W")
  else (if ddy > 0 then "S" else "N")

/-- `addPowerCellsToMatch(tile, lasers, powerCells)`. -/
def addPowerCellsToMatch (t : DTile) (lasers cells : List Prefab) : DTile :=
  let needed := lasers.length - cells.length
  let safe := findSafePositions t needed
  { t with prefabs := t.prefabs ++
      (List.range (min needed safe.length)).map fun i =>
        { type := "PowerCell", pos := safe.getD i (0, 0),
          id := some ("auto_cell_" ++ t.id ++ "_" ++ toString (i + cells.length + 1)) } }

/-- `addLasersToMatch(tile, lasers, powerCells)`. -/
def addLasersToMatch (t : DTile) (lasers cells : List Prefab) : DTile :=
  let needed := cells.length - lasers.length
  let safe := findSafePositions t needed
  { t with prefabs := t.prefabs ++
      (List.range (min needed safe.length)).map fun i =>
        { type := "LaserEmitter", pos := safe.getD i (0, 0),
          dir := some (getBestLaserDirection t (safe.getD i (0, 0))),
          id := some ("auto_emitter_" ++ t.id ++ "_" ++ toString (i + lasers.length + 1)) } }

/-- `findSafePositionNear(tile, targetX, targetY)`. -/
def findSafePositionNear (t : DTile) (tx ty : Nat) : Option (Nat × Nat) :=
  match (collisionRows t)[ty]? with
  | some row =>
    match row[tx]? with
    | some c =>
      if c = '.' then (if occupiedAt t.prefabs tx ty then none else some (tx, ty))
      else none
    | none => none
  | none => none

/-- Index (into the prefab list) of the `n`-th PowerCell prefab. -/
def idxOfNthCell (prefabs : List Prefab) (n : Nat) : Option Nat :=
  ((List.range prefabs.length).filter fun j =>
    match prefabs[j]? with
    | some p => p.type == "PowerCell"
    | none => false)[n]?

/-- One iteration of the `alignLasersAndPowerCells` loop: pair the `i`-th
laser with the `i`-th power cell and nudge the cell onto the laser's row
(laser facing E/W) or column (N/S) when the target cell is safe.
Mutating the cell object in place is modelled by setting its index in the
prefab list. -/
def alignStep (t : DTile) (i : Nat) : DTile :=
  match (t.prefabs.filter fun p => p.type == "LaserEmitter")[i]?, idxOfNthCell t.prefabs i with
  | some laser, some ci =>
    match t.prefabs[ci]? with
    | some cell =>
      if laser.dir = some "E" ∨ laser.dir = some "W" then
        match findSafePositionNear t cell.pos.1 laser.pos.2 with
        | some sp => { t with prefabs := t.prefabs.set ci { cell with pos := (cell.pos.1, sp.2) } }
        | none => t
      else if laser.dir = some "N" ∨ laser.dir = some "S" then
        match findSafePositionNear t laser.pos.1 cell.pos.2 with
        | some sp => { t with prefabs := t.prefabs.set ci { cell with pos := (sp.1, cell.pos.2) } }
        | none => t
      else t
    | none => t
  | _, _ => t

/-- `alignLasersAndPowerCells(tile)`. -/
def alignLasersAndPowerCells (t : DTile) : DTile :=
  let lasers := t.prefabs.filter fun p => p.type == "LaserEmitter"
  let cells := t.prefabs.filter fun p => p.type == "PowerCell"
  if lasers.length = 0 ∨ cells.length = 0 then t
  else (List.range (min lasers.length cells.length)).foldl alignStep t

/-- The keep-predicate of `removeEntitiesInWalls`: a prefab survives when its
position is inside the collision bounds and the collision cell is not `#`. -/
def keepFn (collision : List (List Char)) (p : Prefab) : Bool :=
  match collision[p.pos.2]? with
  | some row =>
    match row[p.pos.1]? with
    | some c => !(c = '#')
    | none => false
  | none => false

/-- `removeEntitiesInWalls(tile)`: drop prefabs out of collision bounds or
on wall characters (no-op when the tile has no collision data). -/
def removeEntitiesInWalls (t : DTile) : DTile :=
  match t.collision with
  | none => t
  | some collision => { t with prefabs := t.prefabs.filter (keepFn collision) }

/-- `balanceLaserAndPowerCells(tile)`. -/
def balanceLaserAndPowerCells (t : DTile) : DTile :=
  let lasers := t.prefabs.filter fun p => p.type == "LaserEmitter"
  let cells := t.prefabs.filter fun p => p.type == "PowerCell"
  let t1 :=
    if lasers.length ≠ cells.length then
      (if cells.length < lasers.length then addPowerCellsToMatch t lasers cells
       else addLasersToMatch t lasers cells)
    else t
  alignLasersAndPowerCells t1

/-- `validateAndFixTile(tile)` (deep cloning is identity in a pure
embedding). -/
def validateAndFixTile (t : DTile) : DTile :=
  removeEntitiesInWalls (balanceLaserAndPowerCells t)

end Watt

namespace Watt

/-- Number of prefabs sitting at a given position. -/
def countPos (prefabs : List Prefab) (pos : Nat × Nat) : Nat :=
  (prefabs.filter fun q => q.pos = pos).length

/-- The tile's collision holds a floor character at `(x, y)`. -/
def isFloorCell (t : DTile) (pos : Nat × Nat) : Prop :=
  ∃ row, (collisionRows t)[pos.2]? = some row ∧ row[pos.1]? = some '.'

theorem filter_length_set {α : Type} (f : α → Bool) :
    ∀ (l : List α) (j : Nat) (p p2 : α), l[j]? = some p →
    ((l.set j p2).filter f).length + (if f p then 1 else 0) =
      (l.filter f).length + (if f p2 then 1 else 0) := by
  intro l
  induction l with
  | nil => intro j p p2 h; simp at h
  | cons a rest ih =>
    intro j p p2 h
    match j with
    | 0 =>
      have ha : a = p := by simpa using h
      subst ha
      rw [List.set_cons_zero, List.filter_cons, List.filter_cons]
      by_cases hp : f a <;> by_cases hp2 : f p2 <;> simp [hp, hp2]
    | jj + 1 =>
      simp only [List.getElem?_cons_succ] at h
      rw [List.set_cons_succ, List.filter_cons, List.filter_cons]
      have hih := ih jj p p2 h
      by_cases ha : f a <;> simp [ha] <;> omega

theorem filter_set_eq {α : Type} (f : α → Bool) :
    ∀ (l : List α) (j : Nat) (p p2 : α), l[j]? = some p →
    f p = false → f p2 = false →
    (l.set j p2).filter f = l.filter f := by
  intro l
  induction l with
  | nil => intro j p p2 h; simp at h
  | cons a rest ih =>
    intro j p p2 h hp hp2
    match j with
    | 0 =>
      have ha : a = p := by simpa using h
      subst ha
      rw [List.set_cons_zero, List.filter_cons, List.filter_cons]
      simp [hp, hp2]
    | jj + 1 =>
      simp only [List.getElem?_cons_succ] at h
      rw [List.set_cons_succ, List.filter_cons, List.filter_cons, ih jj p p2 h hp hp2]

theorem two_le_length_of_two_mem {α : Type} (l : List α) (a b : α)
    (ha : a ∈ l) (hb : b ∈ l) (hne : a ≠ b) : 2 ≤ l.length := by
  induction l with
  | nil => simp at ha
  | cons x rest ih =>
    rcases List.mem_cons.mp ha with rfl | ha2
    · rcases List.mem_cons.mp hb with rfl | hb2
      · exact absurd rfl hne
      · have := List.length_pos.mpr (List.ne_nil_of_mem hb2)
        simp only [List.length_cons]
        omega
    · have := List.length_pos.mpr (List.ne_nil_of_mem ha2)
      simp only [List.length_cons]
      omega

/-- The per-row scan of `findSafePositions`. -/
def rowScan (t : DTile) (y : Nat) : List (Nat × Nat) :=
  match (collisionRows t)[y]? with
  | some row =>
    (List.range' 1 (t.size.1 - 2)).filterMap fun x =>
      match row[x]? with
      | some c =>
        if c = '.' ∧ ¬occupiedAt t.prefabs x y then some (x, y) else none
      | none => none
  | none => []

theorem findSafePositionsAll_eq_rowScan (t : DTile) :
    findSafePositionsAll t = (List.range' 1 (t.size.2 - 2)).flatMap (rowScan t) := by
  unfold findSafePositionsAll
  congr 1
  funext y
  unfold rowScan
  rcases hrow : (collisionRows t)[y]? with _ | row
  · exact List.filterMap_eq_nil_iff.mpr fun a ha => rfl
  · rfl

theorem rowScan_mem (t : DTile) (y : Nat) (a : Nat × Nat) (ha : a ∈ rowScan t y) :
    a.2 = y ∧ isFloorCell t a ∧ occupiedAt t.prefabs a.1 a.2 = false := by
  unfold rowScan at ha
  rcases hrow : (collisionRows t)[y]? with _ | row
  · simp [hrow] at ha
  · rw [hrow] at ha
    rcases List.mem_filterMap.mp ha with ⟨x, hx, hf⟩
    rcases hc : row[x]? with _ | c
    · rw [hc] at hf
      exact absurd hf (by simp)
    · rw [hc] at hf
      have hf2 : (if c = '.' ∧ ¬occupiedAt t.prefabs x y then some (x, y) else none)
          = some a := hf
      by_cases hcond : c = '.' ∧ ¬occupiedAt t.prefabs x y
      · rw [if_pos hcond] at hf2
        rcases Option.some.inj hf2 with rfl
        refine ⟨rfl, ⟨row, hrow, ?_⟩, by simpa using hcond.2⟩
        rw [hc, hcond.1]
      · rw [if_neg hcond] at hf2
        exact absurd hf2 (by simp)

theorem rowScan_nodup (t : DTile) (y : Nat) : (rowScan t y).Nodup := by
  unfold rowScan
  rcases hrow : (collisionRows t)[y]? with _ | row
  · exact List.nodup_nil
  · apply List.Nodup.filterMap
    · intro x1 x2 b hb1 hb2
      have hx1 : b.1 = x1 := by
        rcases hc : row[x1]? with _ | c <;> rw [hc] at hb1
        · simp at hb1
        · have hb : (if c = '.' ∧ ¬occupiedAt t.prefabs x1 y then some (x1, y) else none)
              = some b := hb1
          by_cases hcond : c = '.' ∧ ¬occupiedAt t.prefabs x1 y
          · rw [if_pos hcond] at hb
            rcases Option.some.inj hb with rfl
            rfl
          · rw [if_neg hcond] at hb
            exact absurd hb (by simp)
      have hx2 : b.1 = x2 := by
        rcases hc : row[x2]? with _ | c <;> rw [hc] at hb2
        · simp at hb2
        · have hb : (if c = '.' ∧ ¬occupiedAt t.prefabs x2 y then some (x2, y) else none)
              = some b := hb2
          by_cases hcond : c = '.' ∧ ¬occupiedAt t.prefabs x2 y
          · rw [if_pos hcond] at hb
            rcases Option.some.inj hb with rfl
            rfl
          · rw [if_neg hcond] at hb
            exact absurd hb (by simp)
      omega
    · exact List.nodup_range' _ _

theorem findSafePositionsAll_nodup (t : DTile) : (findSafePositionsAll t).Nodup := by
  rw [findSafePositionsAll_eq_rowScan]
  have haux : ∀ ys : List Nat, ys.Nodup → (ys.flatMap (rowScan t)).Nodup := by
    intro ys
    induction ys with
    | nil => intro h; simp
    | cons y rest ih =>
      intro hnd
      rw [List.flatMap_cons]
      apply List.Nodup.append (rowScan_nodup t y) (ih (List.nodup_cons.mp hnd).2)
      intro a ha hb
      have h1 := (rowScan_mem t y a ha).1
      rcases List.mem_flatMap.mp hb with ⟨y2, hy2, ha2⟩
      have h2 := (rowScan_mem t y2 a ha2).1
      exact (List.nodup_cons.mp hnd).1 (by rw [← h1, h2]; exact hy2)
  exact haux _ (List.nodup_range' _ _)

theorem findSafePositionsAll_mem (t : DTile) (a : Nat × Nat)
    (ha : a ∈ findSafePositionsAll t) :
    isFloorCell t a ∧ occupiedAt t.prefabs a.1 a.2 = false := by
  rw [findSafePositionsAll_eq_rowScan] at ha
  rcases List.mem_flatMap.mp ha with ⟨y, hy, hr⟩
  exact ⟨(rowScan_mem t y a hr).2.1, (rowScan_mem t y a hr).2.2⟩

theorem occupiedAt_false_countPos (prefabs : List Prefab) (x y : Nat)
    (h : occupiedAt prefabs x y = false) : countPos prefabs (x, y) = 0 := by
  unfold countPos
  rw [List.length_eq_zero]
  rw [List.filter_eq_nil_iff]
  intro q hq
  unfold occupiedAt at h
  rw [List.any_eq_false] at h
  have := h q hq
  simp only [decide_eq_true_eq] at this
  intro hpos
  rw [decide_eq_true_eq] at hpos
  exact this (by rw [hpos]; exact ⟨rfl, rfl⟩)

end Watt

namespace Watt

/-- The repair invariant on a prefab list: every PowerCell prefab sits on a
floor cell of the (original) tile's collision map and is the only prefab at
its position. -/
def CInv (t0 : DTile) (l : List Prefab) : Prop :=
  ∀ p ∈ l, p.type = "PowerCell" → isFloorCell t0 p.pos ∧ countPos l p.pos = 1

theorem countPos_append (l1 l2 : List Prefab) (pos : Nat × Nat) :
    countPos (l1 ++ l2) pos = countPos l1 pos + countPos l2 pos := by
  unfold countPos
  rw [List.filter_append, List.length_append]

theorem two_le_filter_length_of_two_idx {α : Type} (f : α → Bool) :
    ∀ (l : List α) (j k : Nat) (p q : α), j < k →
    l[j]? = some p → l[k]? = some q → f p = true → f q = true →
    2 ≤ (l.filter f).length := by
  intro l
  induction l with
  | nil => intro j k p q hjk hj hk hp hq; simp at hj
  | cons a rest ih =>
    intro j k p q hjk hj hk hp hq
    match j, k with
    | 0, kk + 1 =>
      have ha : a = p := by simpa using hj
      subst ha
      simp only [List.getElem?_cons_succ] at hk
      have hqmem : q ∈ rest.filter f :=
        List.mem_filter.mpr ⟨List.getElem?_mem hk, hq⟩
      have h1 : 1 ≤ (rest.filter f).length :=
        List.length_pos.mpr (List.ne_nil_of_mem hqmem)
      rw [List.filter_cons, if_pos hp]
      simp only [List.length_cons]
      omega
    | jj + 1, kk + 1 =>
      simp only [List.getElem?_cons_succ] at hj hk
      have hih := ih jj kk p q (by omega) hj hk hp hq
      rw [List.filter_cons]
      by_cases ha : f a <;> simp [ha] <;> omega

theorem occupiedAt_false_ne (l : List Prefab) (x y : Nat)
    (h : occupiedAt l x y = false) : ∀ q ∈ l, q.pos ≠ (x, y) := by
  intro q hq
  unfold occupiedAt at h
  rw [List.any_eq_false] at h
  have := h q hq
  simp only [decide_eq_true_eq] at this
  intro hpos
  exact this ⟨by rw [hpos], by rw [hpos]⟩

theorem countPos_eq_filter_pos (l : List Prefab) (pos : Nat × Nat) :
    countPos l pos = (l.filter fun q => decide (q.pos = pos)).length := rfl

/-- Replacing the prefab at index `ci` (a PowerCell) by the same prefab moved
to a floor position `np` unoccupied in `l` preserves the repair invariant. -/
theorem set_cell_CInv (t0 : DTile) (l : List Prefab) (ci : Nat) (cell : Prefab)
    (np : Nat × Nat) (hci : l[ci]? = some cell) (hcell : cell.type = "PowerCell")
    (hfloor : isFloorCell t0 np) (hunocc : occupiedAt l np.1 np.2 = false)
    (hinv : CInv t0 l) : CInv t0 (l.set ci { cell with pos := np }) := by
  have hne := occupiedAt_false_ne l np.1 np.2 hunocc
  have hcellmem : cell ∈ l := List.getElem?_mem hci
  have hcellinv := hinv cell hcellmem hcell
  have hcellnp : cell.pos ≠ np := by
    intro h
    exact hne cell hcellmem (by rw [h])
  intro p hp hptype
  rcases List.mem_or_eq_of_mem_set hp with hpl | hpnew
  · -- `p` was already in the list; its position differs from `np`.
    have hpnp : p.pos ≠ np := by
      intro h
      exact hne p hpl (by rw [h])
    have hpinv := hinv p hpl hptype
    refine ⟨hpinv.1, ?_⟩
    have hkey := filter_length_set (fun q => decide (q.pos = p.pos)) l ci cell
      { cell with pos := np } hci
    rw [← countPos_eq_filter_pos, ← countPos_eq_filter_pos] at hkey
    simp only [] at hkey
    by_cases hcp : cell.pos = p.pos
    · -- Then `p` and `cell` occupy the same position; the invariant forces
      -- them to be the same single occurrence, which the `set` replaced, so
      -- `p` cannot survive in the new list: derive a contradiction.
      exfalso
      have hfpos : (l.filter fun q => decide (q.pos = p.pos)).length = 1 := hpinv.2
      have hpeq : p = cell := by
        have hpmem : p ∈ l.filter fun q => decide (q.pos = p.pos) :=
          List.mem_filter.mpr ⟨hpl, by simp⟩
        have hcmem : cell ∈ l.filter fun q => decide (q.pos = p.pos) :=
          List.mem_filter.mpr ⟨hcellmem, by simp [hcp]⟩
        by_contra hpc
        have := two_le_length_of_two_mem _ _ _ hpmem hcmem hpc
        omega
      subst hpeq
      -- `p = cell` is still a member of the updated list, so it occurs at an
      -- index other than `ci`, giving two occurrences in `l`.
      rcases List.mem_iff_getElem?.mp hp with ⟨k, hk⟩
      have hkci : k ≠ ci := by
        intro h
        subst h
        have hlen : k < l.length := by
          rcases List.getElem?_eq_some_iff.mp hk with ⟨hlt, _⟩
          simpa using hlt
        rw [List.getElem?_set_self (by simpa using hlen)] at hk
        have h4 : np = p.pos := by
          have h5 := congrArg Prefab.pos (Option.some.inj hk)
          simpa using h5
        exact hpnp h4.symm
      rw [List.getElem?_set_ne (by omega)] at hk
      have h2 : 2 ≤ (l.filter fun q => decide (q.pos = p.pos)).length := by
        rcases Nat.lt_or_ge k ci with hlt | hge
        · exact two_le_filter_length_of_two_idx _ l k ci p p hlt hk hci
            (by simp) (by simp)
        · exact two_le_filter_length_of_two_idx _ l ci k p p
            (by omega) hci hk (by simp) (by simp)
      omega
    · -- Different position: the count at `p.pos` is unchanged.
      rw [hpinv.2] at hkey
      have h1 : (decide (cell.pos = p.pos) : Bool) = false := by simp [hcp]
      have h2 : (decide (np = p.pos) : Bool) = false := by simpa using Ne.symm hpnp
      simp only [h1, h2] at hkey
      simpa using hkey
  · -- `p` is the moved cell itself.
    subst hpnew
    refine ⟨by simpa using hfloor, ?_⟩
    have hkey := filter_length_set (fun q => decide (q.pos = np)) l ci cell
      { cell with pos := np } hci
    rw [← countPos_eq_filter_pos, ← countPos_eq_filter_pos] at hkey
    simp only [] at hkey
    have h0 : countPos l np = 0 := by
      have : countPos l (np.1, np.2) = 0 := occupiedAt_false_countPos l np.1 np.2 hunocc
      simpa using this
    rw [h0] at hkey
    have h1 : (decide (cell.pos = np) : Bool) = false := by simp [hcellnp]
    simp only [h1] at hkey
    simpa using hkey

end Watt

namespace Watt

theorem findSafePositionNear_spec (t : DTile) (tx ty : Nat) (sp : Nat × Nat)
    (h : findSafePositionNear t tx ty = some sp) :
    sp = (tx, ty) ∧ isFloorCell t (tx, ty) ∧ occupiedAt t.prefabs tx ty = false := by
  unfold findSafePositionNear at h
  rcases hrow : (collisionRows t)[ty]? with _ | row
  · rw [hrow] at h
    exact absurd h (by simp)
  · rw [hrow] at h
    have h1 : (match row[tx]? with
      | some c =>
        if c = '.' then
          (if occupiedAt t.prefabs tx ty then none else some (tx, ty))
        else none
      | none => none) = some sp := h
    rcases hc : row[tx]? with _ | c
    · rw [hc] at h1
      exact absurd h1 (by simp)
    · rw [hc] at h1
      have h2 : (if c = '.' then
          (if occupiedAt t.prefabs tx ty then none else some (tx, ty))
          else none) = some sp := h1
      by_cases hdot : c = '.'
      · rw [if_pos hdot] at h2
        cases hocc : occupiedAt t.prefabs tx ty with
        | true =>
          rw [hocc] at h2
          simp at h2
        | false =>
          rw [hocc] at h2
          simp only [Bool.false_eq_true, if_false] at h2
          refine ⟨(Option.some.inj h2).symm, ⟨row, hrow, by rw [hc, hdot]⟩, rfl⟩
      · rw [if_neg hdot] at h2
        exact absurd h2 (by simp)

theorem idxOfNthCell_spec (prefabs : List Prefab) (i ci : Nat)
    (h : idxOfNthCell prefabs i = some ci) :
    ∃ cell, prefabs[ci]? = some cell ∧ cell.type = "PowerCell" := by
  unfold idxOfNthCell at h
  have hmem := List.getElem?_mem h
  have h2 := (List.mem_filter.mp hmem).2
  rcases hp : prefabs[ci]? with _ | p
  · rw [hp] at h2
    exact absurd h2 (by simp)
  · rw [hp] at h2
    have h3 : (p.type == "PowerCell") = true := h2
    exact ⟨p, rfl, by simpa using h3⟩

theorem isFloorCell_congr (t0 t : DTile) (h : t.collision = t0.collision)
    (pos : Nat × Nat) : isFloorCell t pos ↔ isFloorCell t0 pos := by
  unfold isFloorCell collisionRows
  rw [h]

/-- Each alignment iteration either leaves the tile unchanged or moves one
PowerCell prefab to a floor position that no prefab currently occupies. -/
theorem alignStep_cases (t : DTile) (i : Nat) :
    alignStep t i = t ∨
    ∃ ci cell np, t.prefabs[ci]? = some cell ∧ cell.type = "PowerCell" ∧
      isFloorCell t np ∧ occupiedAt t.prefabs np.1 np.2 = false ∧
      alignStep t i = { t with prefabs := t.prefabs.set ci { cell with pos := np } } := by
  unfold alignStep
  rcases hL : (t.prefabs.filter fun p => p.type == "LaserEmitter")[i]? with _ | laser
  · rw [hL]
    rcases hI : idxOfNthCell t.prefabs i with _ | ci
    · left; rfl
    · left; rfl
  · rw [hL]
    rcases hI : idxOfNthCell t.prefabs i with _ | ci
    · left; rfl
    · rcases idxOfNthCell_spec t.prefabs i ci hI with ⟨cell, hci, hct⟩
      dsimp only
      rw [hci]
      dsimp only
      by_cases hEW : laser.dir = some "E" ∨ laser.dir = some "W"
      · rw [if_pos hEW]
        rcases hsp : findSafePositionNear t cell.pos.1 laser.pos.2 with _ | sp
        · left; rfl
        · right
          have hspec := findSafePositionNear_spec t cell.pos.1 laser.pos.2 sp hsp
          refine ⟨ci, cell, sp, hci, hct, ?_, ?_, ?_⟩
          · rw [hspec.1]
            exact hspec.2.1
          · rw [hspec.1]
            exact hspec.2.2
          · rw [hspec.1]
      · rw [if_neg hEW]
        by_cases hNS : laser.dir = some "N" ∨ laser.dir = some "S"
        · rw [if_pos hNS]
          rcases hsp : findSafePositionNear t laser.pos.1 cell.pos.2 with _ | sp
          · left; rfl
          · right
            have hspec := findSafePositionNear_spec t laser.pos.1 cell.pos.2 sp hsp
            refine ⟨ci, cell, sp, hci, hct, ?_, ?_, ?_⟩
            · rw [hspec.1]
              exact hspec.2.1
            · rw [hspec.1]
              exact hspec.2.2
            · rw [hspec.1]
        · rw [if_neg hNS]
          left; rfl

theorem alignStep_Q (t0 t : DTile) (i : Nat)
    (hcol : t.collision = t0.collision) (hinv : CInv t0 t.prefabs)
    (hcnt : (t.prefabs.filter fun p => p.type == "PowerCell").length = 2) :
    (alignStep t i).collision = t0.collision ∧ CInv t0 (alignStep t i).prefabs ∧
    ((alignStep t i).prefabs.filter fun p => p.type == "PowerCell").length = 2 := by
  rcases alignStep_cases t i with heq | ⟨ci, cell, np, hci, hct, hfl, hocc, heq⟩
  · rw [heq]
    exact ⟨hcol, hinv, hcnt⟩
  · rw [heq]
    dsimp only
    refine ⟨hcol, ?_, ?_⟩
    · exact set_cell_CInv t0 t.prefabs ci cell np hci hct
        ((isFloorCell_congr t0 t hcol np).mp hfl) hocc hinv
    · have hkey := filter_length_set (fun p => p.type == "PowerCell") t.prefabs ci cell
        { cell with pos := np } hci
      have h1 : (cell.type == "PowerCell") = true := by simp [hct]
      simp only [] at hkey
      simp [h1] at hkey
      omega

theorem align_foldl_Q (t0 : DTile) : ∀ (idxs : List Nat) (t : DTile),
    t.collision = t0.collision → CInv t0 t.prefabs →
    (t.prefabs.filter fun p => p.type == "PowerCell").length = 2 →
    ((idxs.foldl alignStep t).collision = t0.collision ∧
     CInv t0 (idxs.foldl alignStep t).prefabs ∧
     ((idxs.foldl alignStep t).prefabs.filter fun p => p.type == "PowerCell").length = 2) := by
  intro idxs
  induction idxs with
  | nil =>
    intro t h1 h2 h3
    exact ⟨h1, h2, h3⟩
  | cons i rest ih =>
    intro t h1 h2 h3
    rw [List.foldl_cons]
    have hstep := alignStep_Q t0 t i h1 h2 h3
    exact ih (alignStep t i) hstep.1 hstep.2.1 hstep.2.2

theorem alignLasers_Q (t0 t : DTile)
    (hcol : t.collision = t0.collision) (hinv : CInv t0 t.prefabs)
    (hcnt : (t.prefabs.filter fun p => p.type == "PowerCell").length = 2) :
    (alignLasersAndPowerCells t).collision = t0.collision ∧
    CInv t0 (alignLasersAndPowerCells t).prefabs ∧
    ((alignLasersAndPowerCells t).prefabs.filter
      fun p => p.type == "PowerCell").length = 2 := by
  unfold alignLasersAndPowerCells
  dsimp only
  split_ifs with h
  · exact ⟨hcol, hinv, hcnt⟩
  · exact align_foldl_Q t0 _ t hcol hinv hcnt

theorem addPowerCells_two (t : DTile) (lasers : List Prefab)
    (hl : lasers.length = 2) (hsafe : 2 ≤ (findSafePositionsAll t).length) :
    ∃ s0 s1 c0 c1, s0 ∈ findSafePositionsAll t ∧ s1 ∈ findSafePositionsAll t ∧
      s0 ≠ s1 ∧ c0.type = "PowerCell" ∧ c0.pos = s0 ∧
      c1.type = "PowerCell" ∧ c1.pos = s1 ∧
      (addPowerCellsToMatch t lasers []).prefabs = t.prefabs ++ [c0, c1] ∧
      (addPowerCellsToMatch t lasers []).collision = t.collision := by
  have harg : lasers.length - ([] : List Prefab).length = 2 := by simp [hl]
  have hlen : (findSafePositions t 2).length = 2 := by
    unfold findSafePositions
    rw [List.length_take]
    omega
  rcases List.length_eq_two.mp hlen with ⟨s0, s1, hse⟩
  have hmem : s0 ∈ findSafePositionsAll t ∧ s1 ∈ findSafePositionsAll t := by
    constructor
    · apply List.take_subset 2 (findSafePositionsAll t)
      show s0 ∈ findSafePositions t 2
      rw [hse]; simp
    · apply List.take_subset 2 (findSafePositionsAll t)
      show s1 ∈ findSafePositions t 2
      rw [hse]; simp
  have hnd : (findSafePositions t 2).Nodup :=
    List.Nodup.sublist (List.take_sublist 2 (findSafePositionsAll t))
      (findSafePositionsAll_nodup t)
  rw [hse] at hnd
  have hne : s0 ≠ s1 := by simpa using (List.nodup_cons.mp hnd).1
  refine ⟨s0, s1,
    { type := "PowerCell", pos := s0,
      id := some ("auto_cell_" ++ t.id ++ "_" ++ toString (1 : Nat)) },
    { type := "PowerCell", pos := s1,
      id := some ("auto_cell_" ++ t.id ++ "_" ++ toString (2 : Nat)) },
    hmem.1, hmem.2, hne, rfl, rfl, rfl, rfl, ?_, rfl⟩
  unfold addPowerCellsToMatch
  dsimp only
  rw [harg, hse]
  simp [List.range_succ]

theorem append_cells_CInv (t : DTile) (s0 s1 : Nat × Nat) (c0 c1 : Prefab)
    (h0 : s0 ∈ findSafePositionsAll t) (h1 : s1 ∈ findSafePositionsAll t)
    (hne : s0 ≠ s1) (ht0 : c0.type = "PowerCell") (hp0 : c0.pos = s0)
    (ht1 : c1.type = "PowerCell") (hp1 : c1.pos = s1)
    (hcellnil : t.prefabs.filter (fun p => p.type == "PowerCell") = []) :
    CInv t (t.prefabs ++ [c0, c1]) ∧
    ((t.prefabs ++ [c0, c1]).filter fun p => p.type == "PowerCell").length = 2 := by
  have hm0 := findSafePositionsAll_mem t s0 h0
  have hm1 := findSafePositionsAll_mem t s1 h1
  have hnotcell : ∀ p ∈ t.prefabs, ¬p.type = "PowerCell" := by
    intro p hp hcontra
    exact absurd (by simp [hcontra]) (List.filter_eq_nil_iff.mp hcellnil p hp)
  have hcnt0 : countPos t.prefabs s0 = 0 := by
    have := occupiedAt_false_countPos t.prefabs s0.1 s0.2 hm0.2
    simpa using this
  have hcnt1 : countPos t.prefabs s1 = 0 := by
    have := occupiedAt_false_countPos t.prefabs s1.1 s1.2 hm1.2
    simpa using this
  have hd10 : (decide (c1.pos = c0.pos)) = false := by
    rw [hp0, hp1]
    simpa using Ne.symm hne
  have hd01 : (decide (c0.pos = c1.pos)) = false := by
    rw [hp0, hp1]
    simpa using hne
  have hpair0 : countPos [c0, c1] c0.pos = 1 := by
    unfold countPos
    simp [List.filter_cons, hd10]
  have hpair1 : countPos [c0, c1] c1.pos = 1 := by
    unfold countPos
    simp [List.filter_cons, hd01]
  constructor
  · intro p hp hptype
    rcases List.mem_append.mp hp with hpl | hpc
    · exact absurd hptype (hnotcell p hpl)
    · have hpc2 : p = c0 ∨ p = c1 := by simpa using hpc
      rcases hpc2 with rfl | rfl
      · refine ⟨by rw [hp0]; exact hm0.1, ?_⟩
        rw [countPos_append, hpair0, hp0, hcnt0]
      · refine ⟨by rw [hp1]; exact hm1.1, ?_⟩
        rw [countPos_append, hpair1, hp1, hcnt1]
  · rw [List.filter_append, hcellnil, List.nil_append]
    simp [List.filter_cons, ht0, ht1]

theorem keepFn_of_floor (collision : List (List Char)) (t0 : DTile)
    (hcr : collisionRows t0 = collision) (p : Prefab)
    (hfl : isFloorCell t0 p.pos) : keepFn collision p = true := by
  rcases hfl with ⟨row, hrow, hx⟩
  unfold keepFn
  rw [hcr] at hrow
  rw [hrow]
  show (match row[p.pos.1]? with
    | some c => !decide (c = '#')
    | none => false) = true
  rw [hx]
  rfl

theorem removeEntities_final (t0 t : DTile) (hcol : t.collision = t0.collision)
    (hinv : CInv t0 t.prefabs)
    (hcnt : (t.prefabs.filter fun p => p.type == "PowerCell").length = 2) :
    (((removeEntitiesInWalls t).prefabs.filter
      fun p => p.type == "PowerCell").length = 2) ∧
    ∀ p ∈ (removeEntitiesInWalls t).prefabs, p.type = "PowerCell" →
      isFloorCell t0 p.pos ∧ countPos (removeEntitiesInWalls t).prefabs p.pos = 1 := by
  unfold removeEntitiesInWalls
  rcases hc : t.collision with _ | collision
  · exact ⟨hcnt, fun p hp ht => hinv p hp ht⟩
  · dsimp only
    have hcr : collisionRows t0 = collision := by
      unfold collisionRows
      rw [← hcol, hc]
      rfl
    have hkeep : ∀ p ∈ t.prefabs, p.type = "PowerCell" → keepFn collision p = true :=
      fun p hp ht => keepFn_of_floor collision t0 hcr p ((hinv p hp ht).1)
    constructor
    · have hcomm : (t.prefabs.filter (keepFn collision)).filter
          (fun p => p.type == "PowerCell")
          = (t.prefabs.filter fun p => p.type == "PowerCell").filter (keepFn collision) :=
        List.filter_comm _ _ _
      have hself : (t.prefabs.filter fun p => p.type == "PowerCell").filter
          (keepFn collision)
          = t.prefabs.filter fun p => p.type == "PowerCell" := by
        apply List.filter_eq_self.mpr
        intro a ha
        have hmem := List.mem_filter.mp ha
        exact hkeep a hmem.1 (by simpa using hmem.2)
      rw [hcomm, hself]
      exact hcnt
    · intro p hp ht
      have hpl : p ∈ t.prefabs := List.mem_of_mem_filter hp
      refine ⟨(hinv p hpl ht).1, ?_⟩
      have hle : countPos (t.prefabs.filter (keepFn collision)) p.pos ≤
          countPos t.prefabs p.pos := by
        unfold countPos
        have hcomm2 : (t.prefabs.filter (keepFn collision)).filter
            (fun q => decide (q.pos = p.pos))
            = (t.prefabs.filter fun q => decide (q.pos = p.pos)).filter
              (keepFn collision) := List.filter_comm _ _ _
        rw [hcomm2]
        exact List.Sublist.length_le (List.filter_sublist _)
      have hge : 1 ≤ countPos (t.prefabs.filter (keepFn collision)) p.pos := by
        unfold countPos
        have hmm : p ∈ (t.prefabs.filter (keepFn collision)).filter
            (fun q => decide (q.pos = p.pos)) := List.mem_filter.mpr ⟨hp, by simp⟩
        have := List.length_pos.mpr (List.ne_nil_of_mem hmm)
        omega
      have hone := (hinv p hpl ht).2
      omega

end Watt

namespace Watt

/-- A 5×5 template with two LaserEmitter prefabs and no PowerCells, with
plenty of free interior floor cells. -/
def tGood : DTile :=
  { id := "good", size := (5, 5),
    collision := some [
      ['#','#','#','#','#'],
      ['#','.','.','.','#'],
      ['#','.','.','.','#'],
      ['#','.','.','.','#'],
      ['#','#','#','#','#']],
    prefabs := [
      { type := "LaserEmitter", pos := (1, 1), dir := some "E", id := some "l1" },
      { type := "LaserEmitter", pos := (1, 3), dir := some "E", id := some "l2" }] }

/-- A 4×4 template with two LaserEmitter prefabs and no PowerCells whose two
interior floor cells are both occupied by the emitters, so `findSafePositions`
finds nothing. -/
def tBad : DTile :=
  { id := "bad", size := (4, 4),
    collision := some [
      ['#','#','#','#'],
      ['#','.','.','#'],
      ['#','#','#','#'],
      ['#','#','#','#']],
    prefabs := [
      { type := "LaserEmitter", pos := (1, 1), dir := some "E", id := some "l1" },
      { type := "LaserEmitter", pos := (2, 1), dir := some "E", id := some "l2" }] }

/-- C8 (counterexample): `tBad` has exactly 2 LaserEmitter prefabs and 0
PowerCell prefabs, yet `validateAndFixTile` returns it with 0 PowerCell
prefabs — the claimed "exactly 2 PowerCell prefabs" fails because the
template has no safe position to put them (the two interior floor cells are
already occupied by the emitters). -/
theorem balance_repair_counterexample :
    ((tBad.prefabs.filter fun p => p.type == "LaserEmitter").length = 2) ∧
    ((tBad.prefabs.filter fun p => p.type == "PowerCell").length = 0) ∧
    (((validateAndFixTile tBad).prefabs.filter
      fun p => p.type == "PowerCell").length = 0) := by
  decide

/-- C8 (amended): for a tile with exactly 2 LaserEmitter prefabs, 0 PowerCell
prefabs, and at least 2 safe positions (interior floor cells not occupied by
an existing prefab), `validateAndFixTile` returns a tile with exactly 2
PowerCell prefabs, each sitting on a floor cell of the collision map and
being the only prefab of the tile at its position. -/
theorem balance_repair_amended (t : DTile)
    (hlaser : (t.prefabs.filter fun p => p.type == "LaserEmitter").length = 2)
    (hcell : (t.prefabs.filter fun p => p.type == "PowerCell").length = 0)
    (hsafe : 2 ≤ (findSafePositionsAll t).length) :
    (((validateAndFixTile t).prefabs.filter
      fun p => p.type == "PowerCell").length = 2) ∧
    ∀ p ∈ (validateAndFixTile t).prefabs, p.type = "PowerCell" →
      isFloorCell t p.pos ∧ countPos (validateAndFixTile t).prefabs p.pos = 1 := by
  have hcellnil : t.prefabs.filter (fun p => p.type == "PowerCell") = [] :=
    List.length_eq_zero.mp hcell
  have hbal : balanceLaserAndPowerCells t =
      alignLasersAndPowerCells
        (addPowerCellsToMatch t
          (t.prefabs.filter fun p => p.type == "LaserEmitter") []) := by
    have hne01 : (t.prefabs.filter fun p => p.type == "LaserEmitter").length ≠
        (t.prefabs.filter fun p => p.type == "PowerCell").length := by
      rw [hlaser, hcell]
      norm_num
    have hlt01 : (t.prefabs.filter fun p => p.type == "PowerCell").length <
        (t.prefabs.filter fun p => p.type == "LaserEmitter").length := by
      rw [hlaser, hcell]
      norm_num
    unfold balanceLaserAndPowerCells
    dsimp only
    rw [if_pos hne01, if_pos hlt01, hcellnil]
  obtain ⟨s0, s1, c0, c1, h0, h1m, hne, ht0, hp0, ht1, hp1, hpre, hcoll⟩ :=
    addPowerCells_two t (t.prefabs.filter fun p => p.type == "LaserEmitter")
      hlaser hsafe
  have hQ := append_cells_CInv t s0 s1 c0 c1 h0 h1m hne ht0 hp0 ht1 hp1 hcellnil
  have hinv1 : CInv t (addPowerCellsToMatch t
      (t.prefabs.filter fun p => p.type == "LaserEmitter") []).prefabs := by
    rw [hpre]
    exact hQ.1
  have hcnt1 : ((addPowerCellsToMatch t
      (t.prefabs.filter fun p => p.type == "LaserEmitter") []).prefabs.filter
      fun p => p.type == "PowerCell").length = 2 := by
    rw [hpre]
    exact hQ.2
  have halign := alignLasers_Q t
    (addPowerCellsToMatch t (t.prefabs.filter fun p => p.type == "LaserEmitter") [])
    hcoll hinv1 hcnt1
  have hfin := removeEntities_final t
    (alignLasersAndPowerCells
      (addPowerCellsToMatch t (t.prefabs.filter fun p => p.type == "LaserEmitter") []))
    halign.1 halign.2.1 halign.2.2
  unfold validateAndFixTile
  rw [hbal]
  exact hfin

/-- C8 witness: the amended theorem applied to the concrete template `tGood`. -/
theorem balance_repair_amended_witness :
    ((tGood.prefabs.filter fun p => p.type == "LaserEmitter").length = 2) ∧
    ((tGood.prefabs.filter fun p => p.type == "PowerCell").length = 0) ∧
    (2 ≤ (findSafePositionsAll tGood).length) ∧
    ((((validateAndFixTile tGood).prefabs.filter
      fun p => p.type == "PowerCell").length = 2) ∧
    ∀ p ∈ (validateAndFixTile tGood).prefabs, p.type = "PowerCell" →
      isFloorCell tGood p.pos ∧ countPos (validateAndFixTile tGood).prefabs p.pos = 1) :=
  ⟨by decide, by decide, by decide,
   balance_repair_amended tGood (by decide) (by decide) (by decide)⟩

end Watt

namespace Watt

/-! ## Laser collision detection (`part_000`: `lineAABBIntersect`,
`LaserCollisionDetector`, C4 & C7)

Coordinates are embedded as exact rationals.  JavaScript number semantics
matter in `lineAABBIntersect`, where division by a zero direction component
is explicitly turned into `Infinity` and `0 * Infinity = NaN`: values are
embedded as `JNum` (a rational, `Infinity`, `-Infinity`, or `NaN`), with
`Math.min`/`Math.max` propagating `NaN` and every comparison against `NaN`
being false, exactly as in IEEE/JS.  `Array.prototype.sort` (stable, by the
`a.distance - b.distance` comparator) is embedded as Mathlib's stable
`insertionSort` with the corresponding `≤`.  The JS `start.distance(end)`
is `Real.sqrt` of `distSq`; all claims compare distances of nonnegative
square roots, so they are stated on squared distances. -/

/-- `Vector2` (`utils.js`), restricted to the operations the laser tracer
uses. -/
structure Vec2 where
  x : ℚ
  y : ℚ
deriving DecidableEq, Repr

def Vec2.add (a b : Vec2) : Vec2 := ⟨a.x + b.x, a.y + b.y⟩

def Vec2.subtract (a b : Vec2) : Vec2 := ⟨a.x - b.x, a.y - b.y⟩

def Vec2.multiply (a : Vec2) (s : ℚ) : Vec2 := ⟨a.x * s, a.y * s⟩

/-- Squared Euclidean distance; JS `Vector2.distance` is its square root. -/
def Vec2.distSq (a b : Vec2) : ℚ := (a.x - b.x) ^ 2 + (a.y - b.y) ^ 2

/-- An axis-aligned bounding rectangle (`entity.getBounds()`). -/
structure JRect where
  x : ℚ
  y : ℚ
  width : ℚ
  height : ℚ
deriving DecidableEq, Repr

/-- A JavaScript number as produced inside `lineAABBIntersect`: finite,
`Infinity`, `-Infinity`, or `NaN`. -/
inductive JNum where
  | fin (q : ℚ)
  | inf
  | ninf
  | nan
deriving DecidableEq, Repr

namespace JNum

/-- JS multiplication restricted to the sign cases arising here
(`±Infinity * 0 = NaN`). -/
def mul : JNum → JNum → JNum
  | nan, _ => nan
  | _, nan => nan
  | fin a, fin b => fin (a * b)
  | fin a, inf => if a > 0 then inf else if a < 0 then ninf else nan
  | fin a, ninf => if a > 0 then ninf else if a < 0 then inf else nan
  | inf, fin a => if a > 0 then inf else if a < 0 then ninf else nan
  | ninf, fin a => if a > 0 then ninf else if a < 0 then inf else nan
  | inf, inf => inf
  | inf, ninf => ninf
  | ninf, inf => ninf
  | ninf, ninf => inf

/-- JS addition (used for `start + dir * t`). -/
def add : JNum → JNum → JNum
  | nan, _ => nan
  | _, nan => nan
  | fin a, fin b => fin (a + b)
  | fin _, inf => inf
  | fin _, ninf => ninf
  | inf, fin _ => inf
  | ninf, fin _ => ninf
  | inf, inf => inf
  | inf, ninf => nan
  | ninf, inf => nan
  | ninf, ninf => ninf

/-- JS `<` (false whenever an operand is `NaN`). -/
def lt : JNum → JNum → Bool
  | nan, _ => false
  | _, nan => false
  | fin a, fin b => a < b
  | fin _, inf => true
  | fin _, ninf => false
  | inf, _ => false
  | ninf, ninf => false
  | ninf, _ => true

/-- `Math.min` (returns `NaN` if an argument is `NaN`). -/
def min : JNum → JNum → JNum
  | nan, _ => nan
  | _, nan => nan
  | ninf, _ => ninf
  | _, ninf => ninf
  | inf, b => b
  | a, inf => a
  | fin a, fin b => fin (Min.min a b)

/-- `Math.max` (returns `NaN` if an argument is `NaN`). -/
def max : JNum → JNum → JNum
  | nan, _ => nan
  | _, nan => nan
  | inf, _ => inf
  | _, inf => inf
  | ninf, b => b
  | a, ninf => a
  | fin a, fin b => fin (Max.max a b)

end JNum

/-- The hit record of `lineAABBIntersect` (the unused `normal` field is not
modelled). -/
structure JHit where
  pointX : JNum
  pointY : JNum
  t : JNum
deriving DecidableEq, Repr

/-- `lineAABBIntersect(start, end, rect)` (`part_000`).  `1/0` is replaced
by `Infinity` in the source itself; the slab tests then follow JS `Math`
semantics faithfully, including the `NaN` poisoning when a slab boundary
passes exactly through `start` on a degenerate axis. -/
def lineAABBIntersect (s e : Vec2) (rect : JRect) : Option JHit :=
  let dir := e.subtract s
  let invX := if dir.x = 0 then JNum.inf else JNum.fin (1 / dir.x)
  let invY := if dir.y = 0 then JNum.inf else JNum.fin (1 / dir.y)
  let t1 := JNum.mul (.fin (rect.x - s.x)) invX
  let t2 := JNum.mul (.fin (rect.x + rect.width - s.x)) invX
  let t3 := JNum.mul (.fin (rect.y - s.y)) invY
  let t4 := JNum.mul (.fin (rect.y + rect.height - s.y)) invY
  let tMin := JNum.max (JNum.min t1 t2) (JNum.min t3 t4)
  let tMax := JNum.min (JNum.max t1 t2) (JNum.max t3 t4)
  if JNum.lt tMax (.fin 0) ∨ JNum.lt tMax tMin ∨ JNum.lt (.fin 1) tMin then
    none
  else
    let t := if JNum.lt tMin (.fin 0) then tMax else tMin
    if JNum.lt (.fin 1) t then none
    else some { pointX := JNum.add (.fin s.x) (JNum.mul (.fin dir.x) t),
                pointY := JNum.add (.fin s.y) (JNum.mul (.fin dir.y) t),
                t := t }

/-- An entity as seen by the laser tracer (`kind` is
`entity.constructor.name`). -/
structure JEnt where
  kind : String
  bounds : JRect
  solid : Bool
  isOpen : Bool := false
  visible : Bool := true
  active : Bool := true
deriving DecidableEq, Repr

/-- An element of the `hitEntities` list built by `findEntityCollisions`. -/
structure JHitEnt where
  ent : JEnt
  hit : JHit
  distance : JNum
deriving DecidableEq, Repr

/-- The sort order of `hitEntities.sort((a, b) => a.distance - b.distance)`:
stable, ascending by `distance` (a `NaN` comparator result is treated as
"don't reorder", per the ECMAScript sort specification). -/
def hitLE (a b : JHitEnt) : Prop := JNum.lt b.distance a.distance = false

instance : DecidableRel hitLE := fun a b => by
  unfold hitLE
  infer_instance

/-- `findEntityCollisions(start, end, entities)`. -/
def findEntityCollisions (s e : Vec2) (entities : List JEnt) : List JHitEnt :=
  let hits := entities.filterMap fun ent =>
    if ent.visible ∧ ent.active then
      match lineAABBIntersect s e ent.bounds with
      | some hit => some { ent := ent, hit := hit, distance := hit.t }
      | none => none
    else none
  hits.insertionSort hitLE

/-- A hit entity that blocks the ray in `traceLaser`'s walk: solid, not a
`LaserEmitter`, and not an open `Door`/`AutoDoor`. -/
def blocksRay (h : JHitEnt) : Bool :=
  h.ent.solid &&
  !(h.ent.kind == "LaserEmitter") &&
  !(((h.ent.kind == "AutoDoor") || (h.ent.kind == "Door")) && h.ent.isOpen)

/-- The entity-hit walk of `traceLaser`: skip `LaserEmitter`s, record open
solid doors and non-solid entities and continue, and stop at the first
remaining solid entity, truncating the end point to its hit point. -/
def entityWalk (e0 : JNum × JNum) : List JHitEnt → (JNum × JNum) × List JHitEnt
  | [] => (e0, [])
  | h :: rest =>
    if h.ent.kind == "LaserEmitter" then entityWalk e0 rest
    else if h.ent.solid then
      if ((h.ent.kind == "AutoDoor") || (h.ent.kind == "Door")) && h.ent.isOpen then
        let r := entityWalk e0 rest
        (r.1, h :: r.2)
      else ((h.hit.pointX, h.hit.pointY), [h])
    else
      let r := entityWalk e0 rest
      (r.1, h :: r.2)

/-- `snapToTileBoundary(point, direction)` (TILE_SIZE = 64). -/
def snapToTileBoundary (point direction : Vec2) : Vec2 :=
  let snappedX : ℚ :=
    if direction.x > 0 then ((⌈point.x / 64⌉ : ℤ) : ℚ) * 64
    else if direction.x < 0 then ((⌊point.x / 64⌋ : ℤ) : ℚ) * 64
    else point.x
  let snappedY : ℚ :=
    if direction.y > 0 then ((⌈point.y / 64⌉ : ℤ) : ℚ) * 64
    else if direction.y < 0 then ((⌊point.y / 64⌋ : ℤ) : ℚ) * 64
    else point.y
  if |direction.x| > |direction.y| then ⟨snappedX, point.y⟩
  else ⟨point.x, snappedY⟩

/-- `checkWallCollision(start, direction, maxDistance, cb)`: sample the ray
every 8 px; at the first sample where the callback reports a wall, return
the previous sample snapped to the tile grid. -/
def checkWallCollision (start direction : Vec2) (maxDistance : ℚ)
    (cb : Option (Vec2 → Bool)) : Option Vec2 :=
  match cb with
  | none => none
  | some pred =>
    let stepSize : ℚ := 8
    let steps : Nat := (⌊maxDistance / stepSize⌋).toNat
    let stepVector := direction.multiply stepSize
    match (List.range' 1 steps).find?
        (fun i : Nat => pred (start.add (stepVector.multiply (i : ℚ)))) with
    | some i => some (snapToTileBoundary
        (start.add (stepVector.multiply ((i : ℚ) - 1))) direction)
    | none => none

/-- The result of `traceLaser` (debug info dropped; the end point may carry
`NaN` coordinates, as in JS). -/
structure TraceResult where
  endPoint : JNum × JNum
  hitEntities : List JHitEnt
  wallHit : Bool
deriving Repr

/-- The `determinedEndPoint` of `traceLaser` after the wall stage: the wall
hit point if the callback reported one, else `start + direction * 2000`. -/
def wallEndPoint (start direction : Vec2) (cb : Option (Vec2 → Bool)) : Vec2 :=
  match checkWallCollision start direction 2000 cb with
  | some p => p
  | none => start.add (direction.multiply 2000)

/-- `LaserCollisionDetector.traceLaser(start, direction, entities, cb)`
with `maxDistance = LaserConfig.physics.maxDistance = 2000`. -/
def traceLaser (start direction : Vec2) (entities : List JEnt)
    (cb : Option (Vec2 → Bool)) : TraceResult :=
  let determined := wallEndPoint start direction cb
  let hits := findEntityCollisions start determined entities
  let walked := entityWalk (JNum.fin determined.x, JNum.fin determined.y) hits
  { endPoint := walked.1, hitEntities := walked.2,
    wallHit := (checkWallCollision start direction 2000 cb).isSome }

end Watt

namespace Watt

theorem entityWalk_no_blocker (e0 : JNum × JNum) :
    ∀ hs : List JHitEnt, (∀ h ∈ hs, blocksRay h = false) →
    entityWalk e0 hs =
      (e0, hs.filter fun h => !(h.ent.kind == "LaserEmitter")) := by
  intro hs
  induction hs with
  | nil => intro _; rfl
  | cons h rest ih =>
    intro hnb
    have hh : blocksRay h = false := hnb h (by simp)
    have hrest := ih fun h2 hm => hnb h2 (by simp [hm])
    unfold entityWalk
    rw [List.filter_cons]
    by_cases hem : (h.ent.kind == "LaserEmitter") = true
    · rw [if_pos hem, hrest]
      simp [hem]
    · rw [if_neg hem]
      unfold blocksRay at hh
      rw [Bool.not_eq_true] at hem
      by_cases hsolid : h.ent.solid = true
      · have hdoor : (((h.ent.kind == "AutoDoor") || (h.ent.kind == "Door")) &&
            h.ent.isOpen) = true := by
          rcases Bool.eq_false_or_eq_true (((h.ent.kind == "AutoDoor") ||
              (h.ent.kind == "Door")) && h.ent.isOpen) with hd | hd
          · exact hd
          · rw [hsolid, hem, hd] at hh
            simp at hh
        rw [if_pos hsolid, if_pos hdoor, hrest]
        simp [hem]
      · rw [if_neg hsolid, hrest]
        simp [hem]

theorem entityWalk_first_blocker (e0 : JNum × JNum) :
    ∀ (pre : List JHitEnt) (b : JHitEnt) (post : List JHitEnt),
    (∀ h ∈ pre, blocksRay h = false) → blocksRay b = true →
    entityWalk e0 (pre ++ b :: post) =
      ((b.hit.pointX, b.hit.pointY),
       (pre.filter fun h => !(h.ent.kind == "LaserEmitter")) ++ [b]) := by
  intro pre
  induction pre with
  | nil =>
    intro b post _ hb
    unfold blocksRay at hb
    rw [Bool.and_eq_true, Bool.and_eq_true] at hb
    obtain ⟨⟨hsolid, hem⟩, hdoor⟩ := hb
    rw [Bool.not_eq_true'] at hem hdoor
    rw [List.nil_append]
    unfold entityWalk
    rw [if_neg (by rw [hem]; exact Bool.false_ne_true), if_pos hsolid,
      if_neg (by rw [hdoor]; exact Bool.false_ne_true)]
    rfl
  | cons h pre ih =>
    intro b post hpre hb
    have hh : blocksRay h = false := hpre h (by simp)
    have hih := ih b post (fun h2 hm => hpre h2 (by simp [hm])) hb
    rw [List.cons_append]
    unfold entityWalk
    rw [List.filter_cons]
    by_cases hem : (h.ent.kind == "LaserEmitter") = true
    · rw [if_pos hem, hih]
      simp [hem]
    · rw [if_neg hem]
      unfold blocksRay at hh
      rw [Bool.not_eq_true] at hem
      by_cases hsolid : h.ent.solid = true
      · have hdoor : (((h.ent.kind == "AutoDoor") || (h.ent.kind == "Door")) &&
            h.ent.isOpen) = true := by
          rcases Bool.eq_false_or_eq_true (((h.ent.kind == "AutoDoor") ||
              (h.ent.kind == "Door")) && h.ent.isOpen) with hd | hd
          · exact hd
          · rw [hsolid, hem, hd] at hh
            simp at hh
        rw [if_pos hsolid, if_pos hdoor, hih]
        simp [hem]
      · rw [if_neg hsolid, hih]
        simp [hem]

/-- C7: in the entity-hit walk of `traceLaser`, hits that are open solid
doors (`Door`/`AutoDoor` with `isOpen`), `LaserEmitter`s, or non-solid
entities never truncate the beam (the end point stays unchanged, and all
non-emitter hits are recorded), while the first hit that is solid, not an
emitter and not an open door truncates the beam at its hit point and
terminates the walk, discarding the remaining hits. -/
theorem open_door_transparency (e0 : JNum × JNum) (hs : List JHitEnt) :
    ((∀ h ∈ hs, blocksRay h = false) →
      entityWalk e0 hs =
        (e0, hs.filter fun h => !(h.ent.kind == "LaserEmitter"))) ∧
    (∀ pre b post, hs = pre ++ b :: post →
      (∀ h ∈ pre, blocksRay h = false) → blocksRay b = true →
      entityWalk e0 hs =
        ((b.hit.pointX, b.hit.pointY),
         (pre.filter fun h => !(h.ent.kind == "LaserEmitter")) ++ [b])) := by
  constructor
  · exact entityWalk_no_blocker e0 hs
  · intro pre b post hsplit hpre hb
    rw [hsplit]
    exact entityWalk_first_blocker e0 pre b post hpre hb

/-- A hit on an open AutoDoor (solid, `isOpen`). -/
def doorOpenHit : JHitEnt :=
  { ent := { kind := "AutoDoor", bounds := ⟨100, -32, 64, 64⟩,
             solid := true, isOpen := true },
    hit := { pointX := .fin 100, pointY := .fin 0, t := .fin (1/20) },
    distance := .fin (1/20) }

/-- A hit on a non-solid pressure plate. -/
def plateHit : JHitEnt :=
  { ent := { kind := "PressurePlate", bounds := ⟨200, -32, 64, 64⟩,
             solid := false },
    hit := { pointX := .fin 200, pointY := .fin 0, t := .fin (1/10) },
    distance := .fin (1/10) }

/-- A hit on a closed door (solid, not open). -/
def doorClosedHit : JHitEnt :=
  { ent := { kind := "Door", bounds := ⟨300, -32, 64, 64⟩,
             solid := true, isOpen := false },
    hit := { pointX := .fin 300, pointY := .fin 0, t := .fin (3/20) },
    distance := .fin (3/20) }

/-- C7 witness: an open door followed by a non-solid plate leaves the end
point untouched; appending a closed door truncates the beam at the door's
hit point and stops the walk there. -/
theorem open_door_transparency_witness :
    (entityWalk (JNum.fin 2000, JNum.fin 0) [doorOpenHit, plateHit] =
      ((JNum.fin 2000, JNum.fin 0), [doorOpenHit, plateHit])) ∧
    (entityWalk (JNum.fin 2000, JNum.fin 0) [doorOpenHit, plateHit, doorClosedHit] =
      ((JNum.fin 300, JNum.fin 0), [doorOpenHit, plateHit, doorClosedHit])) :=
  ⟨(open_door_transparency (JNum.fin 2000, JNum.fin 0)
      [doorOpenHit, plateHit]).1 (by decide),
   (open_door_transparency (JNum.fin 2000, JNum.fin 0)
      [doorOpenHit, plateHit, doorClosedHit]).2 [doorOpenHit, plateHit]
      doorClosedHit [] rfl (by decide) (by decide)⟩

end Watt

namespace Watt

theorem find?_range'_first (f : Nat → Bool) :
    ∀ (n a i : Nat), (List.range' a n).find? f = some i →
    a ≤ i ∧ i < a + n ∧ f i = true ∧ ∀ j, a ≤ j → j < i → f j = false := by
  intro n
  induction n with
  | zero => intro a i h; simp at h
  | succ n ih =>
    intro a i h
    rw [List.range'_succ] at h
    by_cases hfa : f a = true
    · rw [List.find?_cons_of_pos _ hfa] at h
      rcases Option.some.inj h with rfl
      exact ⟨Nat.le_refl a, by omega, hfa, fun j hj hji => by omega⟩
    · rw [Bool.not_eq_true] at hfa
      rw [List.find?_cons_of_neg _ (by rw [hfa]; exact Bool.false_ne_true)] at h
      obtain ⟨h1, h2, h3, h4⟩ := ih (a + 1) i h
      refine ⟨by omega, by omega, h3, fun j hj hji => ?_⟩
      rcases Nat.eq_or_lt_of_le hj with rfl | hj2
      · exact hfa
      · exact h4 j hj2 hji

theorem snap_east (px py : ℚ) :
    snapToTileBoundary ⟨px, py⟩ ⟨1, 0⟩ = ⟨((⌈px / 64⌉ : ℤ) : ℚ) * 64, py⟩ := by
  unfold snapToTileBoundary
  norm_num

theorem ceil64_bounds (x : ℚ) :
    x ≤ ((⌈x / 64⌉ : ℤ) : ℚ) * 64 ∧ ((⌈x / 64⌉ : ℤ) : ℚ) * 64 < x + 64 := by
  constructor
  · nlinarith [Int.le_ceil (x / 64)]
  · nlinarith [Int.ceil_lt_add_one (x / 64)]

/-- The wall stage for an eastbound unit ray: the determined end point is
`start + (L, 0)` with `0 ≤ L ≤ 2056`, and if the callback reports a wall at
one of the first 243 sample points then `L < 2000`. -/
theorem wallEndPoint_east (s : Vec2) (pred : Vec2 → Bool) :
    ∃ L : ℚ, 0 ≤ L ∧ L ≤ 2056 ∧
      wallEndPoint s ⟨1, 0⟩ (some pred) = ⟨s.x + L, s.y⟩ ∧
      ((∃ i : Nat, 1 ≤ i ∧ i ≤ 243 ∧ pred ⟨s.x + 8 * (i : ℚ), s.y⟩ = true) →
        L < 2000) := by
  have hfun : (fun i : Nat =>
      pred (s.add (((Vec2.multiply ⟨1, 0⟩ 8)).multiply (i : ℚ)))) =
      fun i : Nat => pred ⟨s.x + 8 * (i : ℚ), s.y⟩ := by
    funext i
    congr 1
    simp only [Vec2.add, Vec2.multiply]
    rw [Vec2.mk.injEq]
    constructor <;> ring
  have hsteps : ((⌊(2000 : ℚ) / 8⌋ : ℤ)).toNat = 250 := by
    rw [show ⌊(2000 : ℚ) / 8⌋ = (250 : ℤ) by norm_num]
    rfl
  unfold wallEndPoint checkWallCollision
  dsimp only
  rw [hsteps, hfun]
  rcases hf : (List.range' 1 250).find?
      (fun i : Nat => pred ⟨s.x + 8 * (i : ℚ), s.y⟩) with _ | i0
  · refine ⟨2000, by norm_num, by norm_num, ?_, ?_⟩
    · simp only [Vec2.add, Vec2.multiply]
      rw [Vec2.mk.injEq]
      constructor <;> ring
    · rintro ⟨i, hi1, hi2, htrue⟩
      exfalso
      have hnone := List.find?_eq_none.mp hf i (by
        rw [List.mem_range'_1]
        omega)
      exact hnone htrue
  · dsimp only
    obtain ⟨h1, h2, h3, h4⟩ := find?_range'_first _ 250 1 i0 hf
    have harg : s.add ((Vec2.multiply ⟨1, 0⟩ 8).multiply ((i0 : ℚ) - 1)) =
        ⟨s.x + 8 * ((i0 : ℚ) - 1), s.y⟩ := by
      simp only [Vec2.add, Vec2.multiply]
      rw [Vec2.mk.injEq]
      constructor <;> ring
    rw [harg, snap_east]
    set c : ℚ := ((⌈(s.x + 8 * ((i0 : ℚ) - 1)) / 64⌉ : ℤ) : ℚ) * 64 with hc
    obtain ⟨hcl, hcu⟩ := ceil64_bounds (s.x + 8 * ((i0 : ℚ) - 1))
    rw [← hc] at hcl hcu
    have hi0q : (1 : ℚ) ≤ (i0 : ℚ) ∧ (i0 : ℚ) ≤ 250 := by
      constructor <;> exact_mod_cast (by omega : _)
    refine ⟨c - s.x, by nlinarith [hi0q.1], by nlinarith [hi0q.2], ?_, ?_⟩
    · rw [Vec2.mk.injEq]
      constructor
      · ring
      · rfl
    · rintro ⟨i, hij1, hij2, htrue⟩
      have hi0le : i0 ≤ i := by
        by_contra hlt
        push_neg at hlt
        have := h4 i hij1 hlt
        rw [htrue] at this
        simp at this
    -- i0 ≤ i ≤ 243 so the snapped point stays strictly inside 2000 px
      have hi0243 : (i0 : ℚ) ≤ 243 := by exact_mod_cast (by omega : i0 ≤ 243)
      nlinarith [hi0243]

end Watt

namespace Watt

theorem jmulFinFin (a b : ℚ) : JNum.mul (.fin a) (.fin b) = .fin (a * b) := rfl

theorem jmulFinInf (a : ℚ) : JNum.mul (.fin a) .inf =
    if a > 0 then JNum.inf else if a < 0 then JNum.ninf else JNum.nan := rfl

theorem jmulFinInf_pos (a : ℚ) (h : 0 < a) : JNum.mul (.fin a) .inf = .inf := by
  rw [jmulFinInf, if_pos h]

theorem jmulFinInf_neg (a : ℚ) (h : a < 0) : JNum.mul (.fin a) .inf = .ninf := by
  rw [jmulFinInf, if_neg (by linarith), if_pos h]

theorem jminFinFin (a b : ℚ) :
    JNum.min (.fin a) (.fin b) = .fin (Min.min a b) := rfl

theorem jmaxFinFin (a b : ℚ) :
    JNum.max (.fin a) (.fin b) = .fin (Max.max a b) := rfl

theorem jminNinfInf : JNum.min .ninf .inf = .ninf := rfl

theorem jmaxNinfInf : JNum.max .ninf .inf = .inf := rfl

theorem jminInfNinf : JNum.min .inf .ninf = .ninf := rfl

theorem jmaxInfNinf : JNum.max .inf .ninf = .inf := rfl

theorem jmaxFinNinf (a : ℚ) : JNum.max (.fin a) .ninf = .fin a := rfl

theorem jminFinInf (a : ℚ) : JNum.min (.fin a) .inf = .fin a := rfl

theorem jminInfInf : JNum.min .inf .inf = .inf := rfl

theorem jmaxInfInf : JNum.max .inf .inf = .inf := rfl

theorem jmaxFinInf (a : ℚ) : JNum.max (.fin a) .inf = .inf := rfl

theorem jltFinInf (a : ℚ) : JNum.lt (.fin a) .inf = true := rfl

theorem jltFinFin (a b : ℚ) : JNum.lt (.fin a) (.fin b) = decide (a < b) := rfl

theorem jaddFinFin (a b : ℚ) : JNum.add (.fin a) (.fin b) = .fin (a + b) := rfl

/-- A degenerate (zero-length) segment never registers an AABB hit, as long
as its point lies on none of the rectangle's edge lines. -/
theorem lineAABB_degenerate (sx sy : ℚ) (r : JRect)
    (hy1 : r.y ≠ sy) (hy2 : r.y + r.height ≠ sy)
    (hx1 : r.x ≠ sx) (hx2 : r.x + r.width ≠ sx) :
    lineAABBIntersect ⟨sx, sy⟩ ⟨sx + 0, sy⟩ r = none := by
  unfold lineAABBIntersect
  simp only [Vec2.subtract]
  rw [show sx + 0 - sx = (0 : ℚ) by ring, show sy - sy = (0 : ℚ) by ring]
  rw [if_pos rfl]
  rcases lt_or_gt_of_ne (sub_ne_zero.mpr hx1) with g1 | g1 <;>
    rcases lt_or_gt_of_ne (sub_ne_zero.mpr hx2) with g2 | g2 <;>
    rcases lt_or_gt_of_ne (sub_ne_zero.mpr hy1) with g3 | g3 <;>
    rcases lt_or_gt_of_ne (sub_ne_zero.mpr hy2) with g4 | g4 <;>
    all_goals (
      first
      | rw [jmulFinInf_pos (r.x - sx) (by linarith)]
      | rw [jmulFinInf_neg (r.x - sx) (by linarith)]
      first
      | rw [jmulFinInf_pos (r.x + r.width - sx) (by linarith)]
      | rw [jmulFinInf_neg (r.x + r.width - sx) (by linarith)]
      first
      | rw [jmulFinInf_pos (r.y - sy) (by linarith)]
      | rw [jmulFinInf_neg (r.y - sy) (by linarith)]
      first
      | rw [jmulFinInf_pos (r.y + r.height - sy) (by linarith)]
      | rw [jmulFinInf_neg (r.y + r.height - sy) (by linarith)]
      rfl)

set_option maxHeartbeats 800000 in
/-- `lineAABBIntersect` on a nondegenerate horizontal segment
`start → start + (L, 0)` whose start is not on the rectangle's horizontal
edge lines: either a miss, or a hit at parameter `t = q ∈ [0, 1]` lying on
the segment. -/
theorem lineAABB_horiz (sx sy L : ℚ) (r : JRect) (hL0 : L ≠ 0)
    (hy1 : r.y ≠ sy) (hy2 : r.y + r.height ≠ sy) :
    lineAABBIntersect ⟨sx, sy⟩ ⟨sx + L, sy⟩ r = none ∨
    ∃ q : ℚ, 0 ≤ q ∧ q ≤ 1 ∧
      lineAABBIntersect ⟨sx, sy⟩ ⟨sx + L, sy⟩ r =
        some { pointX := .fin (sx + L * q), pointY := .fin sy, t := .fin q } := by
  unfold lineAABBIntersect
  simp only [Vec2.subtract]
  rw [show sx + L - sx = L by ring, show sy - sy = (0 : ℚ) by ring]
  rw [if_pos rfl, if_neg hL0]
  rw [jmulFinFin (r.x - sx) (1 / L), jmulFinFin (r.x + r.width - sx) (1 / L),
    jminFinFin, jmaxFinFin]
  rcases lt_or_gt_of_ne (sub_ne_zero.mpr hy1) with h3 | h3 <;>
    rcases lt_or_gt_of_ne (sub_ne_zero.mpr hy2) with h4 | h4
  -- (t3, t4) = (ninf, ninf): tMax = ninf, immediate miss
  · rw [jmulFinInf_neg (r.y - sy) (by linarith),
      jmulFinInf_neg (r.y + r.height - sy) (by linarith)]
    left
    rfl
  -- (t3, t4) = (ninf, inf): the genuine slab test on the x axis
  · rw [jmulFinInf_neg (r.y - sy) (by linarith),
      jmulFinInf_pos (r.y + r.height - sy) (by linarith),
      jminNinfInf, jmaxNinfInf, jmaxFinNinf, jminFinInf]
    rw [jltFinFin, jltFinFin, jltFinFin, jltFinFin]
    set a1 : ℚ := (r.x - sx) * (1 / L) with ha1
    set a2 : ℚ := (r.x + r.width - sx) * (1 / L) with ha2
    split_ifs with hP hm hQ hQ
    · left; rfl
    · left; rfl
    · rw [not_or, not_or] at hP
      obtain ⟨hP1, hP2, hP3⟩ := hP
      simp only [decide_eq_true_eq, not_lt] at hP1 hP2 hP3 hm
      simp only [jltFinFin, decide_eq_true_eq, not_lt] at hQ
      right
      refine ⟨Max.max a1 a2, hP1, hQ, ?_⟩
      rw [jmulFinFin, jaddFinFin, jmulFinFin, jaddFinFin]
      rw [Option.some.injEq, JHit.mk.injEq]
      refine ⟨congrArg JNum.fin (by ring), congrArg JNum.fin (by ring), rfl⟩
    · rw [not_or, not_or] at hP
      obtain ⟨hP1, hP2, hP3⟩ := hP
      simp only [decide_eq_true_eq, not_lt] at hP3
      simp only [jltFinFin, decide_eq_true_eq] at hQ
      linarith
    · rw [not_or, not_or] at hP
      obtain ⟨hP1, hP2, hP3⟩ := hP
      simp only [decide_eq_true_eq, not_lt] at hP1 hP2 hP3 hm
      simp only [jltFinFin, decide_eq_true_eq, not_lt] at hQ
      right
      refine ⟨Min.min a1 a2, hm, hQ, ?_⟩
      rw [jmulFinFin, jaddFinFin, jmulFinFin, jaddFinFin]
      rw [Option.some.injEq, JHit.mk.injEq]
      refine ⟨congrArg JNum.fin (by ring), congrArg JNum.fin (by ring), rfl⟩
  -- (t3, t4) = (inf, ninf): same slab test
  · rw [jmulFinInf_pos (r.y - sy) (by linarith),
      jmulFinInf_neg (r.y + r.height - sy) (by linarith),
      jminInfNinf, jmaxInfNinf, jmaxFinNinf, jminFinInf]
    rw [jltFinFin, jltFinFin, jltFinFin, jltFinFin]
    set a1 : ℚ := (r.x - sx) * (1 / L) with ha1
    set a2 : ℚ := (r.x + r.width - sx) * (1 / L) with ha2
    split_ifs with hP hm hQ hQ
    · left; rfl
    · left; rfl
    · rw [not_or, not_or] at hP
      obtain ⟨hP1, hP2, hP3⟩ := hP
      simp only [decide_eq_true_eq, not_lt] at hP1 hP2 hP3 hm
      simp only [jltFinFin, decide_eq_true_eq, not_lt] at hQ
      right
      refine ⟨Max.max a1 a2, hP1, hQ, ?_⟩
      rw [jmulFinFin, jaddFinFin, jmulFinFin, jaddFinFin]
      rw [Option.some.injEq, JHit.mk.injEq]
      refine ⟨congrArg JNum.fin (by ring), congrArg JNum.fin (by ring), rfl⟩
    · rw [not_or, not_or] at hP
      obtain ⟨hP1, hP2, hP3⟩ := hP
      simp only [decide_eq_true_eq, not_lt] at hP3
      simp only [jltFinFin, decide_eq_true_eq] at hQ
      linarith
    · rw [not_or, not_or] at hP
      obtain ⟨hP1, hP2, hP3⟩ := hP
      simp only [decide_eq_true_eq, not_lt] at hP1 hP2 hP3 hm
      simp only [jltFinFin, decide_eq_true_eq, not_lt] at hQ
      right
      refine ⟨Min.min a1 a2, hm, hQ, ?_⟩
      rw [jmulFinFin, jaddFinFin, jmulFinFin, jaddFinFin]
      rw [Option.some.injEq, JHit.mk.injEq]
      refine ⟨congrArg JNum.fin (by ring), congrArg JNum.fin (by ring), rfl⟩
  -- (t3, t4) = (inf, inf): the ray's y misses the slab entirely
  · rw [jmulFinInf_pos (r.y - sy) (by linarith),
      jmulFinInf_pos (r.y + r.height - sy) (by linarith)]
    left
    rw [jminInfInf, jmaxFinInf]
    rw [if_pos (Or.inr (Or.inr (jltFinInf 1)))]

end Watt

namespace Watt

/-- The shape of every entity hit record produced along a horizontal
segment `start → start + (L, 0)`: a finite parameter `q ∈ [0, 1]` with the
hit point on the segment. -/
def hitShape (sx sy L : ℚ) (h : JHitEnt) : Prop :=
  ∃ q : ℚ, 0 ≤ q ∧ q ≤ 1 ∧ h.distance = .fin q ∧
    h.hit = { pointX := .fin (sx + L * q), pointY := .fin sy, t := .fin q }

/-- A hit record with a finite sort key. -/
def finD (h : JHitEnt) : Prop := ∃ q, h.distance = JNum.fin q

theorem hitLE_total_fin (a b : JHitEnt) (ha : finD a) (hb : finD b) :
    hitLE a b ∨ hitLE b a := by
  rcases ha with ⟨qa, ha⟩
  rcases hb with ⟨qb, hb⟩
  unfold hitLE
  rw [ha, hb, jltFinFin, jltFinFin]
  by_cases h : qa ≤ qb
  · exact Or.inl (decide_eq_false_iff_not.mpr (not_lt.mpr h))
  · exact Or.inr (decide_eq_false_iff_not.mpr (not_lt.mpr (le_of_not_le h)))

theorem hitLE_trans_fin3 (a b c : JHitEnt)
    (ha : finD a) (hb : finD b) (hc : finD c)
    (h1 : hitLE a b) (h2 : hitLE b c) : hitLE a c := by
  rcases ha with ⟨qa, ha⟩
  rcases hb with ⟨qb, hb⟩
  rcases hc with ⟨qc, hc⟩
  unfold hitLE at *
  rw [ha, hb, jltFinFin] at h1
  rw [hb, hc, jltFinFin] at h2
  rw [ha, hc, jltFinFin]
  rw [decide_eq_false_iff_not, not_lt] at h1 h2 ⊢
  linarith

theorem mem_orderedInsert_cases (a : JHitEnt) :
    ∀ (l : List JHitEnt) (y : JHitEnt), y ∈ l.orderedInsert hitLE a →
    y = a ∨ y ∈ l := by
  intro l
  induction l with
  | nil =>
    intro y hy
    simp [List.orderedInsert] at hy
    exact Or.inl hy
  | cons b rest ih =>
    intro y hy
    rw [List.orderedInsert] at hy
    by_cases hab : hitLE a b
    · rw [if_pos hab] at hy
      rcases List.mem_cons.mp hy with rfl | hy2
      · exact Or.inl rfl
      · exact Or.inr hy2
    · rw [if_neg hab] at hy
      rcases List.mem_cons.mp hy with rfl | hy2
      · exact Or.inr (by simp)
      · rcases ih y hy2 with h | h
        · exact Or.inl h
        · exact Or.inr (by simp [h])

theorem orderedInsert_sorted_fin (a : JHitEnt) (ha : finD a) :
    ∀ l : List JHitEnt, (∀ x ∈ l, finD x) → l.Sorted hitLE →
    (l.orderedInsert hitLE a).Sorted hitLE := by
  intro l
  induction l with
  | nil =>
    intro _ _
    simp [List.orderedInsert]
  | cons b rest ih =>
    intro hfin hsort
    rw [List.orderedInsert]
    by_cases hab : hitLE a b
    · rw [if_pos hab]
      rw [List.sorted_cons]
      refine ⟨?_, hsort⟩
      intro y hy
      rcases List.mem_cons.mp hy with rfl | hy2
      · exact hab
      · exact hitLE_trans_fin3 a b y ha (hfin b (by simp))
          (hfin y (by simp [hy2]))
          hab ((List.sorted_cons.mp hsort).1 y hy2)
    · rw [if_neg hab]
      rw [List.sorted_cons]
      refine ⟨?_, ih (fun x hx => hfin x (by simp [hx]))
        (List.sorted_cons.mp hsort).2⟩
      intro y hy
      rcases mem_orderedInsert_cases a rest y hy with rfl | hy3
      · rcases hitLE_total_fin y b ha (hfin b (by simp)) with h | h
        · exact absurd h hab
        · exact h
      · exact (List.sorted_cons.mp hsort).1 y hy3

theorem insertionSort_sorted_fin (l : List JHitEnt)
    (hfin : ∀ x ∈ l, finD x) : (l.insertionSort hitLE).Sorted hitLE := by
  induction l with
  | nil => simp [List.insertionSort]
  | cons a rest ih =>
    rw [List.insertionSort]
    exact orderedInsert_sorted_fin a (hfin a (by simp)) _
      (fun x hx => hfin x (by
        simp only [List.mem_cons]
        exact Or.inr ((List.perm_insertionSort hitLE rest).mem_iff.mp hx)))
      (ih (fun x hx => hfin x (by simp [hx])))

/-- The entity walk either leaves the end point untouched or sets it to the
hit point of some blocking hit from the list. -/
theorem entityWalk_endpoint_cases (e0 : JNum × JNum) :
    ∀ hs : List JHitEnt, (entityWalk e0 hs).1 = e0 ∨
      ∃ b ∈ hs, blocksRay b = true ∧
        (entityWalk e0 hs).1 = (b.hit.pointX, b.hit.pointY) := by
  intro hs
  induction hs with
  | nil => left; rfl
  | cons h rest ih =>
    unfold entityWalk
    by_cases hem : (h.ent.kind == "LaserEmitter") = true
    · rw [if_pos hem]
      rcases ih with he | ⟨b, hb, hbb, hbe⟩
      · left; exact he
      · right; exact ⟨b, by simp [hb], hbb, hbe⟩
    · rw [if_neg hem]
      by_cases hsolid : h.ent.solid = true
      · rw [if_pos hsolid]
        by_cases hdoor : (((h.ent.kind == "AutoDoor") || (h.ent.kind == "Door")) &&
            h.ent.isOpen) = true
        · rw [if_pos hdoor]
          rcases ih with he | ⟨b, hb, hbb, hbe⟩
          · left; exact he
          · right; exact ⟨b, by simp [hb], hbb, hbe⟩
        · rw [if_neg hdoor]
          right
          refine ⟨h, by simp, ?_, rfl⟩
          unfold blocksRay
          rw [Bool.not_eq_true] at hem hdoor
          rw [hsolid, hem, hdoor]
          rfl
      · rw [if_neg hsolid]
        rcases ih with he | ⟨b, hb, hbb, hbe⟩
        · left; exact he
        · right; exact ⟨b, by simp [hb], hbb, hbe⟩

theorem exists_first_blocker :
    ∀ hs : List JHitEnt, (∃ b ∈ hs, blocksRay b = true) →
    ∃ pre b post, hs = pre ++ b :: post ∧
      (∀ h ∈ pre, blocksRay h = false) ∧ blocksRay b = true := by
  intro hs
  induction hs with
  | nil => rintro ⟨b, hb, _⟩; simp at hb
  | cons h rest ih =>
    rintro ⟨b, hb, hbb⟩
    by_cases hh : blocksRay h = true
    · exact ⟨[], h, rest, rfl, by simp, hh⟩
    · rcases List.mem_cons.mp hb with rfl | hb2
      · exact absurd hbb hh
      · obtain ⟨pre, b2, post, hsplit, hpre, hb2b⟩ := ih ⟨b, hb2, hbb⟩
        refine ⟨h :: pre, b2, post, by rw [hsplit, List.cons_append], ?_, hb2b⟩
        intro x hx
        rcases List.mem_cons.mp hx with rfl | hx2
        · exact Bool.not_eq_true _ ▸ (Bool.eq_false_iff.mpr hh)
        · exact hpre x hx2

end Watt

namespace Watt

/-- `blocksRay` on the underlying entity: solid, not an emitter, not an
open door. -/
def entBlocks (ent : JEnt) : Bool :=
  ent.solid && !(ent.kind == "LaserEmitter") &&
  !(((ent.kind == "AutoDoor") || (ent.kind == "Door")) && ent.isOpen)

theorem blocksRay_mk (ent : JEnt) (hit : JHit) (d : JNum) :
    blocksRay { ent := ent, hit := hit, distance := d } = entBlocks ent := rfl

theorem findEntityCollisions_mem (s det : Vec2) (entities : List JEnt)
    (ent : JEnt) (hent : ent ∈ entities)
    (hvis : ent.visible = true) (hact : ent.active = true) (hit : JHit)
    (hli : lineAABBIntersect s det ent.bounds = some hit) :
    ({ ent := ent, hit := hit, distance := hit.t } : JHitEnt) ∈
      findEntityCollisions s det entities := by
  unfold findEntityCollisions
  dsimp only
  apply (List.perm_insertionSort hitLE _).mem_iff.mpr
  apply List.mem_filterMap.mpr
  refine ⟨ent, hent, ?_⟩
  rw [if_pos ⟨hvis, hact⟩, hli]

theorem findEntityCollisions_shape (s : Vec2) (L : ℚ) (hL0 : L ≠ 0)
    (entities : List JEnt)
    (hgen : ∀ ent ∈ entities,
      ent.bounds.y ≠ s.y ∧ ent.bounds.y + ent.bounds.height ≠ s.y) :
    ∀ h ∈ findEntityCollisions s ⟨s.x + L, s.y⟩ entities,
      hitShape s.x s.y L h := by
  intro h hmem
  unfold findEntityCollisions at hmem
  dsimp only at hmem
  have hmem2 := (List.perm_insertionSort hitLE _).mem_iff.mp hmem
  rcases List.mem_filterMap.mp hmem2 with ⟨ent, hent, hfm⟩
  by_cases hva : ent.visible = true ∧ ent.active = true
  · rw [if_pos hva] at hfm
    rcases hli : lineAABBIntersect s ⟨s.x + L, s.y⟩ ent.bounds with _ | hit
    · rw [hli] at hfm
      exact absurd hfm (by simp)
    · rw [hli] at hfm
      have hfm2 : some ({ ent := ent, hit := hit, distance := hit.t } : JHitEnt)
          = some h := hfm
      rcases Option.some.inj hfm2 with rfl
      obtain ⟨hy1, hy2⟩ := hgen ent hent
      have hli2 : lineAABBIntersect ⟨s.x, s.y⟩ ⟨s.x + L, s.y⟩ ent.bounds
          = some hit := hli
      rcases lineAABB_horiz s.x s.y L ent.bounds hL0 hy1 hy2 with
        hnone | ⟨q, hq0, hq1, heq⟩
      · rw [hli2] at hnone
        exact absurd hnone (by simp)
      · rw [hli2] at heq
        rcases Option.some.inj heq with rfl
        exact ⟨q, hq0, hq1, rfl, rfl⟩
  · rw [if_neg hva] at hfm
    exact absurd hfm (by simp)

theorem findEntityCollisions_degenerate (s : Vec2) (entities : List JEnt)
    (hgen : ∀ ent ∈ entities,
      ent.bounds.y ≠ s.y ∧ ent.bounds.y + ent.bounds.height ≠ s.y ∧
      ent.bounds.x ≠ s.x ∧ ent.bounds.x + ent.bounds.width ≠ s.x)
    (h : JHitEnt)
    (hmem : h ∈ findEntityCollisions s ⟨s.x + 0, s.y⟩ entities) : False := by
  unfold findEntityCollisions at hmem
  dsimp only at hmem
  have hmem2 := (List.perm_insertionSort hitLE _).mem_iff.mp hmem
  rcases List.mem_filterMap.mp hmem2 with ⟨ent, hent, hfm⟩
  obtain ⟨hy1, hy2, hx1, hx2⟩ := hgen ent hent
  by_cases hva : ent.visible = true ∧ ent.active = true
  · rw [if_pos hva] at hfm
    have hd2 : lineAABBIntersect s ⟨s.x + 0, s.y⟩ ent.bounds = none :=
      lineAABB_degenerate s.x s.y ent.bounds hy1 hy2 hx1 hx2
    rw [hd2] at hfm
    exact absurd hfm (by simp)
  · rw [if_neg hva] at hfm
    exact absurd hfm (by simp)

theorem findEntityCollisions_sorted (s : Vec2) (L : ℚ) (hL0 : L ≠ 0)
    (entities : List JEnt)
    (hgen : ∀ ent ∈ entities,
      ent.bounds.y ≠ s.y ∧ ent.bounds.y + ent.bounds.height ≠ s.y) :
    (findEntityCollisions s ⟨s.x + L, s.y⟩ entities).Sorted hitLE := by
  unfold findEntityCollisions
  dsimp only
  apply insertionSort_sorted_fin
  intro x hx
  have hx2 : x ∈ findEntityCollisions s ⟨s.x + L, s.y⟩ entities :=
    (List.perm_insertionSort hitLE _).mem_iff.mpr hx
  rcases findEntityCollisions_shape s L hL0 entities hgen x hx2 with
    ⟨q, _, _, hd, _⟩
  exact ⟨q, hd⟩

set_option maxHeartbeats 800000 in
/-- A solid entity strictly ahead of an eastbound segment and straddling its
line registers a hit whose parameter is the entry-face parameter. -/
theorem lineAABB_horiz_hit (sx sy L : ℚ) (r : JRect) (hL : 0 < L)
    (hyl : r.y < sy) (hyh : sy < r.y + r.height) (hw : 0 ≤ r.width)
    (hxl : sx < r.x) (hxu : r.x - sx < L) :
    ∃ hit : JHit, lineAABBIntersect ⟨sx, sy⟩ ⟨sx + L, sy⟩ r = some hit ∧
      hit.t = .fin ((r.x - sx) * (1 / L)) := by
  have h1L : 0 < 1 / L := by positivity
  have ha1pos : 0 < (r.x - sx) * (1 / L) := by nlinarith
  have ha1le : (r.x - sx) * (1 / L) ≤ (r.x + r.width - sx) * (1 / L) := by nlinarith
  have ha1lt1 : (r.x - sx) * (1 / L) < 1 := by
    have hinv : L * (1 / L) = 1 := by field_simp
    nlinarith
  unfold lineAABBIntersect
  simp only [Vec2.subtract]
  rw [show sx + L - sx = L by ring, show sy - sy = (0 : ℚ) by ring]
  rw [if_pos rfl, if_neg (show ¬L = 0 by linarith)]
  rw [jmulFinFin (r.x - sx) (1 / L), jmulFinFin (r.x + r.width - sx) (1 / L),
    jminFinFin, jmaxFinFin]
  rw [jmulFinInf_neg (r.y - sy) (by linarith),
    jmulFinInf_pos (r.y + r.height - sy) (by linarith),
    jminNinfInf, jmaxNinfInf, jmaxFinNinf, jminFinInf]
  rw [min_eq_left ha1le]
  rw [jltFinFin, jltFinFin, jltFinFin, jltFinFin]
  rw [if_neg (show ¬(decide (Max.max ((r.x - sx) * (1 / L))
      ((r.x + r.width - sx) * (1 / L)) < 0) = true ∨
      decide (Max.max ((r.x - sx) * (1 / L))
      ((r.x + r.width - sx) * (1 / L)) < (r.x - sx) * (1 / L)) = true ∨
      decide (1 < (r.x - sx) * (1 / L)) = true) by
    simp only [decide_eq_true_eq, not_or, not_lt]
    refine ⟨?_, le_max_left _ _, le_of_lt ha1lt1⟩
    have := le_max_left ((r.x - sx) * (1 / L)) ((r.x + r.width - sx) * (1 / L))
    linarith)]
  rw [if_neg (show ¬(decide ((r.x - sx) * (1 / L) < 0) = true) by
    simp only [decide_eq_true_eq, not_lt]
    linarith)]
  rw [jltFinFin]
  rw [if_neg (show ¬(decide (1 < (r.x - sx) * (1 / L)) = true) by
    simp only [decide_eq_true_eq, not_lt]
    linarith)]
  exact ⟨_, rfl, rfl⟩

set_option maxHeartbeats 1000000 in
/-- Master characterization of `traceLaser` on the eastbound unit ray: the
end point is `(start.x + L·q, start.y)` for the wall-stage length
`0 ≤ L ≤ 2056` and some `q ∈ [0, 1]`, the wall stage truncates strictly
inside `maxDistance` whenever the callback fires at one of the first 243
samples, and every blocking visible entity strictly ahead of the start and
within 2000 px forces a strictly truncated end point. -/
theorem traceLaser_east_master (s : Vec2) (entities : List JEnt)
    (pred : Vec2 → Bool)
    (hgen : ∀ ent ∈ entities,
      ent.bounds.y ≠ s.y ∧ ent.bounds.y + ent.bounds.height ≠ s.y ∧
      ent.bounds.x ≠ s.x ∧ ent.bounds.x + ent.bounds.width ≠ s.x) :
    ∃ L ex : ℚ, 0 ≤ L ∧ L ≤ 2056 ∧
      (traceLaser s ⟨1, 0⟩ entities (some pred)).endPoint =
        (.fin ex, .fin s.y) ∧
      s.x ≤ ex ∧ ex ≤ s.x + L ∧
      ((∃ i : Nat, 1 ≤ i ∧ i ≤ 243 ∧ pred ⟨s.x + 8 * (i : ℚ), s.y⟩ = true) →
        L < 2000) ∧
      (∀ ent ∈ entities, entBlocks ent = true → ent.visible = true →
        ent.active = true → 0 ≤ ent.bounds.width → s.x < ent.bounds.x →
        ent.bounds.x < s.x + 2000 → ent.bounds.y < s.y →
        s.y < ent.bounds.y + ent.bounds.height → ex < s.x + 2000) := by
  obtain ⟨L, hL0, hL2056, hdet, hstrict⟩ := wallEndPoint_east s pred
  have htr : (traceLaser s ⟨1, 0⟩ entities (some pred)).endPoint =
      (entityWalk (JNum.fin ((wallEndPoint s ⟨1, 0⟩ (some pred)).x),
                   JNum.fin ((wallEndPoint s ⟨1, 0⟩ (some pred)).y))
        (findEntityCollisions s (wallEndPoint s ⟨1, 0⟩ (some pred))
          entities)).1 := rfl
  rw [hdet] at htr
  dsimp only at htr
  by_cases hLz : L = 0
  · subst hLz
    rcases entityWalk_endpoint_cases (JNum.fin (s.x + 0), JNum.fin s.y)
        (findEntityCollisions s ⟨s.x + 0, s.y⟩ entities) with
      hcase | ⟨b, hbmem, _, _⟩
    · refine ⟨0, s.x + 0, le_refl 0, by norm_num, by rw [htr, hcase],
        by linarith, by linarith, fun _ => by norm_num, ?_⟩
      intro ent _ _ _ _ _ _ _ _ _
      linarith
    · exact (findEntityCollisions_degenerate s entities hgen b hbmem).elim
  · have hLpos : 0 < L := lt_of_le_of_ne hL0 (Ne.symm hLz)
    have hgenY : ∀ ent ∈ entities,
        ent.bounds.y ≠ s.y ∧ ent.bounds.y + ent.bounds.height ≠ s.y :=
      fun ent h => ⟨(hgen ent h).1, (hgen ent h).2.1⟩
    have hshape := findEntityCollisions_shape s L hLz entities hgenY
    -- establish the end point and its bounds
    have hex : ∃ ex : ℚ,
        (traceLaser s ⟨1, 0⟩ entities (some pred)).endPoint =
          (.fin ex, .fin s.y) ∧ s.x ≤ ex ∧ ex ≤ s.x + L := by
      rcases entityWalk_endpoint_cases (JNum.fin (s.x + L), JNum.fin s.y)
          (findEntityCollisions s ⟨s.x + L, s.y⟩ entities) with
        hcase | ⟨b, hbmem, _, hbe⟩
      · exact ⟨s.x + L, by rw [htr, hcase], by linarith, le_refl _⟩
      · obtain ⟨qb, hqb0, hqb1, _, hbhit⟩ := hshape b hbmem
        refine ⟨s.x + L * qb, ?_, by nlinarith, by nlinarith⟩
        rw [htr, hbe, hbhit]
    obtain ⟨ex, hend, hex1, hex2⟩ := hex
    refine ⟨L, ex, hL0, hL2056, hend, hex1, hex2, hstrict, ?_⟩
    intro ent hent hblocks hvis hact hw hxl hxu hyl hyh
    by_cases hcase2 : ent.bounds.x - s.x < L
    · obtain ⟨hit, hli, hlit⟩ :=
        lineAABB_horiz_hit s.x s.y L ent.bounds hLpos hyl hyh hw hxl hcase2
      have hli2 : lineAABBIntersect s ⟨s.x + L, s.y⟩ ent.bounds
          = some hit := hli
      have hmem := findEntityCollisions_mem s ⟨s.x + L, s.y⟩ entities ent
        hent hvis hact hit hli2
      have hbl : blocksRay { ent := ent, hit := hit, distance := hit.t }
          = true := by
        rw [blocksRay_mk]
        exact hblocks
      obtain ⟨pre, b0, post, hsplit, hpreb, hb0b⟩ :=
        exists_first_blocker _ ⟨_, hmem, hbl⟩
      have hwalk := entityWalk_first_blocker
        (JNum.fin (s.x + L), JNum.fin s.y) pre b0 post hpreb hb0b
      rw [← hsplit] at hwalk
      have hb0mem : b0 ∈ findEntityCollisions s ⟨s.x + L, s.y⟩ entities := by
        rw [hsplit]
        exact List.mem_append.mpr (Or.inr (by simp))
      obtain ⟨qb, hqb0, hqb1, hbd, hbhit⟩ := hshape b0 hb0mem
      have hchain : (JNum.fin ex, JNum.fin s.y) =
          (b0.hit.pointX, b0.hit.pointY) := by
        calc (JNum.fin ex, JNum.fin s.y)
            = (traceLaser s ⟨1, 0⟩ entities (some pred)).endPoint := hend.symm
          _ = _ := by rw [htr, hwalk]
      have hpx : JNum.fin ex = b0.hit.pointX := congrArg Prod.fst hchain
      rw [hbhit] at hpx
      have hexval : ex = s.x + L * qb := JNum.fin.inj hpx
      have hLa1 : L * ((ent.bounds.x - s.x) * (1 / L)) = ent.bounds.x - s.x := by
        field_simp
      have hqba1 : qb ≤ (ent.bounds.x - s.x) * (1 / L) := by
        have hoursmem := hmem
        rw [hsplit] at hoursmem
        rcases List.mem_append.mp hoursmem with hpre | hrest
        · have hc := hpreb _ hpre
          rw [hbl] at hc
          exact absurd hc (by simp)
        · rcases List.mem_cons.mp hrest with heq | hpost
          · have hbd2 : b0.distance = hit.t := by rw [← heq]
            rw [hbd, hlit] at hbd2
            rw [JNum.fin.inj hbd2]
          · have hsorted := findEntityCollisions_sorted s L hLz entities hgenY
            rw [hsplit] at hsorted
            have hb0le : hitLE b0
                ({ ent := ent, hit := hit, distance := hit.t } : JHitEnt) := by
              have hsorted2 : List.Pairwise hitLE (pre ++ b0 :: post) := hsorted
              have h1 := (List.pairwise_append.mp hsorted2).2.1
              exact (List.pairwise_cons.mp h1).1 _ hpost
            unfold hitLE at hb0le
            rw [hbd] at hb0le
            have hb0le2 : JNum.lt hit.t (JNum.fin qb) = false := hb0le
            rw [hlit, jltFinFin, decide_eq_false_iff_not, not_lt] at hb0le2
            exact hb0le2
      nlinarith
    · push_neg at hcase2
      linarith

end Watt

namespace Watt

theorem snap_west (px py : ℚ) :
    snapToTileBoundary ⟨px, py⟩ ⟨-1, 0⟩ = ⟨((⌊px / 64⌋ : ℤ) : ℚ) * 64, py⟩ := by
  unfold snapToTileBoundary
  norm_num

theorem snap_south (px py : ℚ) :
    snapToTileBoundary ⟨px, py⟩ ⟨0, 1⟩ = ⟨px, ((⌈py / 64⌉ : ℤ) : ℚ) * 64⟩ := by
  unfold snapToTileBoundary
  norm_num

theorem snap_north (px py : ℚ) :
    snapToTileBoundary ⟨px, py⟩ ⟨0, -1⟩ = ⟨px, ((⌊py / 64⌋ : ℤ) : ℚ) * 64⟩ := by
  unfold snapToTileBoundary
  norm_num

theorem floor64_bounds (x : ℚ) :
    x - 64 < ((⌊x / 64⌋ : ℤ) : ℚ) * 64 ∧ ((⌊x / 64⌋ : ℤ) : ℚ) * 64 ≤ x := by
  constructor
  · nlinarith [Int.sub_one_lt_floor (x / 64)]
  · nlinarith [Int.floor_le (x / 64)]

/-- The wall stage for a westbound unit ray: the determined end point is
`start - (L, 0)` with `0 ≤ L ≤ 2056`, and if the callback reports a wall at
one of the first 243 sample points then `L < 2000`. -/
theorem wallEndPoint_west (s : Vec2) (pred : Vec2 → Bool) :
    ∃ L : ℚ, 0 ≤ L ∧ L ≤ 2056 ∧
      wallEndPoint s ⟨-1, 0⟩ (some pred) = ⟨s.x - L, s.y⟩ ∧
      ((∃ i : Nat, 1 ≤ i ∧ i ≤ 243 ∧ pred ⟨s.x - 8 * (i : ℚ), s.y⟩ = true) →
        L < 2000) := by
  have hfun : (fun i : Nat =>
      pred (s.add (((Vec2.multiply ⟨-1, 0⟩ 8)).multiply (i : ℚ)))) =
      fun i : Nat => pred ⟨s.x - 8 * (i : ℚ), s.y⟩ := by
    funext i
    congr 1
    simp only [Vec2.add, Vec2.multiply]
    rw [Vec2.mk.injEq]
    constructor <;> ring
  have hsteps : ((⌊(2000 : ℚ) / 8⌋ : ℤ)).toNat = 250 := by
    rw [show ⌊(2000 : ℚ) / 8⌋ = (250 : ℤ) by norm_num]
    rfl
  unfold wallEndPoint checkWallCollision
  dsimp only
  rw [hsteps, hfun]
  rcases hf : (List.range' 1 250).find?
      (fun i : Nat => pred ⟨s.x - 8 * (i : ℚ), s.y⟩) with _ | i0
  · refine ⟨2000, by norm_num, by norm_num, ?_, ?_⟩
    · simp only [Vec2.add, Vec2.multiply]
      rw [Vec2.mk.injEq]
      constructor <;> ring
    · rintro ⟨i, hi1, hi2, htrue⟩
      exfalso
      have hnone := List.find?_eq_none.mp hf i (by
        rw [List.mem_range'_1]
        omega)
      exact hnone htrue
  · dsimp only
    obtain ⟨h1, h2, h3, h4⟩ := find?_range'_first _ 250 1 i0 hf
    have harg : s.add ((Vec2.multiply ⟨-1, 0⟩ 8).multiply ((i0 : ℚ) - 1)) =
        ⟨s.x - 8 * ((i0 : ℚ) - 1), s.y⟩ := by
      simp only [Vec2.add, Vec2.multiply]
      rw [Vec2.mk.injEq]
      constructor <;> ring
    rw [harg, snap_west]
    set c : ℚ := ((⌊(s.x - 8 * ((i0 : ℚ) - 1)) / 64⌋ : ℤ) : ℚ) * 64 with hc
    obtain ⟨hcl, hcu⟩ := floor64_bounds (s.x - 8 * ((i0 : ℚ) - 1))
    rw [← hc] at hcl hcu
    have hi0q : (1 : ℚ) ≤ (i0 : ℚ) ∧ (i0 : ℚ) ≤ 250 := by
      constructor <;> exact_mod_cast (by omega : _)
    refine ⟨s.x - c, by nlinarith [hi0q.1], by nlinarith [hi0q.2], ?_, ?_⟩
    · rw [Vec2.mk.injEq]
      constructor
      · ring
      · rfl
    · rintro ⟨i, hij1, hij2, htrue⟩
      have hi0le : i0 ≤ i := by
        by_contra hlt
        push_neg at hlt
        have := h4 i hij1 hlt
        rw [htrue] at this
        simp at this
      have hi0243 : (i0 : ℚ) ≤ 243 := by exact_mod_cast (by omega : i0 ≤ 243)
      nlinarith [hi0243]

/-- The wall stage for a southbound unit ray: the determined end point is
`start + (0, L)` with `0 ≤ L ≤ 2056`, and if the callback reports a wall at
one of the first 243 sample points then `L < 2000`. -/
theorem wallEndPoint_south (s : Vec2) (pred : Vec2 → Bool) :
    ∃ L : ℚ, 0 ≤ L ∧ L ≤ 2056 ∧
      wallEndPoint s ⟨0, 1⟩ (some pred) = ⟨s.x, s.y + L⟩ ∧
      ((∃ i : Nat, 1 ≤ i ∧ i ≤ 243 ∧ pred ⟨s.x, s.y + 8 * (i : ℚ)⟩ = true) →
        L < 2000) := by
  have hfun : (fun i : Nat =>
      pred (s.add (((Vec2.multiply ⟨0, 1⟩ 8)).multiply (i : ℚ)))) =
      fun i : Nat => pred ⟨s.x, s.y + 8 * (i : ℚ)⟩ := by
    funext i
    congr 1
    simp only [Vec2.add, Vec2.multiply]
    rw [Vec2.mk.injEq]
    constructor <;> ring
  have hsteps : ((⌊(2000 : ℚ) / 8⌋ : ℤ)).toNat = 250 := by
    rw [show ⌊(2000 : ℚ) / 8⌋ = (250 : ℤ) by norm_num]
    rfl
  unfold wallEndPoint checkWallCollision
  dsimp only
  rw [hsteps, hfun]
  rcases hf : (List.range' 1 250).find?
      (fun i : Nat => pred ⟨s.x, s.y + 8 * (i : ℚ)⟩) with _ | i0
  · refine ⟨2000, by norm_num, by norm_num, ?_, ?_⟩
    · simp only [Vec2.add, Vec2.multiply]
      rw [Vec2.mk.injEq]
      constructor <;> ring
    · rintro ⟨i, hi1, hi2, htrue⟩
      exfalso
      have hnone := List.find?_eq_none.mp hf i (by
        rw [List.mem_range'_1]
        omega)
      exact hnone htrue
  · dsimp only
    obtain ⟨h1, h2, h3, h4⟩ := find?_range'_first _ 250 1 i0 hf
    have harg : s.add ((Vec2.multiply ⟨0, 1⟩ 8).multiply ((i0 : ℚ) - 1)) =
        ⟨s.x, s.y + 8 * ((i0 : ℚ) - 1)⟩ := by
      simp only [Vec2.add, Vec2.multiply]
      rw [Vec2.mk.injEq]
      constructor <;> ring
    rw [harg, snap_south]
    set c : ℚ := ((⌈(s.y + 8 * ((i0 : ℚ) - 1)) / 64⌉ : ℤ) : ℚ) * 64 with hc
    obtain ⟨hcl, hcu⟩ := ceil64_bounds (s.y + 8 * ((i0 : ℚ) - 1))
    rw [← hc] at hcl hcu
    have hi0q : (1 : ℚ) ≤ (i0 : ℚ) ∧ (i0 : ℚ) ≤ 250 := by
      constructor <;> exact_mod_cast (by omega : _)
    refine ⟨c - s.y, by nlinarith [hi0q.1], by nlinarith [hi0q.2], ?_, ?_⟩
    · rw [Vec2.mk.injEq]
      constructor
      · rfl
      · ring
    · rintro ⟨i, hij1, hij2, htrue⟩
      have hi0le : i0 ≤ i := by
        by_contra hlt
        push_neg at hlt
        have := h4 i hij1 hlt
        rw [htrue] at this
        simp at this
      have hi0243 : (i0 : ℚ) ≤ 243 := by exact_mod_cast (by omega : i0 ≤ 243)
      nlinarith [hi0243]

/-- The wall stage for a northbound unit ray: the determined end point is
`start - (0, L)` with `0 ≤ L ≤ 2056`, and if the callback reports a wall at
one of the first 243 sample points then `L < 2000`. -/
theorem wallEndPoint_north (s : Vec2) (pred : Vec2 → Bool) :
    ∃ L : ℚ, 0 ≤ L ∧ L ≤ 2056 ∧
      wallEndPoint s ⟨0, -1⟩ (some pred) = ⟨s.x, s.y - L⟩ ∧
      ((∃ i : Nat, 1 ≤ i ∧ i ≤ 243 ∧ pred ⟨s.x, s.y - 8 * (i : ℚ)⟩ = true) →
        L < 2000) := by
  have hfun : (fun i : Nat =>
      pred (s.add (((Vec2.multiply ⟨0, -1⟩ 8)).multiply (i : ℚ)))) =
      fun i : Nat => pred ⟨s.x, s.y - 8 * (i : ℚ)⟩ := by
    funext i
    congr 1
    simp only [Vec2.add, Vec2.multiply]
    rw [Vec2.mk.injEq]
    constructor <;> ring
  have hsteps : ((⌊(2000 : ℚ) / 8⌋ : ℤ)).toNat = 250 := by
    rw [show ⌊(2000 : ℚ) / 8⌋ = (250 : ℤ) by norm_num]
    rfl
  unfold wallEndPoint checkWallCollision
  dsimp only
  rw [hsteps, hfun]
  rcases hf : (List.range' 1 250).find?
      (fun i : Nat => pred ⟨s.x, s.y - 8 * (i : ℚ)⟩) with _ | i0
  · refine ⟨2000, by norm_num, by norm_num, ?_, ?_⟩
    · simp only [Vec2.add, Vec2.multiply]
      rw [Vec2.mk.injEq]
      constructor <;> ring
    · rintro ⟨i, hi1, hi2, htrue⟩
      exfalso
      have hnone := List.find?_eq_none.mp hf i (by
        rw [List.mem_range'_1]
        omega)
      exact hnone htrue
  · dsimp only
    obtain ⟨h1, h2, h3, h4⟩ := find?_range'_first _ 250 1 i0 hf
    have harg : s.add ((Vec2.multiply ⟨0, -1⟩ 8).multiply ((i0 : ℚ) - 1)) =
        ⟨s.x, s.y - 8 * ((i0 : ℚ) - 1)⟩ := by
      simp only [Vec2.add, Vec2.multiply]
      rw [Vec2.mk.injEq]
      constructor <;> ring
    rw [harg, snap_north]
    set c : ℚ := ((⌊(s.y - 8 * ((i0 : ℚ) - 1)) / 64⌋ : ℤ) : ℚ) * 64 with hc
    obtain ⟨hcl, hcu⟩ := floor64_bounds (s.y - 8 * ((i0 : ℚ) - 1))
    rw [← hc] at hcl hcu
    have hi0q : (1 : ℚ) ≤ (i0 : ℚ) ∧ (i0 : ℚ) ≤ 250 := by
      constructor <;> exact_mod_cast (by omega : _)
    refine ⟨s.y - c, by nlinarith [hi0q.1], by nlinarith [hi0q.2], ?_, ?_⟩
    · rw [Vec2.mk.injEq]
      constructor
      · rfl
      · ring
    · rintro ⟨i, hij1, hij2, htrue⟩
      have hi0le : i0 ≤ i := by
        by_contra hlt
        push_neg at hlt
        have := h4 i hij1 hlt
        rw [htrue] at this
        simp at this
      have hi0243 : (i0 : ℚ) ≤ 243 := by exact_mod_cast (by omega : i0 ≤ 243)
      nlinarith [hi0243]

end Watt


namespace Watt

theorem jmaxNinfFin (a : ℚ) : JNum.max .ninf (.fin a) = .fin a := rfl

theorem jminInfFin (a : ℚ) : JNum.min .inf (.fin a) = .fin a := rfl

theorem jmaxInfFin (a : ℚ) : JNum.max .inf (.fin a) = .inf := rfl

set_option maxHeartbeats 800000 in
/-- A solid entity strictly behind a westbound segment (its right edge west
of the start) and straddling its line registers a hit whose parameter is
the entry-face parameter `(r.x + r.width - sx) / L`. -/
theorem lineAABB_horiz_hit_west (sx sy L : ℚ) (r : JRect) (hL : L < 0)
    (hyl : r.y < sy) (hyh : sy < r.y + r.height) (hw : 0 ≤ r.width)
    (hxl : r.x + r.width < sx) (hxu : L < r.x + r.width - sx) :
    ∃ hit : JHit, lineAABBIntersect ⟨sx, sy⟩ ⟨sx + L, sy⟩ r = some hit ∧
      hit.t = .fin ((r.x + r.width - sx) * (1 / L)) := by
  have h1L : 1 / L < 0 := by
    exact one_div_neg.mpr hL
  have ha2pos : 0 < (r.x + r.width - sx) * (1 / L) := by nlinarith
  have ha2le : (r.x + r.width - sx) * (1 / L) ≤ (r.x - sx) * (1 / L) := by nlinarith
  have ha2lt1 : (r.x + r.width - sx) * (1 / L) < 1 := by
    have hinv : L * (1 / L) = 1 := mul_one_div_cancel (ne_of_lt hL)
    nlinarith
  unfold lineAABBIntersect
  simp only [Vec2.subtract]
  rw [show sx + L - sx = L by ring, show sy - sy = (0 : ℚ) by ring]
  rw [if_pos rfl, if_neg (show ¬L = 0 by linarith)]
  rw [jmulFinFin (r.x - sx) (1 / L), jmulFinFin (r.x + r.width - sx) (1 / L),
    jminFinFin, jmaxFinFin]
  rw [jmulFinInf_neg (r.y - sy) (by linarith),
    jmulFinInf_pos (r.y + r.height - sy) (by linarith),
    jminNinfInf, jmaxNinfInf, jmaxFinNinf, jminFinInf]
  rw [min_eq_right ha2le, max_eq_left ha2le]
  rw [jltFinFin, jltFinFin, jltFinFin, jltFinFin]
  rw [if_neg (show ¬(decide ((r.x - sx) * (1 / L) < 0) = true ∨
      decide ((r.x - sx) * (1 / L) < (r.x + r.width - sx) * (1 / L)) = true ∨
      decide (1 < (r.x + r.width - sx) * (1 / L)) = true) by
    simp only [decide_eq_true_eq, not_or, not_lt]
    exact ⟨by linarith, ha2le, le_of_lt ha2lt1⟩)]
  rw [if_neg (show ¬(decide ((r.x + r.width - sx) * (1 / L) < 0) = true) by
    simp only [decide_eq_true_eq, not_lt]
    linarith)]
  rw [jltFinFin]
  rw [if_neg (show ¬(decide (1 < (r.x + r.width - sx) * (1 / L)) = true) by
    simp only [decide_eq_true_eq, not_lt]
    linarith)]
  exact ⟨_, rfl, rfl⟩

set_option maxHeartbeats 800000 in
/-- `lineAABBIntersect` on a nondegenerate vertical segment
`start → start + (0, L)` whose start is not on the rectangle's vertical
edge lines: either a miss, or a hit at parameter `t = q ∈ [0, 1]` lying on
the segment. -/
theorem lineAABB_vert (sx sy L : ℚ) (r : JRect) (hL0 : L ≠ 0)
    (hx1 : r.x ≠ sx) (hx2 : r.x + r.width ≠ sx) :
    lineAABBIntersect ⟨sx, sy⟩ ⟨sx, sy + L⟩ r = none ∨
    ∃ q : ℚ, 0 ≤ q ∧ q ≤ 1 ∧
      lineAABBIntersect ⟨sx, sy⟩ ⟨sx, sy + L⟩ r =
        some { pointX := .fin sx, pointY := .fin (sy + L * q), t := .fin q } := by
  unfold lineAABBIntersect
  simp only [Vec2.subtract]
  rw [show sx - sx = (0 : ℚ) by ring, show sy + L - sy = L by ring]
  rw [if_pos rfl, if_neg hL0]
  rw [jmulFinFin (r.y - sy) (1 / L), jmulFinFin (r.y + r.height - sy) (1 / L),
    jminFinFin, jmaxFinFin]
  rcases lt_or_gt_of_ne (sub_ne_zero.mpr hx1) with h1 | h1 <;>
    rcases lt_or_gt_of_ne (sub_ne_zero.mpr hx2) with h2 | h2
  -- (t1, t2) = (ninf, ninf): tMax = ninf, immediate miss
  · rw [jmulFinInf_neg (r.x - sx) (by linarith),
      jmulFinInf_neg (r.x + r.width - sx) (by linarith)]
    left
    rfl
  -- (t1, t2) = (ninf, inf): the genuine slab test on the y axis
  · rw [jmulFinInf_neg (r.x - sx) (by linarith),
      jmulFinInf_pos (r.x + r.width - sx) (by linarith),
      jminNinfInf, jmaxNinfInf, jmaxNinfFin, jminInfFin]
    rw [jltFinFin, jltFinFin, jltFinFin, jltFinFin]
    set a3 : ℚ := (r.y - sy) * (1 / L) with ha3
    set a4 : ℚ := (r.y + r.height - sy) * (1 / L) with ha4
    split_ifs with hP hm hQ hQ
    · left; rfl
    · left; rfl
    · rw [not_or, not_or] at hP
      obtain ⟨hP1, hP2, hP3⟩ := hP
      simp only [decide_eq_true_eq, not_lt] at hP1 hP2 hP3 hm
      simp only [jltFinFin, decide_eq_true_eq, not_lt] at hQ
      right
      refine ⟨Max.max a3 a4, hP1, hQ, ?_⟩
      rw [jmulFinFin, jaddFinFin, jmulFinFin, jaddFinFin]
      rw [Option.some.injEq, JHit.mk.injEq]
      refine ⟨congrArg JNum.fin (by ring), congrArg JNum.fin (by ring), rfl⟩
    · rw [not_or, not_or] at hP
      obtain ⟨hP1, hP2, hP3⟩ := hP
      simp only [decide_eq_true_eq, not_lt] at hP3
      simp only [jltFinFin, decide_eq_true_eq] at hQ
      linarith
    · rw [not_or, not_or] at hP
      obtain ⟨hP1, hP2, hP3⟩ := hP
      simp only [decide_eq_true_eq, not_lt] at hP1 hP2 hP3 hm
      simp only [jltFinFin, decide_eq_true_eq, not_lt] at hQ
      right
      refine ⟨Min.min a3 a4, hm, hQ, ?_⟩
      rw [jmulFinFin, jaddFinFin, jmulFinFin, jaddFinFin]
      rw [Option.some.injEq, JHit.mk.injEq]
      refine ⟨congrArg JNum.fin (by ring), congrArg JNum.fin (by ring), rfl⟩
  -- (t1, t2) = (inf, ninf): same slab test
  · rw [jmulFinInf_pos (r.x - sx) (by linarith),
      jmulFinInf_neg (r.x + r.width - sx) (by linarith),
      jminInfNinf, jmaxInfNinf, jmaxNinfFin, jminInfFin]
    rw [jltFinFin, jltFinFin, jltFinFin, jltFinFin]
    set a3 : ℚ := (r.y - sy) * (1 / L) with ha3
    set a4 : ℚ := (r.y + r.height - sy) * (1 / L) with ha4
    split_ifs with hP hm hQ hQ
    · left; rfl
    · left; rfl
    · rw [not_or, not_or] at hP
      obtain ⟨hP1, hP2, hP3⟩ := hP
      simp only [decide_eq_true_eq, not_lt] at hP1 hP2 hP3 hm
      simp only [jltFinFin, decide_eq_true_eq, not_lt] at hQ
      right
      refine ⟨Max.max a3 a4, hP1, hQ, ?_⟩
      rw [jmulFinFin, jaddFinFin, jmulFinFin, jaddFinFin]
      rw [Option.some.injEq, JHit.mk.injEq]
      refine ⟨congrArg JNum.fin (by ring), congrArg JNum.fin (by ring), rfl⟩
    · rw [not_or, not_or] at hP
      obtain ⟨hP1, hP2, hP3⟩ := hP
      simp only [decide_eq_true_eq, not_lt] at hP3
      simp only [jltFinFin, decide_eq_true_eq] at hQ
      linarith
    · rw [not_or, not_or] at hP
      obtain ⟨hP1, hP2, hP3⟩ := hP
      simp only [decide_eq_true_eq, not_lt] at hP1 hP2 hP3 hm
      simp only [jltFinFin, decide_eq_true_eq, not_lt] at hQ
      right
      refine ⟨Min.min a3 a4, hm, hQ, ?_⟩
      rw [jmulFinFin, jaddFinFin, jmulFinFin, jaddFinFin]
      rw [Option.some.injEq, JHit.mk.injEq]
      refine ⟨congrArg JNum.fin (by ring), congrArg JNum.fin (by ring), rfl⟩
  -- (t1, t2) = (inf, inf): the ray's x misses the slab entirely
  · rw [jmulFinInf_pos (r.x - sx) (by linarith),
      jmulFinInf_pos (r.x + r.width - sx) (by linarith)]
    left
    rw [jminInfInf, jmaxInfFin]
    rw [if_pos (Or.inr (Or.inr (jltFinInf 1)))]

set_option maxHeartbeats 800000 in
/-- A solid entity strictly ahead of a southbound segment and straddling
its line registers a hit at the entry-face parameter `(r.y - sy) / L`. -/
theorem lineAABB_vert_hit (sx sy L : ℚ) (r : JRect) (hL : 0 < L)
    (hxl : r.x < sx) (hxh : sx < r.x + r.width) (hh : 0 ≤ r.height)
    (hyl : sy < r.y) (hyu : r.y - sy < L) :
    ∃ hit : JHit, lineAABBIntersect ⟨sx, sy⟩ ⟨sx, sy + L⟩ r = some hit ∧
      hit.t = .fin ((r.y - sy) * (1 / L)) := by
  have h1L : 0 < 1 / L := by positivity
  have ha3pos : 0 < (r.y - sy) * (1 / L) := by nlinarith
  have ha3le : (r.y - sy) * (1 / L) ≤ (r.y + r.height - sy) * (1 / L) := by nlinarith
  have ha3lt1 : (r.y - sy) * (1 / L) < 1 := by
    have hinv : L * (1 / L) = 1 := by field_simp
    nlinarith
  unfold lineAABBIntersect
  simp only [Vec2.subtract]
  rw [show sx - sx = (0 : ℚ) by ring, show sy + L - sy = L by ring]
  rw [if_pos rfl, if_neg (show ¬L = 0 by linarith)]
  rw [jmulFinFin (r.y - sy) (1 / L), jmulFinFin (r.y + r.height - sy) (1 / L),
    jminFinFin, jmaxFinFin]
  rw [jmulFinInf_neg (r.x - sx) (by linarith),
    jmulFinInf_pos (r.x + r.width - sx) (by linarith),
    jminNinfInf, jmaxNinfInf, jmaxNinfFin, jminInfFin]
  rw [min_eq_left ha3le]
  rw [jltFinFin, jltFinFin, jltFinFin, jltFinFin]
  rw [if_neg (show ¬(decide (Max.max ((r.y - sy) * (1 / L))
      ((r.y + r.height - sy) * (1 / L)) < 0) = true ∨
      decide (Max.max ((r.y - sy) * (1 / L))
      ((r.y + r.height - sy) * (1 / L)) < (r.y - sy) * (1 / L)) = true ∨
      decide (1 < (r.y - sy) * (1 / L)) = true) by
    simp only [decide_eq_true_eq, not_or, not_lt]
    refine ⟨?_, le_max_left _ _, le_of_lt ha3lt1⟩
    have := le_max_left ((r.y - sy) * (1 / L)) ((r.y + r.height - sy) * (1 / L))
    linarith)]
  rw [if_neg (show ¬(decide ((r.y - sy) * (1 / L) < 0) = true) by
    simp only [decide_eq_true_eq, not_lt]
    linarith)]
  rw [jltFinFin]
  rw [if_neg (show ¬(decide (1 < (r.y - sy) * (1 / L)) = true) by
    simp only [decide_eq_true_eq, not_lt]
    linarith)]
  exact ⟨_, rfl, rfl⟩

set_option maxHeartbeats 800000 in
/-- A solid entity strictly behind a northbound segment (its bottom edge
above the start) and straddling its line registers a hit at the entry-face
parameter `(r.y + r.height - sy) / L`. -/
theorem lineAABB_vert_hit_north (sx sy L : ℚ) (r : JRect) (hL : L < 0)
    (hxl : r.x < sx) (hxh : sx < r.x + r.width) (hh : 0 ≤ r.height)
    (hyl : r.y + r.height < sy) (hyu : L < r.y + r.height - sy) :
    ∃ hit : JHit, lineAABBIntersect ⟨sx, sy⟩ ⟨sx, sy + L⟩ r = some hit ∧
      hit.t = .fin ((r.y + r.height - sy) * (1 / L)) := by
  have h1L : 1 / L < 0 := by
    exact one_div_neg.mpr hL
  have ha4pos : 0 < (r.y + r.height - sy) * (1 / L) := by nlinarith
  have ha4le : (r.y + r.height - sy) * (1 / L) ≤ (r.y - sy) * (1 / L) := by nlinarith
  have ha4lt1 : (r.y + r.height - sy) * (1 / L) < 1 := by
    have hinv : L * (1 / L) = 1 := mul_one_div_cancel (ne_of_lt hL)
    nlinarith
  unfold lineAABBIntersect
  simp only [Vec2.subtract]
  rw [show sx - sx = (0 : ℚ) by ring, show sy + L - sy = L by ring]
  rw [if_pos rfl, if_neg (show ¬L = 0 by linarith)]
  rw [jmulFinFin (r.y - sy) (1 / L), jmulFinFin (r.y + r.height - sy) (1 / L),
    jminFinFin, jmaxFinFin]
  rw [jmulFinInf_neg (r.x - sx) (by linarith),
    jmulFinInf_pos (r.x + r.width - sx) (by linarith),
    jminNinfInf, jmaxNinfInf, jmaxNinfFin, jminInfFin]
  rw [min_eq_right ha4le, max_eq_left ha4le]
  rw [jltFinFin, jltFinFin, jltFinFin, jltFinFin]
  rw [if_neg (show ¬(decide ((r.y - sy) * (1 / L) < 0) = true ∨
      decide ((r.y - sy) * (1 / L) < (r.y + r.height - sy) * (1 / L)) = true ∨
      decide (1 < (r.y + r.height - sy) * (1 / L)) = true) by
    simp only [decide_eq_true_eq, not_or, not_lt]
    exact ⟨by linarith, ha4le, le_of_lt ha4lt1⟩)]
  rw [if_neg (show ¬(decide ((r.y + r.height - sy) * (1 / L) < 0) = true) by
    simp only [decide_eq_true_eq, not_lt]
    linarith)]
  rw [jltFinFin]
  rw [if_neg (show ¬(decide (1 < (r.y + r.height - sy) * (1 / L)) = true) by
    simp only [decide_eq_true_eq, not_lt]
    linarith)]
  exact ⟨_, rfl, rfl⟩

end Watt


namespace Watt

/-- The shape of every entity hit record produced along a vertical segment
`start → start + (0, L)`: a finite parameter `q ∈ [0, 1]` with the hit
point on the segment. -/
def hitShapeV (sx sy L : ℚ) (h : JHitEnt) : Prop :=
  ∃ q : ℚ, 0 ≤ q ∧ q ≤ 1 ∧ h.distance = .fin q ∧
    h.hit = { pointX := .fin sx, pointY := .fin (sy + L * q), t := .fin q }

theorem findEntityCollisions_shapeV (s : Vec2) (L : ℚ) (hL0 : L ≠ 0)
    (entities : List JEnt)
    (hgen : ∀ ent ∈ entities,
      ent.bounds.x ≠ s.x ∧ ent.bounds.x + ent.bounds.width ≠ s.x) :
    ∀ h ∈ findEntityCollisions s ⟨s.x, s.y + L⟩ entities,
      hitShapeV s.x s.y L h := by
  intro h hmem
  unfold findEntityCollisions at hmem
  dsimp only at hmem
  have hmem2 := (List.perm_insertionSort hitLE _).mem_iff.mp hmem
  rcases List.mem_filterMap.mp hmem2 with ⟨ent, hent, hfm⟩
  by_cases hva : ent.visible = true ∧ ent.active = true
  · rw [if_pos hva] at hfm
    rcases hli : lineAABBIntersect s ⟨s.x, s.y + L⟩ ent.bounds with _ | hit
    · rw [hli] at hfm
      exact absurd hfm (by simp)
    · rw [hli] at hfm
      have hfm2 : some ({ ent := ent, hit := hit, distance := hit.t } : JHitEnt)
          = some h := hfm
      rcases Option.some.inj hfm2 with rfl
      obtain ⟨hx1, hx2⟩ := hgen ent hent
      have hli2 : lineAABBIntersect ⟨s.x, s.y⟩ ⟨s.x, s.y + L⟩ ent.bounds
          = some hit := hli
      rcases lineAABB_vert s.x s.y L ent.bounds hL0 hx1 hx2 with
        hnone | ⟨q, hq0, hq1, heq⟩
      · rw [hli2] at hnone
        exact absurd hnone (by simp)
      · rw [hli2] at heq
        rcases Option.some.inj heq with rfl
        exact ⟨q, hq0, hq1, rfl, rfl⟩
  · rw [if_neg hva] at hfm
    exact absurd hfm (by simp)

theorem findEntityCollisions_sortedV (s : Vec2) (L : ℚ) (hL0 : L ≠ 0)
    (entities : List JEnt)
    (hgen : ∀ ent ∈ entities,
      ent.bounds.x ≠ s.x ∧ ent.bounds.x + ent.bounds.width ≠ s.x) :
    (findEntityCollisions s ⟨s.x, s.y + L⟩ entities).Sorted hitLE := by
  unfold findEntityCollisions
  dsimp only
  apply insertionSort_sorted_fin
  intro x hx
  have hx2 : x ∈ findEntityCollisions s ⟨s.x, s.y + L⟩ entities :=
    (List.perm_insertionSort hitLE _).mem_iff.mpr hx
  rcases findEntityCollisions_shapeV s L hL0 entities hgen x hx2 with
    ⟨q, _, _, hd, _⟩
  exact ⟨q, hd⟩

set_option maxHeartbeats 1000000 in
/-- Master characterization of `traceLaser` on the westbound unit ray:
mirror of the eastbound one, with the floor tile snap and west-facing
entity entry faces. -/
theorem traceLaser_west_master (s : Vec2) (entities : List JEnt)
    (pred : Vec2 → Bool)
    (hgen : ∀ ent ∈ entities,
      ent.bounds.y ≠ s.y ∧ ent.bounds.y + ent.bounds.height ≠ s.y ∧
      ent.bounds.x ≠ s.x ∧ ent.bounds.x + ent.bounds.width ≠ s.x) :
    ∃ L ex : ℚ, 0 ≤ L ∧ L ≤ 2056 ∧
      (traceLaser s ⟨-1, 0⟩ entities (some pred)).endPoint =
        (.fin ex, .fin s.y) ∧
      s.x - L ≤ ex ∧ ex ≤ s.x ∧
      ((∃ i : Nat, 1 ≤ i ∧ i ≤ 243 ∧ pred ⟨s.x - 8 * (i : ℚ), s.y⟩ = true) →
        L < 2000) ∧
      (∀ ent ∈ entities, entBlocks ent = true → ent.visible = true →
        ent.active = true → 0 ≤ ent.bounds.width →
        ent.bounds.x + ent.bounds.width < s.x →
        s.x - 2000 < ent.bounds.x + ent.bounds.width →
        ent.bounds.y < s.y → s.y < ent.bounds.y + ent.bounds.height →
        s.x - 2000 < ex) := by
  obtain ⟨L, hL0, hL2056, hdet, hstrict⟩ := wallEndPoint_west s pred
  have hdet2 : wallEndPoint s ⟨-1, 0⟩ (some pred) = ⟨s.x + -L, s.y⟩ := by
    rw [hdet]
    rw [Vec2.mk.injEq]
    exact ⟨by ring, rfl⟩
  have htr : (traceLaser s ⟨-1, 0⟩ entities (some pred)).endPoint =
      (entityWalk (JNum.fin ((wallEndPoint s ⟨-1, 0⟩ (some pred)).x),
                   JNum.fin ((wallEndPoint s ⟨-1, 0⟩ (some pred)).y))
        (findEntityCollisions s (wallEndPoint s ⟨-1, 0⟩ (some pred))
          entities)).1 := rfl
  rw [hdet2] at htr
  dsimp only at htr
  by_cases hLz : L = 0
  · subst hLz
    rw [show s.x + -(0 : ℚ) = s.x + 0 by ring] at htr
    rcases entityWalk_endpoint_cases (JNum.fin (s.x + 0), JNum.fin s.y)
        (findEntityCollisions s ⟨s.x + 0, s.y⟩ entities) with
      hcase | ⟨b, hbmem, _, _⟩
    · refine ⟨0, s.x + 0, le_refl 0, by norm_num, by rw [htr, hcase],
        by linarith, by linarith, fun _ => by norm_num, ?_⟩
      intro ent _ _ _ _ _ _ hxu _ _
      linarith
    · exact (findEntityCollisions_degenerate s entities hgen b hbmem).elim
  · have hLpos : 0 < L := lt_of_le_of_ne hL0 (Ne.symm hLz)
    have hMz : (-L) ≠ 0 := by
      intro h
      exact hLz (by linarith)
    have hgenY : ∀ ent ∈ entities,
        ent.bounds.y ≠ s.y ∧ ent.bounds.y + ent.bounds.height ≠ s.y :=
      fun ent h => ⟨(hgen ent h).1, (hgen ent h).2.1⟩
    have hshape := findEntityCollisions_shape s (-L) hMz entities hgenY
    have hex : ∃ ex : ℚ,
        (traceLaser s ⟨-1, 0⟩ entities (some pred)).endPoint =
          (.fin ex, .fin s.y) ∧ s.x - L ≤ ex ∧ ex ≤ s.x := by
      rcases entityWalk_endpoint_cases (JNum.fin (s.x + -L), JNum.fin s.y)
          (findEntityCollisions s ⟨s.x + -L, s.y⟩ entities) with
        hcase | ⟨b, hbmem, _, hbe⟩
      · exact ⟨s.x + -L, by rw [htr, hcase], by linarith, by linarith⟩
      · obtain ⟨qb, hqb0, hqb1, _, hbhit⟩ := hshape b hbmem
        refine ⟨s.x + -L * qb, ?_, by nlinarith, by nlinarith⟩
        rw [htr, hbe, hbhit]
    obtain ⟨ex, hend, hex1, hex2⟩ := hex
    refine ⟨L, ex, hL0, hL2056, hend, hex1, hex2, hstrict, ?_⟩
    intro ent hent hblocks hvis hact hw hxl hxu hyl hyh
    by_cases hcase2 : -L < ent.bounds.x + ent.bounds.width - s.x
    · obtain ⟨hit, hli, hlit⟩ :=
        lineAABB_horiz_hit_west s.x s.y (-L) ent.bounds (by linarith) hyl hyh
          hw hxl hcase2
      have hli2 : lineAABBIntersect s ⟨s.x + -L, s.y⟩ ent.bounds
          = some hit := hli
      have hmem := findEntityCollisions_mem s ⟨s.x + -L, s.y⟩ entities ent
        hent hvis hact hit hli2
      have hbl : blocksRay { ent := ent, hit := hit, distance := hit.t }
          = true := by
        rw [blocksRay_mk]
        exact hblocks
      obtain ⟨pre, b0, post, hsplit, hpreb, hb0b⟩ :=
        exists_first_blocker _ ⟨_, hmem, hbl⟩
      have hwalk := entityWalk_first_blocker
        (JNum.fin (s.x + -L), JNum.fin s.y) pre b0 post hpreb hb0b
      rw [← hsplit] at hwalk
      have hb0mem : b0 ∈ findEntityCollisions s ⟨s.x + -L, s.y⟩ entities := by
        rw [hsplit]
        exact List.mem_append.mpr (Or.inr (by simp))
      obtain ⟨qb, hqb0, hqb1, hbd, hbhit⟩ := hshape b0 hb0mem
      have hchain : (JNum.fin ex, JNum.fin s.y) =
          (b0.hit.pointX, b0.hit.pointY) := by
        calc (JNum.fin ex, JNum.fin s.y)
            = (traceLaser s ⟨-1, 0⟩ entities (some pred)).endPoint := hend.symm
          _ = _ := by rw [htr, hwalk]
      have hpx : JNum.fin ex = b0.hit.pointX := congrArg Prod.fst hchain
      rw [hbhit] at hpx
      have hexval : ex = s.x + -L * qb := JNum.fin.inj hpx
      have hLa2 : -L * ((ent.bounds.x + ent.bounds.width - s.x) * (1 / -L)) =
          ent.bounds.x + ent.bounds.width - s.x := by
        field_simp
      have hqba2 : qb ≤ (ent.bounds.x + ent.bounds.width - s.x) * (1 / -L) := by
        have hoursmem := hmem
        rw [hsplit] at hoursmem
        rcases List.mem_append.mp hoursmem with hpre | hrest
        · have hc := hpreb _ hpre
          rw [hbl] at hc
          exact absurd hc (by simp)
        · rcases List.mem_cons.mp hrest with heq | hpost
          · have hbd2 : b0.distance = hit.t := by rw [← heq]
            rw [hbd, hlit] at hbd2
            rw [JNum.fin.inj hbd2]
          · have hsorted := findEntityCollisions_sorted s (-L) hMz entities hgenY
            rw [hsplit] at hsorted
            have hb0le : hitLE b0
                ({ ent := ent, hit := hit, distance := hit.t } : JHitEnt) := by
              have hsorted2 : List.Pairwise hitLE (pre ++ b0 :: post) := hsorted
              have h1 := (List.pairwise_append.mp hsorted2).2.1
              exact (List.pairwise_cons.mp h1).1 _ hpost
            unfold hitLE at hb0le
            rw [hbd] at hb0le
            have hb0le2 : JNum.lt hit.t (JNum.fin qb) = false := hb0le
            rw [hlit, jltFinFin, decide_eq_false_iff_not, not_lt] at hb0le2
            exact hb0le2
      nlinarith [mul_nonneg (le_of_lt hLpos) (sub_nonneg.mpr hqba2)]
    · push_neg at hcase2
      linarith

set_option maxHeartbeats 1000000 in
/-- Master characterization of `traceLaser` on the southbound unit ray:
mirror of the eastbound one on the y axis. -/
theorem traceLaser_south_master (s : Vec2) (entities : List JEnt)
    (pred : Vec2 → Bool)
    (hgen : ∀ ent ∈ entities,
      ent.bounds.y ≠ s.y ∧ ent.bounds.y + ent.bounds.height ≠ s.y ∧
      ent.bounds.x ≠ s.x ∧ ent.bounds.x + ent.bounds.width ≠ s.x) :
    ∃ L ey : ℚ, 0 ≤ L ∧ L ≤ 2056 ∧
      (traceLaser s ⟨0, 1⟩ entities (some pred)).endPoint =
        (.fin s.x, .fin ey) ∧
      s.y ≤ ey ∧ ey ≤ s.y + L ∧
      ((∃ i : Nat, 1 ≤ i ∧ i ≤ 243 ∧ pred ⟨s.x, s.y + 8 * (i : ℚ)⟩ = true) →
        L < 2000) ∧
      (∀ ent ∈ entities, entBlocks ent = true → ent.visible = true →
        ent.active = true → 0 ≤ ent.bounds.height → s.y < ent.bounds.y →
        ent.bounds.y < s.y + 2000 → ent.bounds.x < s.x →
        s.x < ent.bounds.x + ent.bounds.width → ey < s.y + 2000) := by
  obtain ⟨L, hL0, hL2056, hdet, hstrict⟩ := wallEndPoint_south s pred
  have htr : (traceLaser s ⟨0, 1⟩ entities (some pred)).endPoint =
      (entityWalk (JNum.fin ((wallEndPoint s ⟨0, 1⟩ (some pred)).x),
                   JNum.fin ((wallEndPoint s ⟨0, 1⟩ (some pred)).y))
        (findEntityCollisions s (wallEndPoint s ⟨0, 1⟩ (some pred))
          entities)).1 := rfl
  rw [hdet] at htr
  dsimp only at htr
  by_cases hLz : L = 0
  · subst hLz
    rw [show (⟨s.x, s.y + (0 : ℚ)⟩ : Vec2) = ⟨s.x + 0, s.y⟩ from by
      rw [Vec2.mk.injEq]
      constructor <;> ring] at htr
    rcases entityWalk_endpoint_cases (JNum.fin s.x, JNum.fin (s.y + 0))
        (findEntityCollisions s ⟨s.x + 0, s.y⟩ entities) with
      hcase | ⟨b, hbmem, _, _⟩
    · refine ⟨0, s.y + 0, le_refl 0, by norm_num, by rw [htr, hcase],
        by linarith, by linarith, fun _ => by norm_num, ?_⟩
      intro ent _ _ _ _ _ _ hyu _ _
      linarith
    · exact (findEntityCollisions_degenerate s entities hgen b hbmem).elim
  · have hLpos : 0 < L := lt_of_le_of_ne hL0 (Ne.symm hLz)
    have hgenX : ∀ ent ∈ entities,
        ent.bounds.x ≠ s.x ∧ ent.bounds.x + ent.bounds.width ≠ s.x :=
      fun ent h => ⟨(hgen ent h).2.2.1, (hgen ent h).2.2.2⟩
    have hshape := findEntityCollisions_shapeV s L hLz entities hgenX
    have hex : ∃ ey : ℚ,
        (traceLaser s ⟨0, 1⟩ entities (some pred)).endPoint =
          (.fin s.x, .fin ey) ∧ s.y ≤ ey ∧ ey ≤ s.y + L := by
      rcases entityWalk_endpoint_cases (JNum.fin s.x, JNum.fin (s.y + L))
          (findEntityCollisions s ⟨s.x, s.y + L⟩ entities) with
        hcase | ⟨b, hbmem, _, hbe⟩
      · exact ⟨s.y + L, by rw [htr, hcase], by linarith, le_refl _⟩
      · obtain ⟨qb, hqb0, hqb1, _, hbhit⟩ := hshape b hbmem
        refine ⟨s.y + L * qb, ?_, by nlinarith, by nlinarith⟩
        rw [htr, hbe, hbhit]
    obtain ⟨ey, hend, hey1, hey2⟩ := hex
    refine ⟨L, ey, hL0, hL2056, hend, hey1, hey2, hstrict, ?_⟩
    intro ent hent hblocks hvis hact hh hyl hyu hxl hxh
    by_cases hcase2 : ent.bounds.y - s.y < L
    · obtain ⟨hit, hli, hlit⟩ :=
        lineAABB_vert_hit s.x s.y L ent.bounds hLpos hxl hxh hh hyl hcase2
      have hli2 : lineAABBIntersect s ⟨s.x, s.y + L⟩ ent.bounds
          = some hit := hli
      have hmem := findEntityCollisions_mem s ⟨s.x, s.y + L⟩ entities ent
        hent hvis hact hit hli2
      have hbl : blocksRay { ent := ent, hit := hit, distance := hit.t }
          = true := by
        rw [blocksRay_mk]
        exact hblocks
      obtain ⟨pre, b0, post, hsplit, hpreb, hb0b⟩ :=
        exists_first_blocker _ ⟨_, hmem, hbl⟩
      have hwalk := entityWalk_first_blocker
        (JNum.fin s.x, JNum.fin (s.y + L)) pre b0 post hpreb hb0b
      rw [← hsplit] at hwalk
      have hb0mem : b0 ∈ findEntityCollisions s ⟨s.x, s.y + L⟩ entities := by
        rw [hsplit]
        exact List.mem_append.mpr (Or.inr (by simp))
      obtain ⟨qb, hqb0, hqb1, hbd, hbhit⟩ := hshape b0 hb0mem
      have hchain : (JNum.fin s.x, JNum.fin ey) =
          (b0.hit.pointX, b0.hit.pointY) := by
        calc (JNum.fin s.x, JNum.fin ey)
            = (traceLaser s ⟨0, 1⟩ entities (some pred)).endPoint := hend.symm
          _ = _ := by rw [htr, hwalk]
      have hpy : JNum.fin ey = b0.hit.pointY := congrArg Prod.snd hchain
      rw [hbhit] at hpy
      have heyval : ey = s.y + L * qb := JNum.fin.inj hpy
      have hLa3 : L * ((ent.bounds.y - s.y) * (1 / L)) = ent.bounds.y - s.y := by
        field_simp
      have hqba3 : qb ≤ (ent.bounds.y - s.y) * (1 / L) := by
        have hoursmem := hmem
        rw [hsplit] at hoursmem
        rcases List.mem_append.mp hoursmem with hpre | hrest
        · have hc := hpreb _ hpre
          rw [hbl] at hc
          exact absurd hc (by simp)
        · rcases List.mem_cons.mp hrest with heq | hpost
          · have hbd2 : b0.distance = hit.t := by rw [← heq]
            rw [hbd, hlit] at hbd2
            rw [JNum.fin.inj hbd2]
          · have hsorted := findEntityCollisions_sortedV s L hLz entities hgenX
            rw [hsplit] at hsorted
            have hb0le : hitLE b0
                ({ ent := ent, hit := hit, distance := hit.t } : JHitEnt) := by
              have hsorted2 : List.Pairwise hitLE (pre ++ b0 :: post) := hsorted
              have h1 := (List.pairwise_append.mp hsorted2).2.1
              exact (List.pairwise_cons.mp h1).1 _ hpost
            unfold hitLE at hb0le
            rw [hbd] at hb0le
            have hb0le2 : JNum.lt hit.t (JNum.fin qb) = false := hb0le
            rw [hlit, jltFinFin, decide_eq_false_iff_not, not_lt] at hb0le2
            exact hb0le2
      nlinarith
    · push_neg at hcase2
      linarith

set_option maxHeartbeats 1000000 in
/-- Master characterization of `traceLaser` on the northbound unit ray:
mirror of the westbound one on the y axis. -/
theorem traceLaser_north_master (s : Vec2) (entities : List JEnt)
    (pred : Vec2 → Bool)
    (hgen : ∀ ent ∈ entities,
      ent.bounds.y ≠ s.y ∧ ent.bounds.y + ent.bounds.height ≠ s.y ∧
      ent.bounds.x ≠ s.x ∧ ent.bounds.x + ent.bounds.width ≠ s.x) :
    ∃ L ey : ℚ, 0 ≤ L ∧ L ≤ 2056 ∧
      (traceLaser s ⟨0, -1⟩ entities (some pred)).endPoint =
        (.fin s.x, .fin ey) ∧
      s.y - L ≤ ey ∧ ey ≤ s.y ∧
      ((∃ i : Nat, 1 ≤ i ∧ i ≤ 243 ∧ pred ⟨s.x, s.y - 8 * (i : ℚ)⟩ = true) →
        L < 2000) ∧
      (∀ ent ∈ entities, entBlocks ent = true → ent.visible = true →
        ent.active = true → 0 ≤ ent.bounds.height →
        ent.bounds.y + ent.bounds.height < s.y →
        s.y - 2000 < ent.bounds.y + ent.bounds.height →
        ent.bounds.x < s.x → s.x < ent.bounds.x + ent.bounds.width →
        s.y - 2000 < ey) := by
  obtain ⟨L, hL0, hL2056, hdet, hstrict⟩ := wallEndPoint_north s pred
  have hdet2 : wallEndPoint s ⟨0, -1⟩ (some pred) = ⟨s.x, s.y + -L⟩ := by
    rw [hdet]
    rw [Vec2.mk.injEq]
    exact ⟨rfl, by ring⟩
  have htr : (traceLaser s ⟨0, -1⟩ entities (some pred)).endPoint =
      (entityWalk (JNum.fin ((wallEndPoint s ⟨0, -1⟩ (some pred)).x),
                   JNum.fin ((wallEndPoint s ⟨0, -1⟩ (some pred)).y))
        (findEntityCollisions s (wallEndPoint s ⟨0, -1⟩ (some pred))
          entities)).1 := rfl
  rw [hdet2] at htr
  dsimp only at htr
  by_cases hLz : L = 0
  · subst hLz
    rw [show (⟨s.x, s.y + -(0 : ℚ)⟩ : Vec2) = ⟨s.x + 0, s.y⟩ from by
      rw [Vec2.mk.injEq]
      constructor <;> ring] at htr
    rw [show s.y + -(0 : ℚ) = s.y + 0 by ring] at htr
    rcases entityWalk_endpoint_cases (JNum.fin s.x, JNum.fin (s.y + 0))
        (findEntityCollisions s ⟨s.x + 0, s.y⟩ entities) with
      hcase | ⟨b, hbmem, _, _⟩
    · refine ⟨0, s.y + 0, le_refl 0, by norm_num, by rw [htr, hcase],
        by linarith, by linarith, fun _ => by norm_num, ?_⟩
      intro ent _ _ _ _ _ _ hyu _ _
      linarith
    · exact (findEntityCollisions_degenerate s entities hgen b hbmem).elim
  · have hLpos : 0 < L := lt_of_le_of_ne hL0 (Ne.symm hLz)
    have hMz : (-L) ≠ 0 := by
      intro h
      exact hLz (by linarith)
    have hgenX : ∀ ent ∈ entities,
        ent.bounds.x ≠ s.x ∧ ent.bounds.x + ent.bounds.width ≠ s.x :=
      fun ent h => ⟨(hgen ent h).2.2.1, (hgen ent h).2.2.2⟩
    have hshape := findEntityCollisions_shapeV s (-L) hMz entities hgenX
    have hex : ∃ ey : ℚ,
        (traceLaser s ⟨0, -1⟩ entities (some pred)).endPoint =
          (.fin s.x, .fin ey) ∧ s.y - L ≤ ey ∧ ey ≤ s.y := by
      rcases entityWalk_endpoint_cases (JNum.fin s.x, JNum.fin (s.y + -L))
          (findEntityCollisions s ⟨s.x, s.y + -L⟩ entities) with
        hcase | ⟨b, hbmem, _, hbe⟩
      · exact ⟨s.y + -L, by rw [htr, hcase], by linarith, by linarith⟩
      · obtain ⟨qb, hqb0, hqb1, _, hbhit⟩ := hshape b hbmem
        refine ⟨s.y + -L * qb, ?_, by nlinarith, by nlinarith⟩
        rw [htr, hbe, hbhit]
    obtain ⟨ey, hend, hey1, hey2⟩ := hex
    refine ⟨L, ey, hL0, hL2056, hend, hey1, hey2, hstrict, ?_⟩
    intro ent hent hblocks hvis hact hh hyl hyu hxl hxh
    by_cases hcase2 : -L < ent.bounds.y + ent.bounds.height - s.y
    · obtain ⟨hit, hli, hlit⟩ :=
        lineAABB_vert_hit_north s.x s.y (-L) ent.bounds (by linarith) hxl hxh
          hh hyl hcase2
      have hli2 : lineAABBIntersect s ⟨s.x, s.y + -L⟩ ent.bounds
          = some hit := hli
      have hmem := findEntityCollisions_mem s ⟨s.x, s.y + -L⟩ entities ent
        hent hvis hact hit hli2
      have hbl : blocksRay { ent := ent, hit := hit, distance := hit.t }
          = true := by
        rw [blocksRay_mk]
        exact hblocks
      obtain ⟨pre, b0, post, hsplit, hpreb, hb0b⟩ :=
        exists_first_blocker _ ⟨_, hmem, hbl⟩
      have hwalk := entityWalk_first_blocker
        (JNum.fin s.x, JNum.fin (s.y + -L)) pre b0 post hpreb hb0b
      rw [← hsplit] at hwalk
      have hb0mem : b0 ∈ findEntityCollisions s ⟨s.x, s.y + -L⟩ entities := by
        rw [hsplit]
        exact List.mem_append.mpr (Or.inr (by simp))
      obtain ⟨qb, hqb0, hqb1, hbd, hbhit⟩ := hshape b0 hb0mem
      have hchain : (JNum.fin s.x, JNum.fin ey) =
          (b0.hit.pointX, b0.hit.pointY) := by
        calc (JNum.fin s.x, JNum.fin ey)
            = (traceLaser s ⟨0, -1⟩ entities (some pred)).endPoint := hend.symm
          _ = _ := by rw [htr, hwalk]
      have hpy : JNum.fin ey = b0.hit.pointY := congrArg Prod.snd hchain
      rw [hbhit] at hpy
      have heyval : ey = s.y + -L * qb := JNum.fin.inj hpy
      have hLa4 : -L * ((ent.bounds.y + ent.bounds.height - s.y) * (1 / -L)) =
          ent.bounds.y + ent.bounds.height - s.y := by
        field_simp
      have hqba4 : qb ≤ (ent.bounds.y + ent.bounds.height - s.y) * (1 / -L) := by
        have hoursmem := hmem
        rw [hsplit] at hoursmem
        rcases List.mem_append.mp hoursmem with hpre | hrest
        · have hc := hpreb _ hpre
          rw [hbl] at hc
          exact absurd hc (by simp)
        · rcases List.mem_cons.mp hrest with heq | hpost
          · have hbd2 : b0.distance = hit.t := by rw [← heq]
            rw [hbd, hlit] at hbd2
            rw [JNum.fin.inj hbd2]
          · have hsorted := findEntityCollisions_sortedV s (-L) hMz entities hgenX
            rw [hsplit] at hsorted
            have hb0le : hitLE b0
                ({ ent := ent, hit := hit, distance := hit.t } : JHitEnt) := by
              have hsorted2 : List.Pairwise hitLE (pre ++ b0 :: post) := hsorted
              have h1 := (List.pairwise_append.mp hsorted2).2.1
              exact (List.pairwise_cons.mp h1).1 _ hpost
            unfold hitLE at hb0le
            rw [hbd] at hb0le
            have hb0le2 : JNum.lt hit.t (JNum.fin qb) = false := hb0le
            rw [hlit, jltFinFin, decide_eq_false_iff_not, not_lt] at hb0le2
            exact hb0le2
      nlinarith [mul_nonneg (le_of_lt hLpos) (sub_nonneg.mpr hqba4)]
    · push_neg at hcase2
      linarith

end Watt


namespace Watt

theorem find?_range'_eq_some (f : Nat → Bool) :
    ∀ (n a i : Nat), a ≤ i → i < a + n → f i = true →
    (∀ j, a ≤ j → j < i → f j = false) →
    (List.range' a n).find? f = some i := by
  intro n
  induction n with
  | zero =>
    intro a i h1 h2 _ _
    exact absurd h2 (by omega)
  | succ n ih =>
    intro a i h1 h2 h3 h4
    rw [List.range'_succ]
    by_cases hia : i = a
    · subst hia
      rw [List.find?_cons_of_pos _ h3]
    · have hfa : f a = false := h4 a (le_refl a) (by omega)
      rw [List.find?_cons_of_neg _ (by rw [hfa]; exact Bool.false_ne_true)]
      exact ih (a + 1) i (by omega) (by omega) h3
        (fun j hj1 hj2 => h4 j (by omega) hj2)

/-- A wall predicate whose wall starts exactly at `x = 2000`. -/
def wallAt2000 : Vec2 → Bool := fun p => decide (p.x ≥ 2000)

theorem wallEndPoint_counter :
    wallEndPoint ⟨0, 0⟩ ⟨1, 0⟩ (some wallAt2000) = ⟨2048, 0⟩ := by
  have hfun : (fun i : Nat =>
      wallAt2000 ((⟨0, 0⟩ : Vec2).add
        (((Vec2.multiply ⟨1, 0⟩ 8)).multiply (i : ℚ)))) =
      fun i : Nat => decide ((2000 : ℚ) ≤ 8 * (i : ℚ)) := by
    funext i
    unfold wallAt2000
    simp only [Vec2.add, Vec2.multiply]
    exact decide_eq_decide.mpr (by constructor <;> intro h <;> linarith)
  have hsteps : ((⌊(2000 : ℚ) / 8⌋ : ℤ)).toNat = 250 := by
    rw [show ⌊(2000 : ℚ) / 8⌋ = (250 : ℤ) by norm_num]
    rfl
  unfold wallEndPoint checkWallCollision
  dsimp only
  rw [hsteps, hfun]
  rw [find?_range'_eq_some _ 250 1 250 (by omega) (by omega)
    (by
      simp only [decide_eq_true_eq]
      push_cast
      norm_num)
    (by
      intro j h1 h2
      simp only [decide_eq_false_iff_not, not_le]
      have hj : (j : ℚ) ≤ 249 := by exact_mod_cast (by omega : j ≤ 249)
      linarith)]
  dsimp only
  rw [show (⟨0, 0⟩ : Vec2).add ((Vec2.multiply ⟨1, 0⟩ 8).multiply
      (((250 : Nat) : ℚ) - 1)) = (⟨1992, 0⟩ : Vec2) by
    simp only [Vec2.add, Vec2.multiply]
    rw [Vec2.mk.injEq]
    norm_num]
  rw [snap_east]
  rw [Vec2.mk.injEq]
  refine ⟨?_, rfl⟩
  rw [show ⌈(1992 : ℚ) / 64⌉ = (32 : ℤ) by norm_num [Int.ceil_eq_iff]]
  norm_num

/-- C4 (counterexample): tracing east from the origin with a wall starting
exactly at `x = 2000` and no entities, the returned end point is
`(2048, 0)` — farther from the start than `maxDistance = 2000` (the last
sample before the wall, at 1992 px, is snapped *up* to the next 64-px tile
boundary, overshooting both the wall and the maximum range). -/
theorem laser_truncation_counterexample :
    (traceLaser ⟨0, 0⟩ ⟨1, 0⟩ [] (some wallAt2000)).endPoint =
      (.fin 2048, .fin 0) ∧
    Vec2.distSq ⟨0, 0⟩ ⟨2048, 0⟩ > 2000 ^ 2 := by
  constructor
  · have htr : (traceLaser ⟨0, 0⟩ ⟨1, 0⟩ [] (some wallAt2000)).endPoint =
        (entityWalk
          (JNum.fin ((wallEndPoint ⟨0, 0⟩ ⟨1, 0⟩ (some wallAt2000)).x),
           JNum.fin ((wallEndPoint ⟨0, 0⟩ ⟨1, 0⟩ (some wallAt2000)).y))
          (findEntityCollisions ⟨0, 0⟩
            (wallEndPoint ⟨0, 0⟩ ⟨1, 0⟩ (some wallAt2000)) [])).1 := rfl
    rw [wallEndPoint_counter] at htr
    rw [htr]
    rfl
  · simp only [Vec2.distSq]
    norm_num

set_option maxHeartbeats 400000 in
/-- C4 (amended): for every unit direction the game produces (the four
cardinal vectors east/west/south/north of `DIRECTIONS`), with entities in
generic position (no bound edge passing exactly through the start's row or
column), the traced end point stays on the ray with squared distance at
most `2056²` from the start — not `2000²`: the tile snap (`Math.ceil`
ahead of a positive component, `Math.floor` ahead of a negative one) can
overshoot `maxDistance` by up to 56 px — and the distance is strictly
below `maxDistance` whenever the wall callback fires at one of the first
243 8-px samples of that ray (not merely somewhere on the ray: the 8-px
sampling can miss thin walls, and samples 244–250 can snap past 2000), or
some blocking visible entity sits strictly ahead of the start within
2000 px. -/
theorem laser_truncation_amended (s : Vec2) (entities : List JEnt)
    (pred : Vec2 → Bool)
    (hgen : ∀ ent ∈ entities,
      ent.bounds.y ≠ s.y ∧ ent.bounds.y + ent.bounds.height ≠ s.y ∧
      ent.bounds.x ≠ s.x ∧ ent.bounds.x + ent.bounds.width ≠ s.x) :
    (∃ ex : ℚ,
      (traceLaser s ⟨1, 0⟩ entities (some pred)).endPoint =
        (.fin ex, .fin s.y) ∧
      s.x ≤ ex ∧ Vec2.distSq s ⟨ex, s.y⟩ ≤ 2056 ^ 2 ∧
      ((∃ i : Nat, 1 ≤ i ∧ i ≤ 243 ∧ pred ⟨s.x + 8 * (i : ℚ), s.y⟩ = true) →
        Vec2.distSq s ⟨ex, s.y⟩ < 2000 ^ 2) ∧
      ((∃ ent ∈ entities, entBlocks ent = true ∧ ent.visible = true ∧
        ent.active = true ∧ 0 ≤ ent.bounds.width ∧ s.x < ent.bounds.x ∧
        ent.bounds.x < s.x + 2000 ∧ ent.bounds.y < s.y ∧
        s.y < ent.bounds.y + ent.bounds.height) →
        Vec2.distSq s ⟨ex, s.y⟩ < 2000 ^ 2)) ∧
    (∃ ex : ℚ,
      (traceLaser s ⟨-1, 0⟩ entities (some pred)).endPoint =
        (.fin ex, .fin s.y) ∧
      ex ≤ s.x ∧ Vec2.distSq s ⟨ex, s.y⟩ ≤ 2056 ^ 2 ∧
      ((∃ i : Nat, 1 ≤ i ∧ i ≤ 243 ∧ pred ⟨s.x - 8 * (i : ℚ), s.y⟩ = true) →
        Vec2.distSq s ⟨ex, s.y⟩ < 2000 ^ 2) ∧
      ((∃ ent ∈ entities, entBlocks ent = true ∧ ent.visible = true ∧
        ent.active = true ∧ 0 ≤ ent.bounds.width ∧
        ent.bounds.x + ent.bounds.width < s.x ∧
        s.x - 2000 < ent.bounds.x + ent.bounds.width ∧ ent.bounds.y < s.y ∧
        s.y < ent.bounds.y + ent.bounds.height) →
        Vec2.distSq s ⟨ex, s.y⟩ < 2000 ^ 2)) ∧
    (∃ ey : ℚ,
      (traceLaser s ⟨0, 1⟩ entities (some pred)).endPoint =
        (.fin s.x, .fin ey) ∧
      s.y ≤ ey ∧ Vec2.distSq s ⟨s.x, ey⟩ ≤ 2056 ^ 2 ∧
      ((∃ i : Nat, 1 ≤ i ∧ i ≤ 243 ∧ pred ⟨s.x, s.y + 8 * (i : ℚ)⟩ = true) →
        Vec2.distSq s ⟨s.x, ey⟩ < 2000 ^ 2) ∧
      ((∃ ent ∈ entities, entBlocks ent = true ∧ ent.visible = true ∧
        ent.active = true ∧ 0 ≤ ent.bounds.height ∧ s.y < ent.bounds.y ∧
        ent.bounds.y < s.y + 2000 ∧ ent.bounds.x < s.x ∧
        s.x < ent.bounds.x + ent.bounds.width) →
        Vec2.distSq s ⟨s.x, ey⟩ < 2000 ^ 2)) ∧
    (∃ ey : ℚ,
      (traceLaser s ⟨0, -1⟩ entities (some pred)).endPoint =
        (.fin s.x, .fin ey) ∧
      ey ≤ s.y ∧ Vec2.distSq s ⟨s.x, ey⟩ ≤ 2056 ^ 2 ∧
      ((∃ i : Nat, 1 ≤ i ∧ i ≤ 243 ∧ pred ⟨s.x, s.y - 8 * (i : ℚ)⟩ = true) →
        Vec2.distSq s ⟨s.x, ey⟩ < 2000 ^ 2) ∧
      ((∃ ent ∈ entities, entBlocks ent = true ∧ ent.visible = true ∧
        ent.active = true ∧ 0 ≤ ent.bounds.height ∧
        ent.bounds.y + ent.bounds.height < s.y ∧
        s.y - 2000 < ent.bounds.y + ent.bounds.height ∧ ent.bounds.x < s.x ∧
        s.x < ent.bounds.x + ent.bounds.width) →
        Vec2.distSq s ⟨s.x, ey⟩ < 2000 ^ 2)) := by
  refine ⟨?_, ?_, ?_, ?_⟩
  · obtain ⟨L, ex, h0, h2056, hend, hx1, hx2, hstrict, hentcl⟩ :=
      traceLaser_east_master s entities pred hgen
    have hdist : Vec2.distSq s ⟨ex, s.y⟩ = (s.x - ex) ^ 2 := by
      simp [Vec2.distSq]
    have hd0 : 0 ≤ ex - s.x := by linarith
    refine ⟨ex, hend, hx1, ?_, ?_, ?_⟩
    · rw [hdist]
      have hd1 : ex - s.x ≤ 2056 := by linarith
      nlinarith
    · intro hw
      rw [hdist]
      have hL2000 := hstrict hw
      have hd1 : ex - s.x < 2000 := by linarith
      nlinarith
    · rintro ⟨ent, hment, hb, hv, ha, hw, hxl, hxu, hyl, hyh⟩
      rw [hdist]
      have := hentcl ent hment hb hv ha hw hxl hxu hyl hyh
      have hd1 : ex - s.x < 2000 := by linarith
      nlinarith
  · obtain ⟨L, ex, h0, h2056, hend, hx1, hx2, hstrict, hentcl⟩ :=
      traceLaser_west_master s entities pred hgen
    have hdist : Vec2.distSq s ⟨ex, s.y⟩ = (s.x - ex) ^ 2 := by
      simp [Vec2.distSq]
    have hd0 : 0 ≤ s.x - ex := by linarith
    refine ⟨ex, hend, hx2, ?_, ?_, ?_⟩
    · rw [hdist]
      have hd1 : s.x - ex ≤ 2056 := by linarith
      nlinarith
    · intro hw
      rw [hdist]
      have hL2000 := hstrict hw
      have hd1 : s.x - ex < 2000 := by linarith
      nlinarith
    · rintro ⟨ent, hment, hb, hv, ha, hw, hxl, hxu, hyl, hyh⟩
      rw [hdist]
      have := hentcl ent hment hb hv ha hw hxl hxu hyl hyh
      have hd1 : s.x - ex < 2000 := by linarith
      nlinarith
  · obtain ⟨L, ey, h0, h2056, hend, hy1, hy2, hstrict, hentcl⟩ :=
      traceLaser_south_master s entities pred hgen
    have hdist : Vec2.distSq s ⟨s.x, ey⟩ = (s.y - ey) ^ 2 := by
      simp [Vec2.distSq]
    have hd0 : 0 ≤ ey - s.y := by linarith
    refine ⟨ey, hend, hy1, ?_, ?_, ?_⟩
    · rw [hdist]
      have hd1 : ey - s.y ≤ 2056 := by linarith
      nlinarith
    · intro hw
      rw [hdist]
      have hL2000 := hstrict hw
      have hd1 : ey - s.y < 2000 := by linarith
      nlinarith
    · rintro ⟨ent, hment, hb, hv, ha, hh, hyl, hyu, hxl, hxh⟩
      rw [hdist]
      have := hentcl ent hment hb hv ha hh hyl hyu hxl hxh
      have hd1 : ey - s.y < 2000 := by linarith
      nlinarith
  · obtain ⟨L, ey, h0, h2056, hend, hy1, hy2, hstrict, hentcl⟩ :=
      traceLaser_north_master s entities pred hgen
    have hdist : Vec2.distSq s ⟨s.x, ey⟩ = (s.y - ey) ^ 2 := by
      simp [Vec2.distSq]
    have hd0 : 0 ≤ s.y - ey := by linarith
    refine ⟨ey, hend, hy2, ?_, ?_, ?_⟩
    · rw [hdist]
      have hd1 : s.y - ey ≤ 2056 := by linarith
      nlinarith
    · intro hw
      rw [hdist]
      have hL2000 := hstrict hw
      have hd1 : s.y - ey < 2000 := by linarith
      nlinarith
    · rintro ⟨ent, hment, hb, hv, ha, hh, hyl, hyu, hxl, hxh⟩
      rw [hdist]
      have := hentcl ent hment hb hv ha hh hyl hyu hxl hxh
      have hd1 : s.y - ey < 2000 := by linarith
      nlinarith

/-- C4 witness: the amended theorem at the origin with no entities and the
`x ≥ 2000` wall predicate, covering all four cardinal directions. -/
theorem laser_truncation_amended_witness :
    (∃ ex : ℚ,
      (traceLaser ⟨0, 0⟩ ⟨1, 0⟩ [] (some wallAt2000)).endPoint =
        (.fin ex, .fin (0 : ℚ)) ∧
      (0 : ℚ) ≤ ex ∧ Vec2.distSq ⟨0, 0⟩ ⟨ex, 0⟩ ≤ 2056 ^ 2 ∧
      ((∃ i : Nat, 1 ≤ i ∧ i ≤ 243 ∧
          wallAt2000 ⟨0 + 8 * (i : ℚ), 0⟩ = true) →
        Vec2.distSq ⟨0, 0⟩ ⟨ex, 0⟩ < 2000 ^ 2) ∧
      ((∃ ent ∈ ([] : List JEnt), entBlocks ent = true ∧ ent.visible = true ∧
        ent.active = true ∧ 0 ≤ ent.bounds.width ∧ (0 : ℚ) < ent.bounds.x ∧
        ent.bounds.x < 0 + 2000 ∧ ent.bounds.y < 0 ∧
        (0 : ℚ) < ent.bounds.y + ent.bounds.height) →
        Vec2.distSq ⟨0, 0⟩ ⟨ex, 0⟩ < 2000 ^ 2)) ∧
    (∃ ex : ℚ,
      (traceLaser ⟨0, 0⟩ ⟨-1, 0⟩ [] (some wallAt2000)).endPoint =
        (.fin ex, .fin (0 : ℚ)) ∧
      ex ≤ (0 : ℚ) ∧ Vec2.distSq ⟨0, 0⟩ ⟨ex, 0⟩ ≤ 2056 ^ 2 ∧
      ((∃ i : Nat, 1 ≤ i ∧ i ≤ 243 ∧
          wallAt2000 ⟨0 - 8 * (i : ℚ), 0⟩ = true) →
        Vec2.distSq ⟨0, 0⟩ ⟨ex, 0⟩ < 2000 ^ 2) ∧
      ((∃ ent ∈ ([] : List JEnt), entBlocks ent = true ∧ ent.visible = true ∧
        ent.active = true ∧ 0 ≤ ent.bounds.width ∧
        ent.bounds.x + ent.bounds.width < (0 : ℚ) ∧
        (0 : ℚ) - 2000 < ent.bounds.x + ent.bounds.width ∧ ent.bounds.y < 0 ∧
        (0 : ℚ) < ent.bounds.y + ent.bounds.height) →
        Vec2.distSq ⟨0, 0⟩ ⟨ex, 0⟩ < 2000 ^ 2)) ∧
    (∃ ey : ℚ,
      (traceLaser ⟨0, 0⟩ ⟨0, 1⟩ [] (some wallAt2000)).endPoint =
        (.fin (0 : ℚ), .fin ey) ∧
      (0 : ℚ) ≤ ey ∧ Vec2.distSq ⟨0, 0⟩ ⟨0, ey⟩ ≤ 2056 ^ 2 ∧
      ((∃ i : Nat, 1 ≤ i ∧ i ≤ 243 ∧
          wallAt2000 ⟨0, 0 + 8 * (i : ℚ)⟩ = true) →
        Vec2.distSq ⟨0, 0⟩ ⟨0, ey⟩ < 2000 ^ 2) ∧
      ((∃ ent ∈ ([] : List JEnt), entBlocks ent = true ∧ ent.visible = true ∧
        ent.active = true ∧ 0 ≤ ent.bounds.height ∧ (0 : ℚ) < ent.bounds.y ∧
        ent.bounds.y < 0 + 2000 ∧ ent.bounds.x < 0 ∧
        (0 : ℚ) < ent.bounds.x + ent.bounds.width) →
        Vec2.distSq ⟨0, 0⟩ ⟨0, ey⟩ < 2000 ^ 2)) ∧
    (∃ ey : ℚ,
      (traceLaser ⟨0, 0⟩ ⟨0, -1⟩ [] (some wallAt2000)).endPoint =
        (.fin (0 : ℚ), .fin ey) ∧
      ey ≤ (0 : ℚ) ∧ Vec2.distSq ⟨0, 0⟩ ⟨0, ey⟩ ≤ 2056 ^ 2 ∧
      ((∃ i : Nat, 1 ≤ i ∧ i ≤ 243 ∧
          wallAt2000 ⟨0, 0 - 8 * (i : ℚ)⟩ = true) →
        Vec2.distSq ⟨0, 0⟩ ⟨0, ey⟩ < 2000 ^ 2) ∧
      ((∃ ent ∈ ([] : List JEnt), entBlocks ent = true ∧ ent.visible = true ∧
        ent.active = true ∧ 0 ≤ ent.bounds.height ∧
        ent.bounds.y + ent.bounds.height < (0 : ℚ) ∧
        (0 : ℚ) - 2000 < ent.bounds.y + ent.bounds.height ∧ ent.bounds.x < 0 ∧
        (0 : ℚ) < ent.bounds.x + ent.bounds.width) →
        Vec2.distSq ⟨0, 0⟩ ⟨0, ey⟩ < 2000 ^ 2)) :=
  laser_truncation_amended ⟨0, 0⟩ [] wallAt2000 (by simp)

end Watt

namespace Watt

/- ===== C1 section (powerManagement.js) ===== -/

/-- `String.prototype.split` with a single-character separator, as used by
`connectionKey.split("_")` in `updatePowerCellStates`: cut the string at
every occurrence of the separator (adjacent separators yield empty
fields, exactly as in JavaScript). -/
def splitOnChar (c : Char) (s : String) : List String :=
  (s.toList.foldr (fun ch acc =>
    if ch = c then [] :: acc
    else match acc with
      | [] => [[ch]]
      | h :: t => (ch :: h) :: t) [([] : List Char)]).map (fun l => String.mk l)

/-- The slice of a game entity read by `powerManagement.js`: its
constructor name (`LaserEmitter` / `PowerCell`), `id`, `getCenter()`,
`width`/`height`, and — for lasers — `isActive`, `direction` and
`getLaserStart()` (`none` models a `null` return), and — for cells —
`isPowered`/`laserPowered`. -/
structure PEnt where
  kind : String
  id : String
  center : Vec2
  width : ℚ
  height : ℚ
  isActive : Bool
  direction : String
  isPowered : Bool
  laserPowered : Bool
  laserStart : Option Vec2
deriving DecidableEq

/-- A laser beam as consumed by `updatePowerCellStates`: `start`/`end`
points, either of which may be `null`. -/
structure Beam where
  bstart : Option Vec2
  bend : Option Vec2
deriving DecidableEq

/-- `LaserPowerState` (`powerManagement.js` lines 11–42). `Date.now()` is
modelled by the `now : ℕ` argument threaded through each call. -/
structure LaserPowerState where
  laserId : String
  powerCellId : String
  isConnected : Bool
  lastConnectedTime : ℕ
  totalPowerTime : ℕ
  connectionCount : ℕ
deriving DecidableEq

def LaserPowerState.mkNew (laserId powerCellId : String) : LaserPowerState :=
  { laserId := laserId, powerCellId := powerCellId, isConnected := false,
    lastConnectedTime := 0, totalPowerTime := 0, connectionCount := 0 }

def LaserPowerState.connect (s : LaserPowerState) (now : ℕ) : LaserPowerState :=
  if s.isConnected then s
  else { s with isConnected := true, lastConnectedTime := now,
                connectionCount := s.connectionCount + 1 }

def LaserPowerState.disconnect (s : LaserPowerState) (now : ℕ) : LaserPowerState :=
  if s.isConnected then
    { s with isConnected := false,
             totalPowerTime := s.totalPowerTime + (now - s.lastConnectedTime) }
  else s

def LaserPowerState.updateTotalTime (s : LaserPowerState) (now : ℕ) :
    LaserPowerState :=
  if s.isConnected then
    { s with totalPowerTime := s.totalPowerTime + (now - s.lastConnectedTime),
             lastConnectedTime := now }
  else s

/-- The per-laser record seeded by `initialize` and maintained by
`updateLaserStates`. -/
structure LaserState where
  id : String
  isActive : Bool
  direction : String
  position : Vec2
  lastRotation : ℕ
  activationCount : ℕ
deriving DecidableEq

/-- The per-cell record seeded by `initialize` and maintained by
`updatePowerCellStates`. -/
structure CellState where
  id : String
  isPowered : Bool
  laserPowered : Bool
  position : Vec2
  poweringLasers : List String
  lastPowerChange : ℕ
deriving DecidableEq

/-- A JavaScript `Map` as an insertion-ordered association list:
`get`. -/
def mapGet {α : Type} (m : List (String × α)) (k : String) : Option α :=
  (m.find? (fun p => p.1 == k)).map Prod.snd

/-- `Map.set`: replace in place if the key exists, else append. -/
def mapSet {α : Type} (m : List (String × α)) (k : String) (v : α) :
    List (String × α) :=
  if (m.find? (fun p => p.1 == k)).isSome then
    m.map (fun p => if p.1 == k then (k, v) else p)
  else m ++ [(k, v)]

/-- `Map.has`. -/
def mapHas {α : Type} (m : List (String × α)) (k : String) : Bool :=
  (m.find? (fun p => p.1 == k)).isSome

/-- The mutable state of `PowerManagementSystem` that `update` touches:
the three `Map`s plus the two statistics counters (times in ms as ℕ).
Event listeners are modelled separately: `update` returns the list of
events it emits, in emission order. -/
structure PMState where
  powerStates : List (String × LaserPowerState)
  laserStates : List (String × LaserState)
  cellStates : List (String × CellState)
  totalCellPowerings : ℕ
  totalPowerTime : ℕ
deriving DecidableEq

/-- One emitted power event (`POWER_EVENTS`), with the id fields of its
payload (position payload fields carry no information about *whether* an
event fires and are omitted). -/
inductive PEvent where
  | laserActivated (laserId : String)
  | laserDeactivated (laserId : String)
  | laserRotated (laserId oldDirection newDirection : String)
  | laserHitCell (laserId cellId : String)
  | laserLostCell (laserId cellId : String)
  | cellPowered (cellId : String) (poweringLasers : List String)
  | cellUnpowered (cellId : String)
deriving DecidableEq

/-- `initialize(entities)` on a freshly constructed system: seed
`laserStates` and `cellStates` from the filtered entity list, with empty
`powerStates` and zeroed statistics. -/
def initializeSystem (entities : List PEnt) : PMState :=
  let lasers := entities.filter (fun e => e.kind == "LaserEmitter")
  let powerCells := entities.filter (fun e => e.kind == "PowerCell")
  { powerStates := []
    laserStates := lasers.foldl (fun m laser =>
      mapSet m laser.id
        { id := laser.id, isActive := laser.isActive,
          direction := laser.direction, position := laser.center,
          lastRotation := 0, activationCount := 0 }) []
    cellStates := powerCells.foldl (fun m cell =>
      mapSet m cell.id
        { id := cell.id, isPowered := cell.isPowered,
          laserPowered := cell.laserPowered, position := cell.center,
          poweringLasers := [], lastPowerChange := 0 }) []
    totalCellPowerings := 0
    totalPowerTime := 0 }

/-- `updateLaserStates(entities)`: per laser with a seeded state, emit
activation / deactivation / rotation events on flag or direction changes
and refresh the stored state. -/
def updateLaserStates (entities : List PEnt) (now : ℕ) (st : PMState) :
    PMState × List PEvent :=
  let lasers := entities.filter (fun e => e.kind == "LaserEmitter")
  lasers.foldl (fun acc laser =>
    match mapGet acc.1.laserStates laser.id with
    | none => acc
    | some cur0 =>
      let wasActive := cur0.isActive
      let oldDirection := cur0.direction
      let step1 : LaserState × List PEvent :=
        if laser.isActive != wasActive then
          let cur1 := { cur0 with isActive := laser.isActive }
          if laser.isActive then
            ({ cur1 with activationCount := cur1.activationCount + 1 },
             acc.2 ++ [.laserActivated laser.id])
          else (cur1, acc.2 ++ [.laserDeactivated laser.id])
        else (cur0, acc.2)
      let step2 : LaserState × List PEvent :=
        if laser.direction != oldDirection then
          ({ step1.1 with direction := laser.direction, lastRotation := now },
           step1.2 ++ [.laserRotated laser.id oldDirection laser.direction])
        else step1
      let cur := { step2.1 with position := laser.center }
      ({ acc.1 with laserStates := mapSet acc.1.laserStates laser.id cur },
       step2.2))
    (st, [])

/-- `pointToLineDistance(point, lineStart, lineEnd)`, returning the
*squared* distance: the source returns `Math.sqrt(dx*dx + dy*dy)` and its
only caller compares the result against the nonnegative threshold
`cellRadius + 5`, so comparing squares is equivalent. -/
def pointToLineDistSq (point lineStart lineEnd : Vec2) : ℚ :=
  let a := point.x - lineStart.x
  let b := point.y - lineStart.y
  let c := lineEnd.x - lineStart.x
  let d := lineEnd.y - lineStart.y
  let dot := a * c + b * d
  let lenSq := c * c + d * d
  if lenSq = 0 then Vec2.distSq point lineStart
  else
    let param := dot / lenSq
    let xx := if param < 0 then lineStart.x
      else if param > 1 then lineEnd.x
      else lineStart.x + param * c
    let yy := if param < 0 then lineStart.y
      else if param > 1 then lineEnd.y
      else lineStart.y + param * d
    (point.x - xx) * (point.x - xx) + (point.y - yy) * (point.y - yy)

/-- `findLaserForBeam(beam, lasers)`: the active laser whose
`getLaserStart()` is closest to the beam start and within 50 px
(`closestDistance` starts at `Infinity`, modelled by `none`; distances
are compared squared, which is equivalent since `Math.sqrt` is
monotone). The caller guarantees `beam.start` is non-null, so the start
point is passed directly. -/
def findLaserForBeam (bstart : Vec2) (lasers : List PEnt) : Option PEnt :=
  (lasers.foldl (fun (acc : Option PEnt × Option ℚ) laser =>
    if !laser.isActive then acc
    else match laser.laserStart with
      | none => acc
      | some ls =>
        let d2 := Vec2.distSq ls bstart
        let closer : Bool := match acc.2 with
          | none => true
          | some c2 => decide (d2 < c2)
        if closer && decide (d2 < 50 ^ 2) then (some laser, some d2)
        else acc) (none, none)).1

/-- The first `powerCells.forEach` of `updatePowerCellStates`: reset
`poweringLasers` on every cell that has a seeded state. -/
def clearPoweringLasers (cellStates : List (String × CellState))
    (powerCells : List PEnt) : List (String × CellState) :=
  powerCells.foldl (fun m cell =>
    match mapGet m cell.id with
    | some cs => mapSet m cell.id { cs with poweringLasers := [] }
    | none => m) cellStates

/-- The running data of the `laserBeams.forEach` body for one cell: the
cell's live state record, the `powerStates` map and the events emitted so
far. -/
structure BeamAcc where
  cs : CellState
  powerStates : List (String × LaserPowerState)
  evs : List PEvent

/-- The `laserBeams.forEach` body of `updatePowerCellStates` for one
cell: skip beams with a missing endpoint or no matching laser; when the
beam passes within `cellRadius + 5` of the cell centre, record the laser
in `poweringLasers`, create the `` `${hitLaser.id}_${cell.id}` ``
connection entry if absent, and — if it is not yet connected — connect it
and emit `laser_hit_cell`. (The source compares
`distanceToBeam <= cellRadius + 5` on square roots; squares are compared
here, with the threshold's nonnegativity made explicit.) -/
def processBeam (lasers : List PEnt) (cellId : String) (cellCenter : Vec2)
    (r5 : ℚ) (now : ℕ) (acc : BeamAcc) (beam : Beam) : BeamAcc :=
  match beam.bstart, beam.bend with
  | some bs, some be =>
    (match findLaserForBeam bs lasers with
     | none => acc
     | some hitLaser =>
       let d2 := pointToLineDistSq cellCenter bs be
       if 0 ≤ r5 ∧ d2 ≤ r5 ^ 2 then
         let cs := { acc.cs with
           poweringLasers := acc.cs.poweringLasers ++ [hitLaser.id] }
         let connectionKey := hitLaser.id ++ "_" ++ cellId
         let ps0 :=
           if mapHas acc.powerStates connectionKey then acc.powerStates
           else mapSet acc.powerStates connectionKey
             (LaserPowerState.mkNew hitLaser.id cellId)
         match mapGet ps0 connectionKey with
         | none => { cs := cs, powerStates := ps0, evs := acc.evs }
         | some ps =>
           if ps.isConnected then { cs := cs, powerStates := ps0, evs := acc.evs }
           else
             { cs := cs,
               powerStates := mapSet ps0 connectionKey (ps.connect now),
               evs := acc.evs ++ [.laserHitCell hitLaser.id cellId] }
       else acc)
  | _, _ => acc

/-- The second `powerCells.forEach` of `updatePowerCellStates` for one
cell: run the beam loop, then apply the edge-triggered powered check —
`isPowered` flips exactly when `poweringLasers` becomes (non-)empty, and
only a flip increments `totalCellPowerings` and emits
`cell_powered` / `cell_unpowered`. -/
def processCell (lasers : List PEnt) (beams : List Beam) (now : ℕ)
    (acc : PMState × List PEvent) (cell : PEnt) : PMState × List PEvent :=
  match mapGet acc.1.cellStates cell.id with
  | none => acc
  | some cs0 =>
    let cellCenter := cell.center
    let cellRadius := Max.max cell.width cell.height / 2
    let r := beams.foldl (processBeam lasers cell.id cellCenter
        (cellRadius + 5) now)
      { cs := cs0, powerStates := acc.1.powerStates, evs := acc.2 }
    let wasPowered := r.cs.isPowered
    let isPowered : Bool := decide (0 < r.cs.poweringLasers.length)
    if isPowered != wasPowered then
      let cs := { r.cs with isPowered := isPowered, laserPowered := isPowered,
                            lastPowerChange := now }
      let st := { acc.1 with powerStates := r.powerStates,
                             cellStates := mapSet acc.1.cellStates cell.id cs }
      if isPowered then
        ({ st with totalCellPowerings := st.totalCellPowerings + 1 },
         r.evs ++ [.cellPowered cell.id cs.poweringLasers])
      else (st, r.evs ++ [.cellUnpowered cell.id])
    else
      ({ acc.1 with powerStates := r.powerStates,
                    cellStates := mapSet acc.1.cellStates cell.id r.cs },
       r.evs)

/-- The final `this.powerStates.forEach` of `updatePowerCellStates`: for
every connected entry, recover the ids with
`connectionKey.split("_")` — destructured into its FIRST TWO fields only —
and disconnect (emitting `laser_lost_cell`) unless that cell's
`poweringLasers` contains that laser id. (A missing field of the
destructuring is JavaScript `undefined`, which matches no map key and no
list element; it is modelled by `""`, assuming no entity id is the empty
string.) Only values change during the loop, so it is a rebuild-in-order
fold. -/
def reconcileConnections (cellStates : List (String × CellState)) (now : ℕ)
    (powerStates : List (String × LaserPowerState)) :
    List (String × LaserPowerState) × List PEvent :=
  powerStates.foldl (fun acc entry =>
    if entry.2.isConnected then
      let parts := splitOnChar '_' entry.1
      let laserId := parts.getD 0 ""
      let cellId := parts.getD 1 ""
      let ok : Bool := match mapGet cellStates cellId with
        | none => false
        | some cs => cs.poweringLasers.contains laserId
      if ok then (acc.1 ++ [entry], acc.2)
      else (acc.1 ++ [(entry.1, entry.2.disconnect now)],
            acc.2 ++ [.laserLostCell laserId cellId])
    else (acc.1 ++ [entry], acc.2)) ([], [])

/-- `updatePowerCellStates(entities, laserBeams)`. -/
def updatePowerCellStates (entities : List PEnt) (laserBeams : List Beam)
    (now : ℕ) (st : PMState) : PMState × List PEvent :=
  let powerCells := entities.filter (fun e => e.kind == "PowerCell")
  let lasers := entities.filter (fun e => e.kind == "LaserEmitter")
  let st1 := { st with cellStates := clearPoweringLasers st.cellStates powerCells }
  let r := powerCells.foldl (processCell lasers laserBeams now) (st1, [])
  let rec2 := reconcileConnections r.1.cellStates now r.1.powerStates
  ({ r.1 with powerStates := rec2.1 }, r.2 ++ rec2.2)

/-- `updateConnectionStates()`: accrue connected time on every entry. -/
def updateConnectionStates (now : ℕ) (st : PMState) : PMState :=
  { st with powerStates :=
      st.powerStates.map (fun e => (e.1, e.2.updateTotalTime now)) }

/-- `updateStatistics()`: recompute `stats.totalPowerTime`. -/
def updateStatistics (st : PMState) : PMState :=
  { st with totalPowerTime :=
      st.powerStates.foldl (fun acc e => acc + e.2.totalPowerTime) 0 }

/-- `update(entities, laserBeams)`: one tick, returning the new state and
the events emitted, in order. -/
def update (entities : List PEnt) (laserBeams : List Beam) (now : ℕ)
    (st : PMState) : PMState × List PEvent :=
  let r1 := updateLaserStates entities now st
  let r2 := updatePowerCellStates entities laserBeams now r1.1
  let st3 := updateConnectionStates now r2.1
  let st4 := updateStatistics st3
  (st4, r1.2 ++ r2.2)

/-- An active laser with the underscore-bearing id `laser_1` (every id the
generator assigns to auto-placed emitters and cells —
`` `auto_emitter_${tile.id}_${n}` ``, `` `auto_cell_${tile.id}_${n}` `` in
`dungeonGen.js` — contains underscores), whose beam start sits at its
laser start. -/
def c1Laser : PEnt :=
  { kind := "LaserEmitter", id := "laser_1", center := ⟨16, 16⟩,
    width := 32, height := 32, isActive := true, direction := "right",
    isPowered := false, laserPowered := false, laserStart := some ⟨0, 0⟩ }

/-- A power cell whose centre lies on the beam segment. -/
def c1Cell : PEnt :=
  { kind := "PowerCell", id := "cell1", center := ⟨100, 0⟩,
    width := 32, height := 32, isActive := false, direction := "",
    isPowered := false, laserPowered := false, laserStart := none }

/-- A beam from the laser start through the cell centre. -/
def c1Beam : Beam := { bstart := some ⟨0, 0⟩, bend := some ⟨200, 0⟩ }

def c1Entities : List PEnt := [c1Laser, c1Cell]

def c1Beams : List Beam := [c1Beam]

/-- C1 (code bug): with a laser id containing an underscore
(`laser_1`) and an *unchanged* beam/entity configuration, the second
`update` tick re-emits `laser_hit_cell` for the same (laser, cell) pair —
and every tick additionally emits a spurious `laser_lost_cell` with the
garbled ids `laser` / `1`. The reconciliation pass parses the connection
key `laser_1_cell1` with `split("_")`, destructuring only the first two
fragments, so it looks up the nonexistent cell `1`, disconnects the
connection each tick, and the next tick's beam pass finds it disconnected
and re-fires the edge-triggered event. -/
theorem power_event_reemission_bug :
    (update c1Entities c1Beams 1000 (initializeSystem c1Entities)).2 =
      [.laserHitCell "laser_1" "cell1", .cellPowered "cell1" ["laser_1"],
       .laserLostCell "laser" "1"] ∧
    (update c1Entities c1Beams 1016
        (update c1Entities c1Beams 1000 (initializeSystem c1Entities)).1).2 =
      [.laserHitCell "laser_1" "cell1", .laserLostCell "laser" "1"] := by
  constructor
  · norm_num [update, updateLaserStates, updatePowerCellStates,
      clearPoweringLasers, processCell, processBeam, reconcileConnections,
      updateConnectionStates, updateStatistics, initializeSystem,
      mapGet, mapSet, mapHas, findLaserForBeam, pointToLineDistSq,
      Vec2.distSq, splitOnChar, LaserPowerState.mkNew,
      LaserPowerState.connect, LaserPowerState.disconnect,
      LaserPowerState.updateTotalTime, c1Entities, c1Beams, c1Laser, c1Cell,
      c1Beam, List.foldl, List.filter, List.find?]
    decide
  · norm_num [update, updateLaserStates, updatePowerCellStates,
      clearPoweringLasers, processCell, processBeam, reconcileConnections,
      updateConnectionStates, updateStatistics, initializeSystem,
      mapGet, mapSet, mapHas, findLaserForBeam, pointToLineDistSq,
      Vec2.distSq, splitOnChar, LaserPowerState.mkNew,
      LaserPowerState.connect, LaserPowerState.disconnect,
      LaserPowerState.updateTotalTime, c1Entities, c1Beams, c1Laser, c1Cell,
      c1Beam, List.foldl, List.filter, List.find?]
    decide

end Watt
